import Mathlib

/-!
# KPDF document core: observer ledgers and memory clean-up

A shallow embedding of the memory management and life cycle code of
`core/document.cpp` (`KPDFDocument::requestPixmaps`, `mCleanupMemory`,
`slotCheckMemory`, `openDocument`, `closeDocument`, `addObserver`,
`removeObserver`, `setCurrentPage`, `slotGeneratedContents`).

Conventions of the embedding.

* `QMap<int, T>` is a list of `(key, value)` pairs kept in ascending key
  order, which is the order a `QMap` iterator walks.
* `int` values of the ledger (`totalMemory`, the sizes of `pageMemory`,
  `memoryToFree`) are exact integers; the product `4 * width * height` of
  `requestPixmaps` is wrapped to 32 bits, and `/` is the truncating
  division of C++.
* What the engine reads from outside during one step (the settings, the two
  memory readings, the answers of `canUnloadPixmap`) is collected in a
  `Host` record that the step takes as an argument.
* A dereference of a null pointer (an observer id that is not registered)
  and a read of the page vector outside its bounds have no defined result:
  the operation returns `none`.
-/

namespace KPDF

/-! ## QMap -/

/-- A `QMap<int, T>`: the entries in ascending key order. -/
abbrev QMap (β : Type) := List (Int × β)

namespace QMap

/-- Value stored under `k`, if there is one (`QMap::find`). -/
def find {β : Type} : QMap β → Int → Option β
  | [], _ => none
  | (k', v) :: m, k => if k' = k then some v else find m k

/-- Membership test `QMap::contains`. -/
def contains {β : Type} (m : QMap β) (k : Int) : Bool :=
  (find m k).isSome

/-- Assignment `m[k] = v`: replaces the value of an existing key, inserts a
new entry at its place in the key order otherwise. -/
def insert {β : Type} : QMap β → Int → β → QMap β
  | [], k, v => [(k, v)]
  | (k', v') :: m, k, v =>
    if k < k' then (k, v) :: (k', v') :: m
    else if k = k' then (k, v) :: m
    else (k', v') :: insert m k v

/-- Removal by key, `QMap::remove( key )`. -/
def remove {β : Type} (m : QMap β) (k : Int) : QMap β :=
  m.filter (fun e => decide (e.1 ≠ k))

/-- Keys in iteration order. -/
def keys {β : Type} (m : QMap β) : List Int :=
  m.map Prod.fst

/-- The representation invariant of a `QMap`: keys strictly ascending. -/
def WF {β : Type} (m : QMap β) : Prop :=
  List.Pairwise (fun a b => a < b) (keys m)

instance decidableWF {β : Type} (m : QMap β) : Decidable (WF m) := by
  unfold WF
  infer_instance

/-- Sum of the stored sizes of an `int → int` map. -/
def total (m : QMap Int) : Int :=
  (m.map Prod.snd).sum

/-- Read access `m[k]` on an `int → int` map (0 for a missing key). -/
def value (m : QMap Int) (k : Int) : Int :=
  (find m k).getD 0

end QMap

/-! ## Data model -/

/-- Modelled from the spec: the page class of `core/page.h` is not among the
sources. A page has a zero-based index, a width and a height, and holds per
observer id zero or one cached pixmap; `pixmaps` lists the observer ids that
hold one. -/
structure KPDFPage where
  number : Int
  width : Int
  height : Int
  pixmaps : List Int
  deriving DecidableEq, Repr

/-- Modelled from the spec: `KPDFPage::deletePixmap( id )` of `core/page.cpp`
(not among the sources) clears the artifact the page holds for observer
`id`. -/
def KPDFPage.deletePixmap (p : KPDFPage) (id : Int) : KPDFPage :=
  { p with pixmaps := p.pixmaps.filter (fun i => decide (i ≠ id)) }

/-- An observer object as the document sees it: an identity (`handle`, the
pointer) and the id it reports through `observerId()`. -/
structure KPDFDocumentObserver where
  handle : Nat
  observerId : Int
  deriving DecidableEq, Repr

/-- A `PixmapRequest`: target observer id, page number and pixel size. -/
structure PixmapRequest where
  id : Int
  pageNumber : Int
  width : Int
  height : Int
  deriving DecidableEq, Repr

/-- The `ObserverData` struct. -/
structure ObserverData where
  observer : KPDFDocumentObserver
  pageMemory : QMap Int
  totalMemory : Int
  deriving DecidableEq, Repr

/-- Constructor `ObserverData( obs )`: empty `pageMemory`, `totalMemory( 0 )`. -/
def ObserverData.new (obs : KPDFDocumentObserver) : ObserverData :=
  { observer := obs, pageMemory := [], totalMemory := 0 }

/-- The state of a `KPDFDocument` that memory management and the document
life cycle read and write: whether a generator exists, the page vector, the
observers map, the cached page numbers of `KPDFDocumentPrivate` and the
member `documentFileName` (`none` for a null string). -/
structure KPDFDocument where
  generator : Bool
  pages_vector : List KPDFPage
  observers : QMap ObserverData
  currentPage : Int
  searchPage : Int
  documentFileName : Option String
  deriving DecidableEq, Repr

/-- Constructor `KPDFDocument()`: no generator, no pages, no observers. -/
def KPDFDocument.new : KPDFDocument :=
  { generator := false, pages_vector := [], observers := [],
    currentPage := -1, searchPage := -1, documentFileName := none }

/-- The values of `Settings::EnumMemoryLevel`. -/
inductive MemoryLevel where
  | Low
  | Normal
  | Aggressive
  deriving DecidableEq, Repr

/-- What one step of the engine reads from outside: `Settings::memoryLevel()`,
the results of `mTotalMemory()` and `mFreeMemory()`, the answers of the
observers to `canUnloadPixmap`, `Settings::disableThreading()`, and the
constant `THUMBNAILS_ID` of `observer.h` (not among the sources). -/
structure Host where
  memoryLevel : MemoryLevel
  mTotalMemory : Int
  mFreeMemory : Int
  canUnloadPixmap : KPDFDocumentObserver → Int → Bool
  disableThreading : Bool
  THUMBNAILS_ID : Int

/-- The calls an observer can receive from the document. -/
inductive Notification where
  | pageSetup (pages : List KPDFPage) (documentChanged : Bool)
  | pageSetCurrent (page : Int)
  | notifyPixmapChanged (page : Int)
  | notifyPixmapsCleared
  deriving DecidableEq, Repr

/-- The macro `foreachObserver( cmd )`: `cmd` is called on the observer of
every entry of the observers map, in the order of the map. -/
def foreachObserver (s : KPDFDocument) (cmd : Notification) :
    List (KPDFDocumentObserver × Notification) :=
  s.observers.map (fun e => (e.2.observer, cmd))

/-! ## Pages -/

/-- The read `pages_vector[ n ]`. A `QValueVector` does not check the index:
the read has a value only for an index inside the vector, and is `none`
otherwise. The pages of the vector are objects, never null pointers. -/
def pageAt (pv : List KPDFPage) (n : Int) : Option KPDFPage :=
  if 0 ≤ n then pv[n.toNat]? else none

/-- The call `pages_vector[ pageNumber ]->deletePixmap( observerId )`; `none`
when there is no such page. -/
def deletePixmapAt (pv : List KPDFPage) (pageNumber observerId : Int) :
    Option (List KPDFPage) :=
  match pageAt pv pageNumber with
  | none => none
  | some p => some (pv.set pageNumber.toNat (p.deletePixmap observerId))

/-! ## The eviction target -/

/-- The 32-bit two's complement value of an integer. -/
def wrapInt (x : Int) : Int :=
  (x + 2147483648) % 4294967296 - 2147483648

/-- The value of `clipValue` after the switch of `mCleanupMemory`. -/
def clipValue (h : Host) (totalMemory : Int) : Int :=
  match h.memoryLevel with
  | .Low => 0
  | .Normal => totalMemory - Int.tdiv h.mFreeMemory 3
  | .Aggressive => totalMemory - Int.tdiv h.mFreeMemory 2

/-- The value of `memoryToFree` after the switch of `mCleanupMemory`. -/
def switchMemoryToFree (h : Host) (observerId totalMemory : Int) : Int :=
  match h.memoryLevel with
  | .Low => totalMemory
  | .Normal =>
    if observerId = h.THUMBNAILS_ID then totalMemory - Int.tdiv h.mTotalMemory 20
    else totalMemory - Int.tdiv h.mTotalMemory 5
  | .Aggressive => 0

/-- The value of `memoryToFree` that `mCleanupMemory` tests against 0: the
switch, then `if ( clipValue > memoryToFree ) memoryToFree = clipValue`. -/
def memoryToFree (h : Host) (observerId totalMemory : Int) : Int :=
  if clipValue h totalMemory > switchMemoryToFree h observerId totalMemory then
    clipValue h totalMemory
  else switchMemoryToFree h observerId totalMemory

/-! ## The eviction pass -/

/-- What the while loop of `mCleanupMemory` leaves behind: the part of
`pageMemory` from the position where the loop started, `totalMemory`, the
pages, and two records of what happened: the pages for which
`canUnloadPixmap` was called, in call order, and the entries that were
removed, in removal order (`freed` of the source is the length of
`removed`). -/
structure Walk where
  pageMemory : QMap Int
  totalMemory : Int
  pages_vector : List KPDFPage
  asked : List Int
  removed : List (Int × Int)
  deriving DecidableEq, Repr

/-- The loop `while ( (it != end) && (memoryToFree > 0) )` of
`mCleanupMemory`. The first argument is the range from `it` to `end`; an
entry the iterator has passed and kept is put back in front of the result,
a removed one is not. -/
def cleanupLoop (canUnloadPixmap : Int → Bool) (observerId : Int) :
    QMap Int → Int → Int → List KPDFPage → Option Walk
  | [], _, totalMemory, pv =>
    some { pageMemory := [], totalMemory := totalMemory, pages_vector := pv,
           asked := [], removed := [] }
  | (pageNumber, data) :: rest, memoryToFree, totalMemory, pv =>
    if memoryToFree > 0 then
      if canUnloadPixmap pageNumber then
        match deletePixmapAt pv pageNumber observerId with
        | none => none
        | some pv' =>
          match cleanupLoop canUnloadPixmap observerId rest (memoryToFree - data)
              (totalMemory - data) pv' with
          | none => none
          | some w =>
            some { w with asked := pageNumber :: w.asked,
                          removed := (pageNumber, data) :: w.removed }
      else
        match cleanupLoop canUnloadPixmap observerId rest memoryToFree totalMemory pv with
        | none => none
        | some w =>
          some { w with pageMemory := (pageNumber, data) :: w.pageMemory,
                        asked := pageNumber :: w.asked }
    else
      some { pageMemory := (pageNumber, data) :: rest, totalMemory := totalMemory,
             pages_vector := pv, asked := [], removed := [] }

/-- Record of one eviction pass: the observer id it ran for, the pages for
which `canUnloadPixmap` was called, in call order, and the entries removed,
in removal order. -/
structure Eviction where
  observerId : Int
  asked : List Int
  removed : List (Int × Int)
  deriving DecidableEq, Repr

/-- Result of one call of `mCleanupMemory`: the record of the pass and the
document afterwards. -/
structure Pass extends Eviction where
  doc : KPDFDocument
  deriving DecidableEq, Repr

/-- The function `KPDFDocument::mCleanupMemory( observerId )`. -/
def mCleanupMemory (h : Host) (observerId : Int) (s : KPDFDocument) : Option Pass :=
  match QMap.find s.observers observerId with
  | none => none
  | some obs =>
    if memoryToFree h observerId obs.totalMemory ≤ 0 then
      some { doc := s, observerId := observerId, asked := [], removed := [] }
    else
      match cleanupLoop (h.canUnloadPixmap obs.observer) observerId obs.pageMemory
          (memoryToFree h observerId obs.totalMemory) obs.totalMemory s.pages_vector with
      | none => none
      | some w =>
        some { doc := { s with
                 pages_vector := w.pages_vector
                 observers := QMap.insert s.observers observerId
                   { obs with pageMemory := w.pageMemory, totalMemory := w.totalMemory } }
               observerId := observerId
               asked := w.asked
               removed := w.removed }

/-! ## Requests -/

/-- The expression `4 * request->width * request->height / 1024`. -/
def pixmapMemory (width height : Int) : Int :=
  Int.tdiv (wrapInt (wrapInt (4 * width) * height)) 1024

/-- Step 1 of the loop body of `requestPixmaps`: update `pageMemory` and
`totalMemory` of the observer for the pixmap of this request. -/
def updateStatistics (request : PixmapRequest) (obs : ObserverData) : ObserverData :=
  { obs with
    pageMemory := QMap.insert obs.pageMemory request.pageNumber
      (pixmapMemory request.width request.height)
    totalMemory :=
      (if QMap.contains obs.pageMemory request.pageNumber then
        obs.totalMemory - QMap.value obs.pageMemory request.pageNumber
       else obs.totalMemory) + pixmapMemory request.width request.height }

/-- A request that `requestPixmaps` lets through: its page number is inside
the page vector and the page has width and height of at least 1. -/
def validRequest (s : KPDFDocument) (request : PixmapRequest) : Bool :=
  match pageAt s.pages_vector request.pageNumber with
  | none => false
  | some page => !(decide (page.width < 1) || decide (page.height < 1))

/-- Step 1 on the document: the statistics of the observer `request->id`;
`none` when no observer is registered under that id. -/
def accountRequest (request : PixmapRequest) (s : KPDFDocument) : Option KPDFDocument :=
  match QMap.find s.observers request.id with
  | none => none
  | some obs =>
    some { s with observers := QMap.insert s.observers request.id (updateStatistics request obs) }

/-- Result of `requestPixmaps`: the document afterwards, the requests handed
to `generator->requestPixmap` with their `async` argument, in order, and the
eviction passes that ran, in order. -/
structure Dispatch where
  doc : KPDFDocument
  forwarded : List (PixmapRequest × Bool)
  passes : List Eviction
  deriving DecidableEq, Repr

/-- The for loop of `requestPixmaps`. The hosts are those of the successive
eviction passes: `host 0` serves the next pass. The read
`pages_vector[ request->pageNumber ]` of a page number outside the vector
has no value and the loop has no result; the test `!request->page` is never
true of a page of the vector. -/
def requestLoop (host : Nat → Host) : List PixmapRequest → Bool → KPDFDocument → Option Dispatch
  | [], _, s => some { doc := s, forwarded := [], passes := [] }
  | request :: rest, async, s =>
    match pageAt s.pages_vector request.pageNumber with
    | none => none
    | some page =>
      if decide (page.width < 1) || decide (page.height < 1) then
        requestLoop host rest async s
      else
        match accountRequest request s with
        | none => none
        | some s1 =>
          match mCleanupMemory (host 0) request.id s1 with
          | none => none
          | some p =>
            match requestLoop (fun i => host (i + 1)) rest async p.doc with
            | none => none
            | some d =>
              some { d with
                forwarded := (request, if (host 0).disableThreading then false else async)
                  :: d.forwarded
                passes := p.toEviction :: d.passes }

/-- The function `KPDFDocument::requestPixmaps( requests, async )`. -/
def requestPixmaps (host : Nat → Host) (requests : List PixmapRequest) (async : Bool)
    (s : KPDFDocument) : Option Dispatch :=
  if s.generator then requestLoop host requests async s
  else some { doc := s, forwarded := [], passes := [] }

/-! ## Housekeeping, registration, close -/

/-- Result of `slotCheckMemory`: the document afterwards and the passes that
ran, in order. -/
structure Sweep where
  doc : KPDFDocument
  passes : List Eviction
  deriving DecidableEq, Repr

/-- The for loop of `slotCheckMemory` over the observers map; the first
argument is the range of keys from `it` to `end`. -/
def checkLoop (host : Nat → Host) : List Int → KPDFDocument → Option Sweep
  | [], s => some { doc := s, passes := [] }
  | id :: rest, s =>
    match QMap.find s.observers id with
    | none => checkLoop host rest s
    | some obs =>
      if obs.totalMemory > 1024 then
        match mCleanupMemory (host 0) id s with
        | none => none
        | some p =>
          match checkLoop (fun i => host (i + 1)) rest p.doc with
          | none => none
          | some w => some { w with passes := p.toEviction :: w.passes }
      else checkLoop host rest s

/-- The slot `KPDFDocument::slotCheckMemory()`; the memory level is the one
of the first host. -/
def slotCheckMemory (host : Nat → Host) (s : KPDFDocument) : Option Sweep :=
  if (host 0).memoryLevel = MemoryLevel.Low then some { doc := s, passes := [] }
  else checkLoop host (QMap.keys s.observers) s

/-- The function `KPDFDocument::closeDocument()`: its effect on the document.
Saving the document info and stopping the timer write nothing of the state
modelled here. -/
def closeDocument (s : KPDFDocument) : KPDFDocument :=
  { s with
    generator := false
    pages_vector := []
    observers := s.observers.map
      (fun e => (e.1, { e.2 with pageMemory := [], totalMemory := 0 }))
    currentPage := -1
    searchPage := -1 }

/-- The calls `closeDocument` makes on observers: an empty page list to each. -/
def closeDocumentCalls (s : KPDFDocument) : List (KPDFDocumentObserver × Notification) :=
  foreachObserver s (Notification.pageSetup [] true)

/-- The function `KPDFDocument::addObserver( pObserver )`: its effect on the
document. -/
def addObserver (pObserver : KPDFDocumentObserver) (s : KPDFDocument) : KPDFDocument :=
  { s with observers :=
      QMap.insert s.observers pObserver.observerId (ObserverData.new pObserver) }

/-- The calls `addObserver` makes on observers. -/
def addObserverCalls (pObserver : KPDFDocumentObserver) (s : KPDFDocument) :
    List (KPDFDocumentObserver × Notification) :=
  if s.pages_vector.isEmpty then []
  else [(pObserver, Notification.pageSetup s.pages_vector true)]

/-- The function `KPDFDocument::removeObserver( pObserver )`. -/
def removeObserver (pObserver : KPDFDocumentObserver) (s : KPDFDocument) : KPDFDocument :=
  if QMap.contains s.observers pObserver.observerId then
    { s with
      pages_vector := s.pages_vector.map (fun p => p.deletePixmap pObserver.observerId)
      observers := QMap.remove s.observers pObserver.observerId }
  else s

/-! ## Example data -/

/-- An observer registered under id 7. -/
def demoObserver : KPDFDocumentObserver := { handle := 1, observerId := 7 }

/-- A page that holds a pixmap for observer 7. -/
def demoPage (n : Int) : KPDFPage :=
  { number := n, width := 600, height := 800, pixmaps := [7] }

/-- An open document of three pages; observer 7 has entries for all three. -/
def demoDocument : KPDFDocument :=
  { generator := true
    pages_vector := [demoPage 0, demoPage 1, demoPage 2]
    observers := [(7, { observer := demoObserver
                        pageMemory := [(0, 39), (1, 100), (2, 351)]
                        totalMemory := 490 })]
    currentPage := 0
    searchPage := -1
    documentFileName := some "demo.pdf" }

/-- A host with the given memory level and readings, whose observers refuse
to unload the pages listed in `refused`. -/
def demoHost (level : MemoryLevel) (mTotal mFree : Int) (refused : List Int) : Host :=
  { memoryLevel := level
    mTotalMemory := mTotal
    mFreeMemory := mFree
    canUnloadPixmap := fun _ page => !(refused.contains page)
    disableThreading := false
    THUMBNAILS_ID := 4 }

/-- The ledger of observer 7 in `demoDocument`. -/
def demoLedger : ObserverData :=
  { observer := demoObserver, pageMemory := [(0, 39), (1, 100), (2, 351)], totalMemory := 490 }

/-- The document of the scenario before the request: three pages, observer 7
freshly registered. -/
def freshDocument : KPDFDocument :=
  { generator := true
    pages_vector := [{ number := 0, width := 600, height := 800, pixmaps := [] },
                     { number := 1, width := 600, height := 800, pixmaps := [] },
                     { number := 2, width := 600, height := 800, pixmaps := [] }]
    observers := [(7, ObserverData.new demoObserver)]
    currentPage := 0
    searchPage := -1
    documentFileName := some "demo.pdf" }

/-- The document of the scenario after a 100 x 100 pixmap for page 0 was
requested for observer 7. -/
def scenarioDocument : KPDFDocument :=
  { freshDocument with
    observers := [(7, { observer := demoObserver, pageMemory := [(0, 39)],
                        totalMemory := 39 })] }

/-! ## Reachable states -/

/-- The states a document can be in: the state the constructor leaves, and
every state that `addObserver`, `removeObserver`, `closeDocument`, the
accounting step of `requestPixmaps`, `mCleanupMemory`, `requestPixmaps`,
`slotCheckMemory` produce from such a state under any host; `other` stands
for the operations that do not write the observers map (`openDocument`,
`setCurrentPage`, `reparseConfig`, the search and bookmark functions). -/
inductive Reachable : KPDFDocument → Prop where
  | new : Reachable KPDFDocument.new
  | add (o : KPDFDocumentObserver) (s : KPDFDocument) :
      Reachable s → Reachable (addObserver o s)
  | remove (o : KPDFDocumentObserver) (s : KPDFDocument) :
      Reachable s → Reachable (removeObserver o s)
  | close (s : KPDFDocument) : Reachable s → Reachable (closeDocument s)
  | account (r : PixmapRequest) (s s' : KPDFDocument) :
      Reachable s → accountRequest r s = some s' → Reachable s'
  | cleanup (h : Host) (observerId : Int) (s : KPDFDocument) (p : Pass) :
      Reachable s → mCleanupMemory h observerId s = some p → Reachable p.doc
  | request (host : Nat → Host) (requests : List PixmapRequest) (async : Bool)
      (s : KPDFDocument) (d : Dispatch) :
      Reachable s → requestPixmaps host requests async s = some d → Reachable d.doc
  | check (host : Nat → Host) (s : KPDFDocument) (w : Sweep) :
      Reachable s → slotCheckMemory host s = some w → Reachable w.doc
  | other (s s' : KPDFDocument) :
      Reachable s → s'.observers = s.observers → Reachable s'

/-- The ledgers of an observers map are sound: every `pageMemory` has its keys
in ascending order and every `totalMemory` is the sum of the sizes of its
`pageMemory`. -/
def LedgersSound (m : QMap ObserverData) : Prop :=
  ∀ e, e ∈ m → QMap.WF e.2.pageMemory ∧ e.2.totalMemory = QMap.total e.2.pageMemory

/-- A ledger in good order with no negative size: keys ascending, the total
the sum of the sizes, every size at least 0. -/
def LedgerNonneg (obs : ObserverData) : Prop :=
  QMap.WF obs.pageMemory ∧ obs.totalMemory = QMap.total obs.pageMemory ∧
    ∀ e, e ∈ obs.pageMemory → 0 ≤ e.2

/-- A ledger that accounts for no memory: the total is 0 and every entry
left has size 0. -/
def LedgerZeroed (obs : ObserverData) : Prop :=
  obs.totalMemory = 0 ∧ ∀ e, e ∈ obs.pageMemory → e.2 = 0

/-! ## Registration scenarios -/

/-- A second observer, registered under id 3. -/
def otherObserver : KPDFDocumentObserver := { handle := 2, observerId := 3 }

/-- The document of the scenario of two observers: observer 7 registered,
then observer 3, with a pixmap of page 0 accounted to each. -/
def twoObserversDocument : KPDFDocument :=
  { freshDocument with
    observers := [(3, { observer := otherObserver, pageMemory := [(0, 156)],
                        totalMemory := 156 }),
                  (7, { observer := demoObserver, pageMemory := [(0, 39)],
                        totalMemory := 39 })] }

/-- `addObserver` called for each observer of the list in turn. -/
def registerAll (os : List KPDFDocumentObserver) (s : KPDFDocument) : KPDFDocument :=
  os.foldl (fun d o => addObserver o d) s

/-- The observers map is keyed by the ids the observers report: every entry
stores an observer whose `observerId()` is the key of the entry. -/
def RegistryKeyed (m : QMap ObserverData) : Prop :=
  ∀ e, e ∈ m → e.2.observer.observerId = e.1

/-- Another observer object that reports id 7. -/
def rivalObserver : KPDFDocumentObserver := { handle := 9, observerId := 7 }

/-- The slot `KPDFDocument::slotGeneratedContents( id, pageNumber )`: the calls
it makes on observers. It writes nothing of the document. -/
def slotGeneratedContents (id pageNumber : Int) (s : KPDFDocument) :
    List (KPDFDocumentObserver × Notification) :=
  match QMap.find s.observers id with
  | some obs => [(obs.observer, Notification.notifyPixmapChanged pageNumber)]
  | none => []

/-- The document of the scenario of `removeObserver`: three pages, observer 7
registered and holding pixmaps for pages 1 and 2. -/
def holdingDocument : KPDFDocument :=
  { generator := true
    pages_vector := [{ number := 0, width := 600, height := 800, pixmaps := [] },
                     { number := 1, width := 600, height := 800, pixmaps := [7] },
                     { number := 2, width := 600, height := 800, pixmaps := [7] }]
    observers := [(7, { observer := demoObserver, pageMemory := [(1, 39), (2, 39)],
                        totalMemory := 78 })]
    currentPage := 0
    searchPage := -1
    documentFileName := some "demo.pdf" }

/-! ## Current page and openDocument -/

/-- The page number `setCurrentPage( page )` ends up with: 0 for a negative
one, `pages_vector.count() - 1` for one above the page count, and the
argument otherwise. -/
def clampedPage (page : Int) (s : KPDFDocument) : Int :=
  if page < 0 then 0
  else if page > (s.pages_vector.length : Int) then (s.pages_vector.length : Int) - 1
  else page

/-- The function `KPDFDocument::setCurrentPage( page, viewport )`: its effect
on the document. -/
def setCurrentPage (page : Int) (s : KPDFDocument) : KPDFDocument :=
  if clampedPage page s = s.currentPage then s
  else { s with currentPage := clampedPage page s }

/-- The calls `setCurrentPage` makes on observers. -/
def setCurrentPageCalls (page : Int) (s : KPDFDocument) :
    List (KPDFDocumentObserver × Notification) :=
  if clampedPage page s = s.currentPage then []
  else foreachObserver s (Notification.pageSetCurrent (clampedPage page s))

/-- The function `KPDFDocument::loadDocumentInfo()`, for what it writes of the
document modelled here: `activePage` is the page number the info file of the
document gives, if it gives one, and it becomes the current page when it is
below the page count. The bookmarks it sets are page attributes, which the
model leaves out. -/
def loadDocumentInfo (activePage : Option Nat) (s : KPDFDocument) : KPDFDocument :=
  match activePage with
  | none => s
  | some page =>
    if page < s.pages_vector.length then { s with currentPage := (page : Int) } else s

/-- The calls `processPageList( documentChanged )` makes on observers: the
page list to each. The highlighting it does beforehand works on the search
filter and on page attributes, which the model leaves out; pages that carry
no highlight cause no call there. -/
def processPageListCalls (documentChanged : Bool) (s : KPDFDocument) :
    List (KPDFDocumentObserver × Notification) :=
  foreachObserver s (Notification.pageSetup s.pages_vector documentChanged)

/-- What `openDocument( docFile )` meets outside the document: whether the
file can be opened for reading, the name of its mimetype, the result of
`generator->loadDocument` and the page vector that call leaves, and the
active page of the info file. -/
structure OpenInput where
  docFile : String
  readable : Bool
  mimeName : String
  openOk : Bool
  loaded : List KPDFPage
  activePage : Option Nat
  deriving DecidableEq, Repr

/-- Result of `openDocument`: the value returned, the document afterwards and
the calls made on observers, in order. -/
structure Opened where
  result : Bool
  doc : KPDFDocument
  calls : List (KPDFDocumentObserver × Notification)
  deriving DecidableEq, Repr

/-- The document after step 1 of `openDocument`: the generator exists, the
file name is `docFile` and the page vector is what `loadDocument` left. -/
def loadedDocument (i : OpenInput) (s : KPDFDocument) : KPDFDocument :=
  { s with generator := true, documentFileName := some i.docFile, pages_vector := i.loaded }

/-- The local `displayedPage` of `openDocument`: the current page if it is at
least 0, and 0 otherwise. -/
def displayedPage (s : KPDFDocument) : Int :=
  if s.currentPage ≥ 0 then s.currentPage else 0

/-- Steps 2 to 4 of `openDocument` on the loaded document: load the document
info, send the page list to the observers, set the initial page. -/
def installDocument (i : OpenInput) (s1 : KPDFDocument) : Opened :=
  { result := true
    doc := setCurrentPage (displayedPage (loadDocumentInfo i.activePage s1))
      { loadDocumentInfo i.activePage s1 with currentPage := -1 }
    calls :=
      processPageListCalls true (loadDocumentInfo i.activePage s1) ++
      setCurrentPageCalls (displayedPage (loadDocumentInfo i.activePage s1))
        { loadDocumentInfo i.activePage s1 with currentPage := -1 } }

/-- The function `KPDFDocument::openDocument( docFile )`. For the mimetype
`application/postscript` no generator is created and the one at hand is
used; `generator->loadDocument` on a null generator has no result. -/
def openDocument (i : OpenInput) (s : KPDFDocument) : Option Opened :=
  if !i.readable then
    some { result := false, doc := { s with documentFileName := none }, calls := [] }
  else if i.mimeName = "application/pdf" ∨ i.mimeName = "application/postscript" then
    if (if i.mimeName = "application/pdf" then true else s.generator) then
      if !i.openOk || decide (i.loaded.length = 0) then
        some { result := i.openOk, doc := loadedDocument i s, calls := [] }
      else some (installDocument i (loadedDocument i s))
    else none
  else some { result := false, doc := s, calls := [] }

/-- An input of `openDocument` for a readable PDF file `b.pdf` whose load
returns `ok` and leaves the page vector `pages`; no info file. -/
def pdfInput (ok : Bool) (pages : List KPDFPage) : OpenInput :=
  { docFile := "b.pdf", readable := true, mimeName := "application/pdf", openOk := ok,
    loaded := pages, activePage := none }

/-- A three-page document whose page 1 has no width, with observer 7
registered. -/
def flatPageDocument : KPDFDocument :=
  { freshDocument with
    pages_vector := [{ number := 0, width := 600, height := 800, pixmaps := [] },
                     { number := 1, width := 0, height := 800, pixmaps := [] },
                     { number := 2, width := 600, height := 800, pixmaps := [] }] }

/-! ## Lookup, configuration change -/

/-- The function `KPDFDocument::page( n )`. The outer `some` says that the
call has a result; the inner value is the page returned, `none` for the
null pointer. -/
def page (n : Nat) (s : KPDFDocument) : Option (Option KPDFPage) :=
  if n < s.pages_vector.length then (pageAt s.pages_vector (n : Int)).map some
  else some none

/-- Modelled from the spec: `KPDFPage::deletePixmapsAndRects()` of
`core/page.cpp` (not among the sources) clears every artifact the page
holds, for every observer. -/
def KPDFPage.deletePixmapsAndRects (p : KPDFPage) : KPDFPage :=
  { p with pixmaps := [] }

/-- The function `KPDFDocument::reparseConfig()`: its effect on the document.
`changed` is what `generator->reparseConfig()` returns, asked only when a
generator exists. -/
def reparseConfig (changed : Bool) (s : KPDFDocument) : KPDFDocument :=
  if s.generator && changed then
    { s with pages_vector := s.pages_vector.map (fun p => p.deletePixmapsAndRects) }
  else s

/-- The calls `reparseConfig` makes on observers. -/
def reparseConfigCalls (changed : Bool) (s : KPDFDocument) :
    List (KPDFDocumentObserver × Notification) :=
  if s.generator && changed then foreachObserver s Notification.notifyPixmapsCleared
  else []

/-! ## The memory probe -/

/-- Whether the characters `pattern` begin the characters `entry`
(`QString::startsWith`, case sensitive). -/
def beginsWith : List Char → List Char → Bool
  | _, [] => true
  | [], _ :: _ => false
  | c :: cs, p :: ps => decide (c = p) && beginsWith cs ps

/-- The loop of `mTotalMemory` over the lines of `/proc/meminfo`: the value
of the first line that starts with 'MemTotal:', 131072 when there is none.
`field` stands for the Qt expression `entry.section( ' ', -2, -2 ).toInt()`. -/
def scanMemTotal (field : String → Int) : List String → Int
  | [] => 131072
  | entry :: rest =>
    if beginsWith entry.toList "MemTotal:".toList then field entry
    else scanMemTotal field rest

/-- The function `KPDFDocument::mTotalMemory()` on a Linux system.
`cachedValue` is the static variable before the call and `meminfo` the lines
of `/proc/meminfo`, `none` when the file cannot be opened; the result is the
value returned and the static variable after the call. -/
def mTotalMemory (field : String → Int) (cachedValue : Int)
    (meminfo : Option (List String)) : Int × Int :=
  if cachedValue ≠ 0 then (cachedValue, cachedValue)
  else
    match meminfo with
    | none => (131072, 131072)
    | some lines => (scanMemTotal field lines, scanMemTotal field lines)

/-- The loop of `mFreeMemory` over the lines of `/proc/meminfo`, from the
value `memoryFree` has so far. -/
def scanMemFree (field : String → Int) : List String → Int → Int
  | [], memoryFree => memoryFree
  | entry :: rest, memoryFree =>
    scanMemFree field rest
      ((if beginsWith entry.toList "MemFree:".toList ||
            beginsWith entry.toList "Buffers:".toList ||
            beginsWith entry.toList "Cached:".toList ||
            beginsWith entry.toList "SwapFree:".toList then
          memoryFree + field entry
        else memoryFree) -
       (if beginsWith entry.toList "SwapTotal:".toList then field entry else 0))

/-- The function `KPDFDocument::mFreeMemory()` on a Linux system. -/
def mFreeMemory (field : String → Int) (meminfo : Option (List String)) : Int :=
  match meminfo with
  | none => 0
  | some lines => scanMemFree field lines 0

/-! ## Special commands of the DVI renderer (`special.cpp`) -/

/-- The code of a character with the upper case letters A to Z mapped to
lower case, as `strncasecmp` compares characters. -/
def lowerCode (c : Char) : Nat :=
  if 65 ≤ c.toNat ∧ c.toNat ≤ 90 then c.toNat + 32 else c.toNat

/-- The test `strncasecmp( cp, pattern, n ) == 0` for a pattern of `n`
characters: the first `n` characters of `cp` are those of the pattern, case
ignored. -/
def beginsNoCase : List Char → List Char → Bool
  | _, [] => true
  | [], _ :: _ => false
  | c :: cs, p :: ps => decide (lowerCode c = lowerCode p) && beginsNoCase cs ps

/-- The member functions `applicationDoSpecial` hands a special command to,
each with the text it is given. -/
inductive SpecialCall where
  | color_special (arg : List Char)
  | html_href_special (arg : List Char)
  | TPIC_setPen_special (arg : List Char)
  | TPIC_addPath_special (arg : List Char)
  | TPIC_flushPath_special
  | papersize_special (arg : List Char)
  | background_special (arg : List Char)
  | html_anchor_special (arg : List Char)
  | header_special (arg : List Char)
  | bang_special (arg : List Char)
  | quote_special (arg : List Char)
  | source_special (arg : List Char)
  | ps_special (arg : List Char)
  | epsf_special (arg : List Char)
  | html_anchor_end
  | printErrorMsgForSpecials (command : List Char)
  deriving DecidableEq, Repr

/-- The function `dviWindow::applicationDoSpecial( cp )`: the member function
it calls, `none` when it returns without calling one. `prescan` says that
`PostScriptOutPutString` is not null. The tests come in the order of the
source. -/
def applicationDoSpecial (cp : List Char) (prescan : Bool) : Option SpecialCall :=
  if beginsNoCase cp "color".toList then
    if !prescan then some (SpecialCall.color_special (cp.drop 5)) else none
  else if beginsNoCase cp "html:<A href=".toList then
    if !prescan then some (SpecialCall.html_href_special (cp.drop 14)) else none
  else if beginsNoCase cp "pn".toList then
    if !prescan then some (SpecialCall.TPIC_setPen_special (cp.drop 2)) else none
  else if beginsNoCase cp "pa".toList then
    if !prescan then some (SpecialCall.TPIC_addPath_special (cp.drop 3)) else none
  else if beginsNoCase cp "fp".toList then
    if !prescan then some SpecialCall.TPIC_flushPath_special else none
  else if beginsNoCase cp "papersize".toList then
    if prescan then some (SpecialCall.papersize_special (cp.drop 9)) else none
  else if beginsNoCase cp "background".toList then
    if prescan then some (SpecialCall.background_special (cp.drop 10)) else none
  else if beginsNoCase cp "html:<A name=".toList then
    if prescan then some (SpecialCall.html_anchor_special (cp.drop 14)) else none
  else if beginsNoCase cp "header=".toList then
    if prescan then some (SpecialCall.header_special (cp.drop 7)) else none
  else if cp.head? = some '!' then
    if prescan then some (SpecialCall.bang_special (cp.drop 1)) else none
  else if cp.head? = some '"' then
    if prescan then some (SpecialCall.quote_special (cp.drop 1)) else none
  else if beginsNoCase cp "src:".toList then
    some (SpecialCall.source_special (cp.drop 4))
  else if beginsNoCase cp "ps:".toList then
    some (SpecialCall.ps_special cp)
  else if beginsNoCase cp "PSfile=".toList then
    some (SpecialCall.epsf_special (cp.drop 7))
  else if beginsNoCase cp "html:</A>".toList then
    some SpecialCall.html_anchor_end
  else some (SpecialCall.printErrorMsgForSpecials cp)

/-! ## A two-pass reference for the eviction walk -/

/-- Reference, first pass, after the words of the specification: scan the
entries once in ascending page index and select each entry the observer
permits, while the remaining target (the target minus the sizes already
selected) is above 0. -/
def selectVictims (can : Int → Bool) : QMap Int → Int → List (Int × Int)
  | [], _ => []
  | (pageNumber, size) :: rest, remaining =>
    if remaining > 0 then
      if can pageNumber then (pageNumber, size) :: selectVictims can rest (remaining - size)
      else selectVictims can rest remaining
    else []

/-- Reference, second pass, on the mapping: remove exactly the selected
entries. -/
def removeSelected (m : QMap Int) (selected : List (Int × Int)) : QMap Int :=
  m.filter (fun e => decide (e ∉ selected))

/-- Reference, second pass, on the pages: delete the pixmap of the observer
on the page of each selected entry, in turn. -/
def deletePixmaps (observerId : Int) : List Int → List KPDFPage → Option (List KPDFPage)
  | [], pv => some pv
  | pageNumber :: rest, pv =>
    match deletePixmapAt pv pageNumber observerId with
    | none => none
    | some pv' => deletePixmaps observerId rest pv'

/-- Whether the observer registered under `id` has a `totalMemory` above
1024, the test of `slotCheckMemory`. -/
def overThreshold (s : KPDFDocument) (id : Int) : Bool :=
  match QMap.find s.observers id with
  | some obs => decide (obs.totalMemory > 1024)
  | none => false

/-- A document of three pages with two observers: observer 3 accounts for
156 kB, observer 7 for 1390 kB. -/
def heavyDocument : KPDFDocument :=
  { generator := true
    pages_vector := [demoPage 0, demoPage 1, demoPage 2]
    observers := [(3, { observer := otherObserver, pageMemory := [(0, 156)],
                        totalMemory := 156 }),
                  (7, { observer := demoObserver
                        pageMemory := [(0, 39), (1, 1000), (2, 351)]
                        totalMemory := 1390 })]
    currentPage := 0
    searchPage := -1
    documentFileName := some "demo.pdf" }

/-- Reference for `slotCheckMemory`, after the words of the specification:
run the eviction pass for each id of the list, in the order of the list,
each pass on the document the pass before it left, the i-th pass under the
environment `host i`. No total is tested here. -/
def evictEach (host : Nat → Host) : List Int → KPDFDocument → Option Sweep
  | [], s => some { doc := s, passes := [] }
  | id :: rest, s =>
    match mCleanupMemory (host 0) id s with
    | none => none
    | some p =>
      match evictEach (fun i => host (i + 1)) rest p.doc with
      | none => none
      | some w => some { w with passes := p.toEviction :: w.passes }

/-- A document whose ledger is older than its pages (`openDocument` does not
clear the ledgers): one page, while observer 7 still accounts for pages 0, 1
and 2 with 1390 kB. -/
def staleDocument : KPDFDocument :=
  { generator := true
    pages_vector := [demoPage 0]
    observers := [(7, { observer := demoObserver
                        pageMemory := [(0, 39), (1, 1000), (2, 351)]
                        totalMemory := 1390 })]
    currentPage := 0
    searchPage := -1
    documentFileName := some "demo.pdf" }

/-! ## Facts about QMap -/

namespace QMap

theorem find_insert_self {β : Type} (m : QMap β) (k : Int) (v : β) :
    find (insert m k v) k = some v := by
  induction m with
  | nil => simp [insert, find]
  | cons e m ih =>
    obtain ⟨k', v'⟩ := e
    unfold insert
    by_cases h1 : k < k'
    · simp [h1, find]
    · by_cases h2 : k = k'
      · simp [h2, find]
      · have h3 : ¬ k' = k := fun h => h2 h.symm
        simp [h1, h2, find, h3, ih]

theorem find_insert_ne {β : Type} (m : QMap β) (k k0 : Int) (v : β) (hne : k0 ≠ k) :
    find (insert m k v) k0 = find m k0 := by
  induction m with
  | nil =>
    have h : ¬ k = k0 := fun h => hne h.symm
    simp [insert, find, h]
  | cons e m ih =>
    obtain ⟨k', v'⟩ := e
    have h : ¬ k = k0 := fun h => hne h.symm
    unfold insert
    by_cases h1 : k < k'
    · simp [h1, find, h]
    · by_cases h2 : k = k'
      · subst h2
        simp [find, h]
      · simp only [h1, h2, if_false, find, ih]

theorem mem_insert {β : Type} (m : QMap β) (k : Int) (v : β) (e : Int × β)
    (he : e ∈ insert m k v) : e = (k, v) ∨ e ∈ m := by
  induction m with
  | nil => simpa [insert] using he
  | cons e' m ih =>
    obtain ⟨k', v'⟩ := e'
    unfold insert at he
    by_cases h1 : k < k'
    · simp only [h1, if_true, List.mem_cons] at he
      rcases he with he | he | he
      · exact Or.inl he
      · exact Or.inr (by simp [he])
      · exact Or.inr (by simp [he])
    · by_cases h2 : k = k'
      · subst h2
        simp only [lt_self_iff_false, if_false, if_true, List.mem_cons] at he
        rcases he with he | he
        · exact Or.inl he
        · exact Or.inr (by simp [he])
      · simp only [h1, h2, if_false, List.mem_cons] at he
        rcases he with he | he
        · exact Or.inr (by simp [he])
        · rcases ih he with h | h
          · exact Or.inl h
          · exact Or.inr (by simp [h])

theorem keys_insert_mem {β : Type} (m : QMap β) (k : Int) (v : β) (a : Int)
    (ha : a ∈ keys (insert m k v)) : a = k ∨ a ∈ keys m := by
  unfold keys at ha
  obtain ⟨e, he, rfl⟩ := List.mem_map.1 ha
  rcases mem_insert m k v e he with h | h
  · exact Or.inl (by rw [h])
  · exact Or.inr (List.mem_map.2 ⟨e, h, rfl⟩)

theorem WF_insert {β : Type} (m : QMap β) (k : Int) (v : β) (hwf : WF m) :
    WF (insert m k v) := by
  induction m with
  | nil => simp [insert, WF, keys]
  | cons e m ih =>
    obtain ⟨k', v'⟩ := e
    have hwf' : (∀ a ∈ keys m, k' < a) ∧ WF m := by
      simpa [WF, keys] using hwf
    unfold insert
    by_cases h1 : k < k'
    · simp only [h1, if_true]
      have : ∀ a ∈ keys ((k', v') :: m), k < a := by
        intro a ha
        simp only [keys, List.map_cons, List.mem_cons] at ha
        rcases ha with ha | ha
        · rw [ha]; exact h1
        · exact lt_trans h1 (hwf'.1 a ha)
      exact List.Pairwise.cons this hwf
    · by_cases h2 : k = k'
      · subst h2
        simp only [lt_self_iff_false, if_false, if_true]
        exact List.Pairwise.cons hwf'.1 hwf'.2
      · simp only [h1, h2, if_false]
        have hlt : k' < k := lt_of_le_of_ne (not_lt.1 h1) (fun h => h2 h.symm)
        have : ∀ a ∈ keys (insert m k v), k' < a := by
          intro a ha
          rcases keys_insert_mem m k v a ha with h | h
          · rw [h]; exact hlt
          · exact hwf'.1 a h
        exact List.Pairwise.cons this (ih hwf'.2)

theorem find_eq_none_of_lt {β : Type} (m : QMap β) (k : Int)
    (h : ∀ a ∈ keys m, k < a) : find m k = none := by
  induction m with
  | nil => rfl
  | cons e m ih =>
    obtain ⟨k', v'⟩ := e
    have h1 : k < k' := h k' (by simp [keys])
    have h2 : ¬ k' = k := fun h => (ne_of_lt h1) h.symm
    simp only [find, h2, if_false]
    exact ih (fun a ha => h a (by simp only [keys, List.map_cons, List.mem_cons]; exact Or.inr ha))

theorem total_insert (m : QMap Int) (k v : Int) (hwf : WF m) :
    total (insert m k v) = (if contains m k then total m - value m k else total m) + v := by
  induction m with
  | nil => simp [insert, total, contains, find]
  | cons e m ih =>
    obtain ⟨k', v'⟩ := e
    have hwf' : (∀ a ∈ keys m, k' < a) ∧ WF m := by
      simpa [WF, keys] using hwf
    unfold insert
    by_cases h1 : k < k'
    · have hnone : find ((k', v') :: m) k = none :=
        find_eq_none_of_lt _ k (by
          intro a ha
          simp only [keys, List.map_cons, List.mem_cons] at ha
          rcases ha with ha | ha
          · rw [ha]; exact h1
          · exact lt_trans h1 (hwf'.1 a ha))
      simp only [h1, if_true, contains, hnone, Option.isSome_none, total, List.map_cons,
        List.sum_cons]
      simp only [Bool.false_eq_true, if_false]
      ring
    · by_cases h2 : k = k'
      · subst h2
        simp only [lt_self_iff_false, if_false, if_true, contains, find, value, total,
          List.map_cons, List.sum_cons, Option.isSome_some, Option.getD_some]
        ring
      · have h3 : ¬ k' = k := fun h => h2 h.symm
        have ih' := ih hwf'.2
        simp only [h1, h2, if_false, contains, find, h3, value, total, List.map_cons,
          List.sum_cons] at ih' ⊢
        rw [ih']
        split <;> ring

theorem mem_of_find {β : Type} (m : QMap β) (k : Int) (v : β) (h : find m k = some v) :
    (k, v) ∈ m := by
  induction m with
  | nil => simp [find] at h
  | cons e m ih =>
    obtain ⟨k', v'⟩ := e
    by_cases h1 : k' = k
    · simp only [find, h1, if_true, Option.some.injEq] at h
      simp [h1, h]
    · simp only [find, h1, if_false] at h
      exact List.mem_cons_of_mem _ (ih h)

theorem find_isSome_of_key {β : Type} (m : QMap β) (k : Int) (h : k ∈ keys m) :
    (find m k).isSome = true := by
  induction m with
  | nil => simp [keys] at h
  | cons e m ih =>
    obtain ⟨k', v'⟩ := e
    by_cases h1 : k' = k
    · simp [find, h1]
    · simp only [keys, List.map_cons, List.mem_cons] at h
      rcases h with h | h
      · exact absurd h.symm h1
      · simp only [find, h1, if_false]
        exact ih h

theorem find_of_mem_WF {β : Type} (m : QMap β) (k : Int) (v : β) (hwf : WF m)
    (h : (k, v) ∈ m) : find m k = some v := by
  induction m with
  | nil => simp at h
  | cons e m ih =>
    obtain ⟨k', v'⟩ := e
    have hwf' : (∀ a ∈ keys m, k' < a) ∧ WF m := by
      simpa [WF, keys] using hwf
    simp only [List.mem_cons, Prod.mk.injEq] at h
    rcases h with h | h
    · simp [find, h.1, h.2]
    · have hk : k ∈ keys m := List.mem_map.2 ⟨(k, v), h, rfl⟩
      have h1 : ¬ k' = k := ne_of_lt (hwf'.1 k hk)
      simp only [find, h1, if_false]
      exact ih hwf'.2 h

theorem WF_of_sublist {β : Type} (m m' : QMap β) (hs : List.Sublist m' m) (hwf : WF m) :
    WF m' :=
  List.Pairwise.sublist (List.Sublist.map Prod.fst hs) hwf

end QMap


/-! ## Facts about the eviction loop -/

/-- Sum of the sizes of a list of entries. -/
theorem sizes_cons (e : Int × Int) (l : List (Int × Int)) :
    QMap.total (e :: l) = e.2 + QMap.total l := by
  simp [QMap.total]

/-- Inversion of one iteration of the loop. -/
theorem cleanupLoop_cons (can : Int → Bool) (id k d : Int) (rest : QMap Int)
    (T tot : Int) (pv : List KPDFPage) (w : Walk)
    (h : cleanupLoop can id ((k, d) :: rest) T tot pv = some w) :
    (¬ T > 0 ∧
      w = { pageMemory := (k, d) :: rest, totalMemory := tot, pages_vector := pv,
            asked := [], removed := [] }) ∨
    (T > 0 ∧ can k = false ∧ ∃ w0, cleanupLoop can id rest T tot pv = some w0 ∧
        w = { w0 with pageMemory := (k, d) :: w0.pageMemory, asked := k :: w0.asked }) ∨
    (T > 0 ∧ can k = true ∧ ∃ pv' w0, deletePixmapAt pv k id = some pv' ∧
        cleanupLoop can id rest (T - d) (tot - d) pv' = some w0 ∧
        w = { w0 with asked := k :: w0.asked, removed := (k, d) :: w0.removed }) := by
  unfold cleanupLoop at h
  by_cases hT : T > 0
  · by_cases hc : can k = true
    · simp only [hT, hc, if_true] at h
      cases hd : deletePixmapAt pv k id with
      | none => simp [hd] at h
      | some pv' =>
        simp only [hd] at h
        cases hl : cleanupLoop can id rest (T - d) (tot - d) pv' with
        | none => simp [hl] at h
        | some w0 =>
          simp only [hl, Option.some.injEq] at h
          exact Or.inr (Or.inr ⟨hT, hc, pv', w0, rfl, hl, h.symm⟩)
    · have hc' : can k = false := by simpa using hc
      simp only [hT, hc', if_true, Bool.false_eq_true, if_false] at h
      cases hl : cleanupLoop can id rest T tot pv with
      | none => simp [hl] at h
      | some w0 =>
        simp only [hl, Option.some.injEq] at h
        exact Or.inr (Or.inl ⟨hT, hc', w0, rfl, h.symm⟩)
  · simp only [hT, if_false, Option.some.injEq] at h
    exact Or.inl ⟨hT, h.symm⟩

theorem cleanupLoop_nil (can : Int → Bool) (id T tot : Int) (pv : List KPDFPage) (w : Walk)
    (h : cleanupLoop can id [] T tot pv = some w) :
    w = { pageMemory := [], totalMemory := tot, pages_vector := pv, asked := [],
          removed := [] } := by
  simp only [cleanupLoop, Option.some.injEq] at h
  exact h.symm

/-- The loop subtracts from `totalMemory` exactly the sizes it removes. -/
theorem cleanupLoop_totalMemory (can : Int → Bool) (id : Int) (m : QMap Int) :
    ∀ (T tot : Int) (pv : List KPDFPage) (w : Walk),
      cleanupLoop can id m T tot pv = some w →
      w.totalMemory = tot - QMap.total w.removed ∧
      QMap.total w.pageMemory = QMap.total m - QMap.total w.removed := by
  induction m with
  | nil =>
    intro T tot pv w h
    rw [cleanupLoop_nil can id T tot pv w h]
    simp [QMap.total]
  | cons e rest ih =>
    obtain ⟨k, d⟩ := e
    intro T tot pv w h
    rcases cleanupLoop_cons can id k d rest T tot pv w h with
      ⟨_, hw⟩ | ⟨_, _, w0, h0, hw⟩ | ⟨_, _, pv', w0, _, h0, hw⟩
    · subst hw
      simp [QMap.total]
    · obtain ⟨h1, h2⟩ := ih T tot pv w0 h0
      subst hw
      simp only [sizes_cons]
      exact ⟨h1, by rw [h2]; ring⟩
    · obtain ⟨h1, h2⟩ := ih (T - d) (tot - d) pv' w0 h0
      subst hw
      simp only [sizes_cons]
      exact ⟨by rw [h1]; ring, by rw [h2]; ring⟩

/-- The map the loop leaves is a sublist of the map it was given. -/
theorem cleanupLoop_sublist (can : Int → Bool) (id : Int) (m : QMap Int) :
    ∀ (T tot : Int) (pv : List KPDFPage) (w : Walk),
      cleanupLoop can id m T tot pv = some w → List.Sublist w.pageMemory m := by
  induction m with
  | nil =>
    intro T tot pv w h
    rw [cleanupLoop_nil can id T tot pv w h]
  | cons e rest ih =>
    obtain ⟨k, d⟩ := e
    intro T tot pv w h
    rcases cleanupLoop_cons can id k d rest T tot pv w h with
      ⟨_, hw⟩ | ⟨_, _, w0, h0, hw⟩ | ⟨_, _, pv', w0, _, h0, hw⟩
    · subst hw
      exact List.Sublist.refl _
    · subst hw
      exact List.Sublist.cons₂ _ (ih T tot pv w0 h0)
    · subst hw
      exact List.Sublist.cons _ (ih _ _ _ w0 h0)

/-- Every entry of the map is either kept or recorded as removed. -/
theorem cleanupLoop_mem (can : Int → Bool) (id : Int) (m : QMap Int) :
    ∀ (T tot : Int) (pv : List KPDFPage) (w : Walk),
      cleanupLoop can id m T tot pv = some w →
      ∀ e, e ∈ m → e ∈ w.pageMemory ∨ e ∈ w.removed := by
  induction m with
  | nil =>
    intro T tot pv w _ e he
    simp at he
  | cons e' rest ih =>
    obtain ⟨k, d⟩ := e'
    intro T tot pv w h e he
    rcases cleanupLoop_cons can id k d rest T tot pv w h with
      ⟨_, hw⟩ | ⟨_, _, w0, h0, hw⟩ | ⟨_, _, pv', w0, _, h0, hw⟩
    · subst hw
      exact Or.inl he
    · subst hw
      rcases List.mem_cons.1 he with he | he
      · exact Or.inl (by simp [he])
      · rcases ih T tot pv w0 h0 e he with h1 | h1
        · exact Or.inl (List.mem_cons_of_mem _ h1)
        · exact Or.inr h1
    · subst hw
      rcases List.mem_cons.1 he with he | he
      · exact Or.inr (by simp [he])
      · rcases ih _ _ _ w0 h0 e he with h1 | h1
        · exact Or.inl h1
        · exact Or.inr (List.mem_cons_of_mem _ h1)

/-- A removed entry was an entry of the map, its page was asked about and
the observer answered that it can be unloaded. -/
theorem cleanupLoop_removed (can : Int → Bool) (id : Int) (m : QMap Int) :
    ∀ (T tot : Int) (pv : List KPDFPage) (w : Walk),
      cleanupLoop can id m T tot pv = some w →
      ∀ e, e ∈ w.removed → e ∈ m ∧ e.1 ∈ w.asked ∧ can e.1 = true := by
  induction m with
  | nil =>
    intro T tot pv w h e he
    rw [cleanupLoop_nil can id T tot pv w h] at he
    simp at he
  | cons e' rest ih =>
    obtain ⟨k, d⟩ := e'
    intro T tot pv w h e he
    rcases cleanupLoop_cons can id k d rest T tot pv w h with
      ⟨_, hw⟩ | ⟨_, _, w0, h0, hw⟩ | ⟨_, hc, pv', w0, _, h0, hw⟩
    · subst hw
      simp at he
    · subst hw
      obtain ⟨h1, h2, h3⟩ := ih T tot pv w0 h0 e he
      exact ⟨List.mem_cons_of_mem _ h1, List.mem_cons_of_mem _ h2, h3⟩
    · subst hw
      rcases List.mem_cons.1 he with he | he
      · subst he
        exact ⟨by simp, by simp, hc⟩
      · obtain ⟨h1, h2, h3⟩ := ih _ _ _ w0 h0 e he
        exact ⟨List.mem_cons_of_mem _ h1, List.mem_cons_of_mem _ h2, h3⟩

/-- Only keys of the map are asked about. -/
theorem cleanupLoop_asked (can : Int → Bool) (id : Int) (m : QMap Int) :
    ∀ (T tot : Int) (pv : List KPDFPage) (w : Walk),
      cleanupLoop can id m T tot pv = some w →
      ∀ k, k ∈ w.asked → k ∈ QMap.keys m := by
  induction m with
  | nil =>
    intro T tot pv w h k hk
    rw [cleanupLoop_nil can id T tot pv w h] at hk
    simp at hk
  | cons e' rest ih =>
    obtain ⟨k', d⟩ := e'
    intro T tot pv w h k hk
    rcases cleanupLoop_cons can id k' d rest T tot pv w h with
      ⟨_, hw⟩ | ⟨_, _, w0, h0, hw⟩ | ⟨_, _, pv', w0, _, h0, hw⟩
    · subst hw
      simp at hk
    · subst hw
      rcases List.mem_cons.1 hk with hk | hk
      · simp [QMap.keys, hk]
      · have := ih T tot pv w0 h0 k hk
        simp only [QMap.keys, List.map_cons, List.mem_cons]
        exact Or.inr this
    · subst hw
      rcases List.mem_cons.1 hk with hk | hk
      · simp [QMap.keys, hk]
      · have := ih _ _ _ w0 h0 k hk
        simp only [QMap.keys, List.map_cons, List.mem_cons]
        exact Or.inr this

/-- A page the observer refuses to unload keeps its entry and its size. -/
theorem cleanupLoop_find_refused (can : Int → Bool) (id : Int) (m : QMap Int) :
    ∀ (T tot : Int) (pv : List KPDFPage) (w : Walk),
      cleanupLoop can id m T tot pv = some w →
      ∀ k, can k = false → QMap.find w.pageMemory k = QMap.find m k := by
  induction m with
  | nil =>
    intro T tot pv w h k _
    rw [cleanupLoop_nil can id T tot pv w h]
  | cons e' rest ih =>
    obtain ⟨k', d⟩ := e'
    intro T tot pv w h k hk
    rcases cleanupLoop_cons can id k' d rest T tot pv w h with
      ⟨_, hw⟩ | ⟨_, _, w0, h0, hw⟩ | ⟨_, hc, pv', w0, _, h0, hw⟩
    · subst hw
      rfl
    · subst hw
      simp only [QMap.find]
      rw [ih T tot pv w0 h0 k hk]
    · subst hw
      have hne : ¬ k' = k := by
        intro h; rw [h, hk] at hc; exact absurd hc (by simp)
      simp only [QMap.find, hne, if_false]
      exact ih _ _ _ w0 h0 k hk

/-- The remaining target is positive before each removal: the sizes of any
proper initial part of the removed entries sum to less than the target. -/
theorem cleanupLoop_before_removal (can : Int → Bool) (id : Int) (m : QMap Int) :
    ∀ (T tot : Int) (pv : List KPDFPage) (w : Walk),
      cleanupLoop can id m T tot pv = some w →
      ∀ j, j < w.removed.length → QMap.total (w.removed.take j) < T := by
  induction m with
  | nil =>
    intro T tot pv w h j hj
    rw [cleanupLoop_nil can id T tot pv w h] at hj
    simp at hj
  | cons e' rest ih =>
    obtain ⟨k, d⟩ := e'
    intro T tot pv w h j hj
    rcases cleanupLoop_cons can id k d rest T tot pv w h with
      ⟨_, hw⟩ | ⟨_, _, w0, h0, hw⟩ | ⟨hT, _, pv', w0, _, h0, hw⟩
    · subst hw
      simp at hj
    · subst hw
      exact ih T tot pv w0 h0 j hj
    · subst hw
      cases j with
      | zero => simpa [QMap.total] using hT
      | succ j =>
        have hj' : j < w0.removed.length := by simpa using hj
        have := ih _ _ _ w0 h0 j hj'
        simp only [List.take_succ_cons, sizes_cons]
        linarith

/-- When the loop ends, the removed sizes reach the target or every entry
left is one the observer refused. -/
theorem cleanupLoop_exit (can : Int → Bool) (id : Int) (m : QMap Int) :
    ∀ (T tot : Int) (pv : List KPDFPage) (w : Walk),
      cleanupLoop can id m T tot pv = some w →
      T ≤ QMap.total w.removed ∨ ∀ e, e ∈ w.pageMemory → can e.1 = false := by
  induction m with
  | nil =>
    intro T tot pv w h
    rw [cleanupLoop_nil can id T tot pv w h]
    exact Or.inr (by simp)
  | cons e' rest ih =>
    obtain ⟨k, d⟩ := e'
    intro T tot pv w h
    rcases cleanupLoop_cons can id k d rest T tot pv w h with
      ⟨hT, hw⟩ | ⟨_, hc, w0, h0, hw⟩ | ⟨_, _, pv', w0, _, h0, hw⟩
    · subst hw
      exact Or.inl (by simpa [QMap.total] using hT)
    · subst hw
      rcases ih T tot pv w0 h0 with h1 | h1
      · exact Or.inl h1
      · refine Or.inr ?_
        intro e he
        rcases List.mem_cons.1 he with he | he
        · rw [he]; exact hc
        · exact h1 e he
    · subst hw
      rcases ih _ _ _ w0 h0 with h1 | h1
      · refine Or.inl ?_
        simp only [sizes_cons]
        linarith
      · exact Or.inr h1

theorem deletePixmap_deletePixmap (p : KPDFPage) (id : Int) :
    (p.deletePixmap id).deletePixmap id = p.deletePixmap id := by
  simp [KPDFPage.deletePixmap]

theorem deletePixmapAt_spec (pv pv' : List KPDFPage) (k id : Int)
    (h : deletePixmapAt pv k id = some pv') :
    0 ≤ k ∧ ∃ p, pv[k.toNat]? = some p ∧ pv' = pv.set k.toNat (p.deletePixmap id) := by
  unfold deletePixmapAt pageAt at h
  by_cases hk : 0 ≤ k
  · simp only [hk, if_true] at h
    cases hp : pv[k.toNat]? with
    | none => simp [hp] at h
    | some p =>
      simp only [hp, Option.some.injEq] at h
      exact ⟨hk, p, rfl, h.symm⟩
  · simp [hk] at h

/-- The loop changes a page only by deleting the pixmap of the observer, and
only at the page number of a removed entry. -/
theorem cleanupLoop_pages (can : Int → Bool) (id : Int) (m : QMap Int) :
    ∀ (T tot : Int) (pv : List KPDFPage) (w : Walk),
      cleanupLoop can id m T tot pv = some w →
      w.pages_vector.length = pv.length ∧
      ∀ n : Nat, w.pages_vector[n]? = pv[n]? ∨
        ((n : Int) ∈ QMap.keys w.removed ∧
          w.pages_vector[n]? = (pv[n]?).map (fun p => p.deletePixmap id)) := by
  induction m with
  | nil =>
    intro T tot pv w h
    rw [cleanupLoop_nil can id T tot pv w h]
    exact ⟨rfl, fun n => Or.inl rfl⟩
  | cons e' rest ih =>
    obtain ⟨k, d⟩ := e'
    intro T tot pv w h
    rcases cleanupLoop_cons can id k d rest T tot pv w h with
      ⟨_, hw⟩ | ⟨_, _, w0, h0, hw⟩ | ⟨_, _, pv', w0, hd, h0, hw⟩
    · subst hw
      exact ⟨rfl, fun n => Or.inl rfl⟩
    · subst hw
      exact ih T tot pv w0 h0
    · obtain ⟨hlen, hn⟩ := ih _ _ _ w0 h0
      obtain ⟨hk, p, hp, hpv'⟩ := deletePixmapAt_spec pv pv' k id hd
      subst hw
      subst hpv'
      refine ⟨by simpa using hlen, ?_⟩
      intro n
      by_cases hnk : k.toNat = n
      · subst hnk
        have hlt : k.toNat < pv.length := by
          rcases List.getElem?_eq_some.1 hp with ⟨hlt, _⟩
          exact hlt
        have hset : (pv.set k.toNat (p.deletePixmap id))[k.toNat]? =
            some (p.deletePixmap id) := List.getElem?_set_self hlt
        have hkey : ((k.toNat : Nat) : Int) ∈ QMap.keys ((k, d) :: w0.removed) := by
          simp [QMap.keys, Int.toNat_of_nonneg hk]
        refine Or.inr ⟨hkey, ?_⟩
        rcases hn k.toNat with h1 | ⟨_, h1⟩
        · rw [h1, hset, hp]; rfl
        · rw [h1, hset, hp]
          simp [deletePixmap_deletePixmap]
      · have hset : (pv.set k.toNat (p.deletePixmap id))[n]? = pv[n]? :=
          List.getElem?_set_ne hnk
        rcases hn n with h1 | ⟨h2, h1⟩
        · exact Or.inl (by rw [h1, hset])
        · refine Or.inr ⟨?_, by rw [h1, hset]⟩
          simp only [QMap.keys, List.map_cons, List.mem_cons]
          exact Or.inr h2

theorem pageAt_set_isSome (pv : List KPDFPage) (i : Nat) (x : KPDFPage) (n : Int) :
    (pageAt (pv.set i x) n).isSome = (pageAt pv n).isSome := by
  unfold pageAt
  by_cases hn : 0 ≤ n
  · simp only [hn, if_true]
    by_cases hlt : n.toNat < pv.length
    · have h1 : n.toNat < (pv.set i x).length := by simpa using hlt
      rw [List.getElem?_eq_getElem h1, List.getElem?_eq_getElem hlt]
      rfl
    · have h1 : (pv.set i x).length ≤ n.toNat := by simpa using hlt
      rw [List.getElem?_eq_none h1, List.getElem?_eq_none (not_lt.1 hlt)]
  · simp [hn]

/-- The loop returns when every key of the map is the number of a page. -/
theorem cleanupLoop_returns (can : Int → Bool) (id : Int) (m : QMap Int) :
    ∀ (T tot : Int) (pv : List KPDFPage),
      (∀ k, k ∈ QMap.keys m → (pageAt pv k).isSome = true) →
      ∃ w, cleanupLoop can id m T tot pv = some w := by
  induction m with
  | nil =>
    intro T tot pv _
    exact ⟨_, rfl⟩
  | cons e' rest ih =>
    obtain ⟨k, d⟩ := e'
    intro T tot pv hv
    have hrest : ∀ k', k' ∈ QMap.keys rest → (pageAt pv k').isSome = true := by
      intro k' hk'
      exact hv k' (by simp only [QMap.keys, List.map_cons, List.mem_cons]; exact Or.inr hk')
    unfold cleanupLoop
    by_cases hT : T > 0
    · by_cases hc : can k = true
      · have hk : (pageAt pv k).isSome = true := hv k (by simp [QMap.keys])
        obtain ⟨p, hp⟩ := Option.isSome_iff_exists.1 hk
        have hd : deletePixmapAt pv k id = some (pv.set k.toNat (p.deletePixmap id)) := by
          simp [deletePixmapAt, hp]
        have hrest' : ∀ k', k' ∈ QMap.keys rest →
            (pageAt (pv.set k.toNat (p.deletePixmap id)) k').isSome = true := by
          intro k' hk'
          rw [pageAt_set_isSome]
          exact hrest k' hk'
        obtain ⟨w0, h0⟩ := ih (T - d) (tot - d) _ hrest'
        simp only [hT, hc, if_true, hd, h0]
        exact ⟨_, rfl⟩
      · have hc' : can k = false := by simpa using hc
        obtain ⟨w0, h0⟩ := ih T tot pv hrest
        simp only [hT, hc', if_true, Bool.false_eq_true, if_false, h0]
        exact ⟨_, rfl⟩
    · simp only [hT, if_false]
      exact ⟨_, rfl⟩

/-- Inversion of `mCleanupMemory`. -/
theorem mCleanupMemory_cases (h : Host) (observerId : Int) (s : KPDFDocument) (p : Pass)
    (hp : mCleanupMemory h observerId s = some p) :
    ∃ obs, QMap.find s.observers observerId = some obs ∧
      ((memoryToFree h observerId obs.totalMemory ≤ 0 ∧
          p = { doc := s, observerId := observerId, asked := [], removed := [] }) ∨
       (0 < memoryToFree h observerId obs.totalMemory ∧
          ∃ w, cleanupLoop (h.canUnloadPixmap obs.observer) observerId obs.pageMemory
                (memoryToFree h observerId obs.totalMemory) obs.totalMemory
                s.pages_vector = some w ∧
            p = { doc := { s with
                    pages_vector := w.pages_vector
                    observers := QMap.insert s.observers observerId
                      { obs with pageMemory := w.pageMemory, totalMemory := w.totalMemory } }
                  observerId := observerId
                  asked := w.asked
                  removed := w.removed })) := by
  unfold mCleanupMemory at hp
  cases hobs : QMap.find s.observers observerId with
  | none => simp [hobs] at hp
  | some obs =>
    simp only [hobs] at hp
    refine ⟨obs, rfl, ?_⟩
    by_cases hT : memoryToFree h observerId obs.totalMemory ≤ 0
    · simp only [hT, if_true, Option.some.injEq] at hp
      exact Or.inl ⟨hT, hp.symm⟩
    · simp only [hT, if_false] at hp
      cases hl : cleanupLoop (h.canUnloadPixmap obs.observer) observerId obs.pageMemory
          (memoryToFree h observerId obs.totalMemory) obs.totalMemory s.pages_vector with
      | none => simp [hl] at hp
      | some w =>
        simp only [hl, Option.some.injEq] at hp
        exact Or.inr ⟨not_le.1 hT, w, rfl, hp.symm⟩

/-- `mCleanupMemory` returns when the observer is registered and every key of
its `pageMemory` is the number of a page. -/
theorem mCleanupMemory_returns (h : Host) (observerId : Int) (s : KPDFDocument)
    (obs : ObserverData) (hobs : QMap.find s.observers observerId = some obs)
    (hv : ∀ k, k ∈ QMap.keys obs.pageMemory → (pageAt s.pages_vector k).isSome = true) :
    ∃ p, mCleanupMemory h observerId s = some p := by
  unfold mCleanupMemory
  simp only [hobs]
  by_cases hT : memoryToFree h observerId obs.totalMemory ≤ 0
  · simp only [hT, if_true]
    exact ⟨_, rfl⟩
  · obtain ⟨w, hw⟩ := cleanupLoop_returns (h.canUnloadPixmap obs.observer) observerId
      obs.pageMemory (memoryToFree h observerId obs.totalMemory) obs.totalMemory
      s.pages_vector hv
    simp only [hT, if_false, hw]
    exact ⟨_, rfl⟩

/-- C2: an eviction pass removes no entry the observer refused. The pass
returns when the keys of the ledger are page numbers; whenever it returns,
(1) every page that had an entry before and has none afterwards was asked
about and the observer answered that it can be unloaded, (2) so was every
page of the page vector that changed (the pixmap deleted), (3) so was every
entry recorded as removed, and (4) every page asked about and refused still
has its entry, with the size it had. -/
theorem mCleanupMemory_respects_refusal (h : Host) (observerId : Int) (s : KPDFDocument)
    (obs : ObserverData) (hobs : QMap.find s.observers observerId = some obs) :
    ((∀ k, k ∈ QMap.keys obs.pageMemory → (pageAt s.pages_vector k).isSome = true) →
      ∃ p, mCleanupMemory h observerId s = some p) ∧
    ∀ p, mCleanupMemory h observerId s = some p →
      ∃ obs', QMap.find p.doc.observers observerId = some obs' ∧
        (∀ page, QMap.contains obs.pageMemory page = true →
          QMap.contains obs'.pageMemory page = false →
          page ∈ p.asked ∧ h.canUnloadPixmap obs.observer page = true) ∧
        (∀ n : Nat, p.doc.pages_vector[n]? ≠ s.pages_vector[n]? →
          (n : Int) ∈ p.asked ∧ h.canUnloadPixmap obs.observer n = true) ∧
        (∀ e, e ∈ p.removed →
          e ∈ obs.pageMemory ∧ e.1 ∈ p.asked ∧ h.canUnloadPixmap obs.observer e.1 = true) ∧
        (∀ page, page ∈ p.asked → h.canUnloadPixmap obs.observer page = false →
          QMap.contains obs'.pageMemory page = true ∧
          QMap.find obs'.pageMemory page = QMap.find obs.pageMemory page) := by
  refine ⟨mCleanupMemory_returns h observerId s obs hobs, ?_⟩
  intro p hp
  obtain ⟨obs0, hobs0, hcase⟩ := mCleanupMemory_cases h observerId s p hp
  rw [hobs] at hobs0
  have hobs0' : obs = obs0 := Option.some.inj hobs0
  subst hobs0'
  rcases hcase with ⟨_, hp'⟩ | ⟨_, w, hw, hp'⟩
  · subst hp'
    refine ⟨obs, hobs, ?_, ?_, ?_, ?_⟩
    · intro page h1 h2
      rw [h1] at h2
      exact absurd h2 (by simp)
    · intro n hn
      exact absurd rfl hn
    · intro e he
      simp at he
    · intro page hpage
      simp at hpage
  · subst hp'
    refine ⟨_, QMap.find_insert_self _ _ _, ?_, ?_, ?_, ?_⟩
    · intro page h1 h2
      obtain ⟨v, hv⟩ := Option.isSome_iff_exists.1 h1
      have hmem := QMap.mem_of_find _ _ _ hv
      rcases cleanupLoop_mem _ _ _ _ _ _ _ hw _ hmem with h3 | h3
      · have hk : page ∈ QMap.keys w.pageMemory := List.mem_map.2 ⟨(page, v), h3, rfl⟩
        have := QMap.find_isSome_of_key _ _ hk
        simp only [QMap.contains] at h2
        rw [this] at h2
        exact absurd h2 (by simp)
      · obtain ⟨_, h4, h5⟩ := cleanupLoop_removed _ _ _ _ _ _ _ hw _ h3
        exact ⟨h4, h5⟩
    · intro n hn
      rcases (cleanupLoop_pages _ _ _ _ _ _ _ hw).2 n with h1 | ⟨h1, _⟩
      · exact absurd h1 hn
      · obtain ⟨e, he, hek⟩ := List.mem_map.1 h1
        obtain ⟨_, h4, h5⟩ := cleanupLoop_removed _ _ _ _ _ _ _ hw _ he
        rw [hek] at h4 h5
        exact ⟨h4, h5⟩
    · intro e he
      exact cleanupLoop_removed _ _ _ _ _ _ _ hw _ he
    · intro page hpage hc
      have hfind := cleanupLoop_find_refused _ _ _ _ _ _ _ hw page hc
      have hk := cleanupLoop_asked _ _ _ _ _ _ _ hw page hpage
      refine ⟨?_, hfind⟩
      simp only [QMap.contains]
      rw [hfind]
      exact QMap.find_isSome_of_key _ _ hk

theorem mCleanupMemory_respects_refusal_witness :
    QMap.find demoDocument.observers 7 = some demoLedger ∧
    ∃ p, mCleanupMemory (demoHost MemoryLevel.Low 0 0 [1]) 7 demoDocument = some p :=
  ⟨by decide,
   (mCleanupMemory_respects_refusal (demoHost MemoryLevel.Low 0 0 [1]) 7 demoDocument
      demoLedger (by decide)).1 (by decide)⟩

/-- The ledger of the observer after a pass that ran the loop. -/
theorem mCleanupMemory_ledger (h : Host) (observerId : Int) (s : KPDFDocument)
    (obs : ObserverData) (hobs : QMap.find s.observers observerId = some obs) (p : Pass)
    (hp : mCleanupMemory h observerId s = some p) :
    ∃ obs', QMap.find p.doc.observers observerId = some obs' ∧
      obs'.observer = obs.observer ∧
      obs'.totalMemory = obs.totalMemory - QMap.total p.removed ∧
      QMap.total obs'.pageMemory = QMap.total obs.pageMemory - QMap.total p.removed ∧
      List.Sublist obs'.pageMemory obs.pageMemory ∧
      (∀ e, e ∈ obs.pageMemory → e ∈ obs'.pageMemory ∨ e ∈ p.removed) := by
  obtain ⟨obs0, hobs0, hcase⟩ := mCleanupMemory_cases h observerId s p hp
  rw [hobs] at hobs0
  have hobs0' : obs = obs0 := Option.some.inj hobs0
  subst hobs0'
  rcases hcase with ⟨_, hp'⟩ | ⟨_, w, hw, hp'⟩
  · subst hp'
    exact ⟨obs, hobs, rfl, by simp [QMap.total], by simp [QMap.total],
      List.Sublist.refl _, fun e he => Or.inl he⟩
  · subst hp'
    obtain ⟨h1, h2⟩ := cleanupLoop_totalMemory _ _ _ _ _ _ _ hw
    exact ⟨_, QMap.find_insert_self _ _ _, rfl, h1, h2,
      cleanupLoop_sublist _ _ _ _ _ _ _ hw, cleanupLoop_mem _ _ _ _ _ _ _ hw⟩

/-- C3: an eviction pass removes no more entries than needed to bring
`memoryToFree` to 0 or below. With T the computed target, the pass returns
when the keys of the ledger are page numbers, and whenever it returns: the
sizes of the entries removed before any one removal sum to less than T (the
remaining target is positive immediately before each removal); in
particular, if k ≥ 1 entries were removed, the first k - 1 sizes sum to
less than T; and the removed entries are what the ledger lost: the total
drops by their sizes and every former entry is kept or removed. -/
theorem mCleanupMemory_removes_only_while_needed (h : Host) (observerId : Int)
    (s : KPDFDocument) (obs : ObserverData)
    (hobs : QMap.find s.observers observerId = some obs) :
    ((∀ k, k ∈ QMap.keys obs.pageMemory → (pageAt s.pages_vector k).isSome = true) →
      ∃ p, mCleanupMemory h observerId s = some p) ∧
    ∀ p, mCleanupMemory h observerId s = some p →
      (∀ j, j < p.removed.length →
        QMap.total (p.removed.take j) < memoryToFree h observerId obs.totalMemory) ∧
      (p.removed ≠ [] →
        QMap.total p.removed.dropLast < memoryToFree h observerId obs.totalMemory) ∧
      ∃ obs', QMap.find p.doc.observers observerId = some obs' ∧
        obs'.totalMemory = obs.totalMemory - QMap.total p.removed ∧
        (∀ e, e ∈ obs.pageMemory → e ∈ obs'.pageMemory ∨ e ∈ p.removed) := by
  refine ⟨mCleanupMemory_returns h observerId s obs hobs, ?_⟩
  intro p hp
  have hbefore : ∀ j, j < p.removed.length →
      QMap.total (p.removed.take j) < memoryToFree h observerId obs.totalMemory := by
    obtain ⟨obs0, hobs0, hcase⟩ := mCleanupMemory_cases h observerId s p hp
    rw [hobs] at hobs0
    have hobs0' : obs = obs0 := Option.some.inj hobs0
    subst hobs0'
    rcases hcase with ⟨_, hp'⟩ | ⟨_, w, hw, hp'⟩
    · subst hp'
      intro j hj
      simp at hj
    · subst hp'
      exact cleanupLoop_before_removal _ _ _ _ _ _ _ hw
  refine ⟨hbefore, ?_, ?_⟩
  · intro hne
    rw [List.dropLast_eq_take]
    apply hbefore
    have : 0 < p.removed.length := List.length_pos.2 hne
    omega
  · obtain ⟨obs', h1, _, h2, _, _, h3⟩ := mCleanupMemory_ledger h observerId s obs hobs p hp
    exact ⟨obs', h1, h2, h3⟩

theorem mCleanupMemory_removes_only_while_needed_witness :
    QMap.find demoDocument.observers 7 = some demoLedger ∧
    ∃ p, mCleanupMemory (demoHost MemoryLevel.Aggressive 0 800 [1]) 7 demoDocument = some p :=
  ⟨by decide,
   (mCleanupMemory_removes_only_while_needed (demoHost MemoryLevel.Aggressive 0 800 [1]) 7
      demoDocument demoLedger (by decide)).1 (by decide)⟩

/-- C4: an eviction pass ends with the target reached or nothing removable
left. The pass returns when the keys of the ledger are page numbers, and
whenever it returns, with T the computed target: either the sizes of the
removed entries sum to at least T, or every entry still in the mapping of
the observer is one for which `canUnloadPixmap` answers false; the total of
the observer has dropped by the sizes of the removed entries. -/
theorem mCleanupMemory_reaches_target_or_exhausts (h : Host) (observerId : Int)
    (s : KPDFDocument) (obs : ObserverData)
    (hobs : QMap.find s.observers observerId = some obs)
    (hT : 0 < memoryToFree h observerId obs.totalMemory) :
    ((∀ k, k ∈ QMap.keys obs.pageMemory → (pageAt s.pages_vector k).isSome = true) →
      ∃ p, mCleanupMemory h observerId s = some p) ∧
    ∀ p, mCleanupMemory h observerId s = some p →
      ∃ obs', QMap.find p.doc.observers observerId = some obs' ∧
        obs'.totalMemory = obs.totalMemory - QMap.total p.removed ∧
        (memoryToFree h observerId obs.totalMemory ≤ QMap.total p.removed ∨
          ∀ e, e ∈ obs'.pageMemory → h.canUnloadPixmap obs.observer e.1 = false) := by
  refine ⟨mCleanupMemory_returns h observerId s obs hobs, ?_⟩
  intro p hp
  obtain ⟨obs0, hobs0, hcase⟩ := mCleanupMemory_cases h observerId s p hp
  rw [hobs] at hobs0
  have hobs0' : obs = obs0 := Option.some.inj hobs0
  subst hobs0'
  rcases hcase with ⟨hle, _⟩ | ⟨_, w, hw, hp'⟩
  · exact absurd hT (not_lt.2 hle)
  · subst hp'
    exact ⟨_, QMap.find_insert_self _ _ _, (cleanupLoop_totalMemory _ _ _ _ _ _ _ hw).1,
      cleanupLoop_exit _ _ _ _ _ _ _ hw⟩

theorem mCleanupMemory_reaches_target_or_exhausts_witness :
    QMap.find demoDocument.observers 7 = some demoLedger ∧
    0 < memoryToFree (demoHost MemoryLevel.Aggressive 0 800 [1]) 7 demoLedger.totalMemory ∧
    ∃ p, mCleanupMemory (demoHost MemoryLevel.Aggressive 0 800 [1]) 7 demoDocument = some p :=
  ⟨by decide, by decide,
   (mCleanupMemory_reaches_target_or_exhausts (demoHost MemoryLevel.Aggressive 0 800 [1]) 7
      demoDocument demoLedger (by decide) (by decide)).1 (by decide)⟩

/-- A pass whose target is not positive returns at once. -/
theorem mCleanupMemory_of_le (h : Host) (observerId : Int) (s : KPDFDocument)
    (obs : ObserverData) (hobs : QMap.find s.observers observerId = some obs)
    (hT : memoryToFree h observerId obs.totalMemory ≤ 0) :
    mCleanupMemory h observerId s =
      some { doc := s, observerId := observerId, asked := [], removed := [] } := by
  unfold mCleanupMemory
  simp only [hobs, hT, if_true]

/-- C5: when the computed target `memoryToFree` is at most 0, `mCleanupMemory`
returns the document it was given (every ledger, every page and all the rest
unchanged), calls `canUnloadPixmap` for no page and removes nothing. -/
theorem mCleanupMemory_noop (h : Host) (observerId : Int) (s : KPDFDocument)
    (obs : ObserverData) (hobs : QMap.find s.observers observerId = some obs)
    (hT : memoryToFree h observerId obs.totalMemory ≤ 0) :
    mCleanupMemory h observerId s =
      some { doc := s, observerId := observerId, asked := [], removed := [] } :=
  mCleanupMemory_of_le h observerId s obs hobs hT

theorem mCleanupMemory_noop_witness :
    QMap.find scenarioDocument.observers 7 =
      some { observer := demoObserver, pageMemory := [(0, 39)], totalMemory := 39 } ∧
    memoryToFree (demoHost MemoryLevel.Aggressive 131072 78 []) 7 39 = 0 ∧
    mCleanupMemory (demoHost MemoryLevel.Aggressive 131072 78 []) 7 scenarioDocument =
      some { doc := scenarioDocument, observerId := 7, asked := [], removed := [] } :=
  ⟨by decide, by decide,
   mCleanupMemory_noop (demoHost MemoryLevel.Aggressive 131072 78 []) 7 scenarioDocument
     { observer := demoObserver, pageMemory := [(0, 39)], totalMemory := 39 }
     (by decide) (by decide)⟩

/-- C6: under the Normal memory level the target `memoryToFree` is the larger
of `totalMemory - mTotalMemory() / 20` and `totalMemory - mFreeMemory() / 3`
for the observer `THUMBNAILS_ID`, and the larger of
`totalMemory - mTotalMemory() / 5` and `totalMemory - mFreeMemory() / 3` for
every other observer id, the divisions truncating. -/
theorem memoryToFree_normal (h : Host) (observerId totalMemory : Int)
    (hN : h.memoryLevel = MemoryLevel.Normal) :
    memoryToFree h observerId totalMemory =
      if observerId = h.THUMBNAILS_ID then
        max (totalMemory - Int.tdiv h.mTotalMemory 20) (totalMemory - Int.tdiv h.mFreeMemory 3)
      else
        max (totalMemory - Int.tdiv h.mTotalMemory 5) (totalMemory - Int.tdiv h.mFreeMemory 3) := by
  unfold memoryToFree clipValue switchMemoryToFree
  simp only [hN]
  by_cases hid : observerId = h.THUMBNAILS_ID
  · simp only [hid, if_true]
    split
    · rw [max_eq_right (le_of_lt (by assumption))]
    · rw [max_eq_left (not_lt.1 (by assumption))]
  · simp only [hid, if_false]
    split
    · rw [max_eq_right (le_of_lt (by assumption))]
    · rw [max_eq_left (not_lt.1 (by assumption))]

theorem memoryToFree_normal_witness :
    (demoHost MemoryLevel.Normal 131072 3000 []).memoryLevel = MemoryLevel.Normal ∧
    memoryToFree (demoHost MemoryLevel.Normal 131072 3000 []) 4 7000 = 6000 ∧
    memoryToFree (demoHost MemoryLevel.Normal 131072 3000 []) 7 7000 = 6000 ∧
    memoryToFree (demoHost MemoryLevel.Normal 131072 300000 []) 4 7000 = 447 ∧
    memoryToFree (demoHost MemoryLevel.Normal 131072 300000 []) 7 7000 = -19214 :=
  ⟨rfl,
   (memoryToFree_normal (demoHost MemoryLevel.Normal 131072 3000 []) 4 7000 rfl).trans
     (by decide),
   by decide, by decide, by decide⟩

/-- C7, as stated, fails: under the Aggressive level with a total of 0 and
10 kB free the computed target is 0, not `0 - 10 / 2 = -5`. -/
theorem memoryToFree_aggressive_counterexample :
    memoryToFree (demoHost MemoryLevel.Aggressive 131072 10 []) 7 0 = 0 ∧
    memoryToFree (demoHost MemoryLevel.Aggressive 131072 10 []) 7 0 ≠
      0 - Int.tdiv (demoHost MemoryLevel.Aggressive 131072 10 []).mFreeMemory 2 := by
  decide

/-- C7, amended: under the Aggressive memory level the target `memoryToFree`
is `totalMemory - mFreeMemory() / 2` (truncating division) when that is
positive and 0 otherwise, that is the larger of 0 and
`totalMemory - mFreeMemory() / 2`; neither `mTotalMemory()` nor the observer
id enters it. -/
theorem memoryToFree_aggressive (h : Host) (observerId totalMemory : Int)
    (hA : h.memoryLevel = MemoryLevel.Aggressive) :
    memoryToFree h observerId totalMemory =
      max 0 (totalMemory - Int.tdiv h.mFreeMemory 2) := by
  unfold memoryToFree clipValue switchMemoryToFree
  simp only [hA]
  split
  · rw [max_eq_right (le_of_lt (by assumption))]
  · rw [max_eq_left (not_lt.1 (by assumption))]

theorem memoryToFree_aggressive_witness :
    (demoHost MemoryLevel.Aggressive 131072 800 []).memoryLevel = MemoryLevel.Aggressive ∧
    memoryToFree (demoHost MemoryLevel.Aggressive 131072 800 []) 7 490 = 90 :=
  ⟨rfl,
   (memoryToFree_aggressive (demoHost MemoryLevel.Aggressive 131072 800 []) 7 490 rfl).trans
     (by decide)⟩

/-- Wrapping leaves a value of the `int` range as it is. -/
theorem wrapInt_of_range (x : Int) (hlo : -2147483648 ≤ x) (hhi : x ≤ 2147483647) :
    wrapInt x = x := by
  unfold wrapInt
  rw [Int.emod_eq_of_lt (by omega) (by omega)]
  omega

/-- Wrapping an intermediate product does not change the wrapped result. -/
theorem wrapInt_mul_wrapInt (x y : Int) : wrapInt (wrapInt x * y) = wrapInt (x * y) := by
  unfold wrapInt
  have h : ((x + 2147483648) % 4294967296 - 2147483648) * y + 2147483648 =
      (x * y + 2147483648) + (-((x + 2147483648) / 4294967296) * y) * 4294967296 := by
    have := Int.emod_add_ediv (x + 2147483648) 4294967296
    have h2 : (x + 2147483648) % 4294967296 =
        (x + 2147483648) - 4294967296 * ((x + 2147483648) / 4294967296) := by omega
    rw [h2]
    ring
  rw [h, Int.add_mul_emod_self]

/-- Within the `int` range the expression of `requestPixmaps` is the exact
truncated quotient. -/
theorem pixmapMemory_of_range (width height : Int)
    (hlo : -2147483648 ≤ 4 * width * height) (hhi : 4 * width * height ≤ 2147483647) :
    pixmapMemory width height = Int.tdiv (4 * width * height) 1024 := by
  unfold pixmapMemory
  rw [wrapInt_mul_wrapInt, wrapInt_of_range _ hlo hhi]

/-- C10: the accounting step of `requestPixmaps` records, for a request of
pixel size w x h with 4·w·h in the `int` range, the truncated quotient
(4·w·h)/1024 under the page number of the request in the ledger of the
observer of the request, and the total of that observer becomes its former
total, less the size recorded before for that page if there was one, plus
that quotient. -/
theorem accountRequest_records_cost (request : PixmapRequest) (s : KPDFDocument)
    (obs : ObserverData) (hobs : QMap.find s.observers request.id = some obs)
    (hlo : -2147483648 ≤ 4 * request.width * request.height)
    (hhi : 4 * request.width * request.height ≤ 2147483647) :
    ∃ s' obs', accountRequest request s = some s' ∧
      QMap.find s'.observers request.id = some obs' ∧
      QMap.find obs'.pageMemory request.pageNumber =
        some (Int.tdiv (4 * request.width * request.height) 1024) ∧
      obs'.totalMemory =
        (if QMap.contains obs.pageMemory request.pageNumber then
          obs.totalMemory - QMap.value obs.pageMemory request.pageNumber
         else obs.totalMemory) + Int.tdiv (4 * request.width * request.height) 1024 := by
  refine ⟨{ s with
             observers := QMap.insert s.observers request.id (updateStatistics request obs) },
    updateStatistics request obs, ?_, QMap.find_insert_self _ _ _, ?_, ?_⟩
  · simp only [accountRequest, hobs]
  · simp only [updateStatistics]
    rw [QMap.find_insert_self, pixmapMemory_of_range _ _ hlo hhi]
  · simp only [updateStatistics]
    rw [pixmapMemory_of_range _ _ hlo hhi]

theorem accountRequest_records_cost_witness :
    QMap.find freshDocument.observers 7 = some (ObserverData.new demoObserver) ∧
    (-2147483648 : Int) ≤ 4 * 100 * 100 ∧ (4 * 100 * 100 : Int) ≤ 2147483647 ∧
    Int.tdiv (4 * 100 * 100) 1024 = 39 ∧
    validRequest freshDocument { id := 7, pageNumber := 0, width := 100, height := 100 } = true ∧
    accountRequest { id := 7, pageNumber := 0, width := 100, height := 100 } freshDocument =
      some scenarioDocument ∧
    ∃ s' obs',
      accountRequest { id := 7, pageNumber := 0, width := 100, height := 100 } freshDocument =
        some s' ∧
      QMap.find s'.observers 7 = some obs' ∧
      QMap.find obs'.pageMemory 0 = some (Int.tdiv (4 * 100 * 100) 1024) ∧
      obs'.totalMemory = 0 + Int.tdiv (4 * 100 * 100) 1024 :=
  ⟨by decide, by decide, by decide, by decide, by decide, by decide,
   accountRequest_records_cost { id := 7, pageNumber := 0, width := 100, height := 100 }
     freshDocument (ObserverData.new demoObserver) (by decide) (by decide) (by decide)⟩

theorem QMap.filter_key_eq_nil (m : QMap Int) (k : Int) (h : ∀ a, a ∈ QMap.keys m → k < a) :
    m.filter (fun e => decide (e.1 = k)) = [] := by
  rw [List.filter_eq_nil_iff]
  intro e he
  have := h e.1 (List.mem_map.2 ⟨e, he, rfl⟩)
  simp only [decide_eq_true_eq]
  omega

/-- After `m[k] = v` a well-formed map has exactly one entry under `k`. -/
theorem QMap.filter_key_insert (m : QMap Int) (k v : Int) (hwf : QMap.WF m) :
    (QMap.insert m k v).filter (fun e => decide (e.1 = k)) = [(k, v)] := by
  induction m with
  | nil => simp [QMap.insert]
  | cons e m ih =>
    obtain ⟨k', v'⟩ := e
    have hwf' : (∀ a ∈ QMap.keys m, k' < a) ∧ QMap.WF m := by
      simpa [QMap.WF, QMap.keys] using hwf
    unfold QMap.insert
    by_cases h1 : k < k'
    · have hnil : ((k', v') :: m).filter (fun e => decide (e.1 = k)) = [] := by
        apply QMap.filter_key_eq_nil
        intro a ha
        simp only [QMap.keys, List.map_cons, List.mem_cons] at ha
        rcases ha with ha | ha
        · rw [ha]; exact h1
        · exact lt_trans h1 (hwf'.1 a ha)
      simp only [h1, if_true]
      rw [List.filter_cons_of_pos (by simp), hnil]
    · by_cases h2 : k = k'
      · subst h2
        have hnil : m.filter (fun e => decide (e.1 = k)) = [] :=
          QMap.filter_key_eq_nil m k hwf'.1
        simp only [lt_self_iff_false, if_false, if_true]
        rw [List.filter_cons_of_pos (by simp), hnil]
      · have h3 : ¬ k' = k := fun h => h2 h.symm
        simp only [h1, h2, if_false]
        rw [List.filter_cons_of_neg (by simpa using h3)]
        exact ih hwf'.2

theorem updateStatistics_totalMemory (r : PixmapRequest) (obs : ObserverData) :
    (updateStatistics r obs).totalMemory =
      (if QMap.contains obs.pageMemory r.pageNumber then
        obs.totalMemory - QMap.value obs.pageMemory r.pageNumber
       else obs.totalMemory) + pixmapMemory r.width r.height :=
  rfl

theorem updateStatistics_pageMemory (r : PixmapRequest) (obs : ObserverData) :
    (updateStatistics r obs).pageMemory =
      QMap.insert obs.pageMemory r.pageNumber (pixmapMemory r.width r.height) :=
  rfl

/-- The validity test reads only the page vector. -/
theorem validRequest_congr (s s' : KPDFDocument) (r r' : PixmapRequest)
    (hp : s'.pages_vector = s.pages_vector) (hn : r'.pageNumber = r.pageNumber) :
    validRequest s' r' = validRequest s r := by
  simp only [validRequest, hp, hn]

/-- A valid request is one whose page is in the vector with width and
height of at least 1. -/
theorem validRequest_iff (s : KPDFDocument) (r : PixmapRequest) :
    validRequest s r = true ↔
      ∃ page, pageAt s.pages_vector r.pageNumber = some page ∧
        (decide (page.width < 1) || decide (page.height < 1)) = false := by
  unfold validRequest
  cases hp : pageAt s.pages_vector r.pageNumber with
  | none => simp
  | some page =>
    constructor
    · intro h
      refine ⟨page, rfl, ?_⟩
      cases hb : (decide (page.width < 1) || decide (page.height < 1))
      · rfl
      · simp only [hb] at h
        exact absurd h (by decide)
    · rintro ⟨page', hpage', hb⟩
      have hpp : page = page' := Option.some.inj hpage'
      subst hpp
      simp only [hb]
      rfl

/-- One iteration of the loop of `requestPixmaps` on a valid request. -/
theorem requestLoop_cons_valid (host : Nat → Host) (r : PixmapRequest)
    (rest : List PixmapRequest) (async : Bool) (s : KPDFDocument)
    (hv : validRequest s r = true) :
    requestLoop host (r :: rest) async s =
      match accountRequest r s with
      | none => none
      | some s1 =>
        match mCleanupMemory (host 0) r.id s1 with
        | none => none
        | some p =>
          match requestLoop (fun i => host (i + 1)) rest async p.doc with
          | none => none
          | some d =>
            some { d with
              forwarded := (r, if (host 0).disableThreading then false else async)
                :: d.forwarded
              passes := p.toEviction :: d.passes } := by
  obtain ⟨page, hp, hb⟩ := (validRequest_iff s r).1 hv
  conv_lhs => unfold requestLoop
  simp only [hp, hb, Bool.false_eq_true, if_false]

/-- One iteration of the loop of `requestPixmaps` on a request whose page
has width or height below 1: the request is skipped. -/
theorem requestLoop_cons_dropped (host : Nat → Host) (r : PixmapRequest)
    (rest : List PixmapRequest) (async : Bool) (s : KPDFDocument) (page : KPDFPage)
    (hp : pageAt s.pages_vector r.pageNumber = some page)
    (hb : (decide (page.width < 1) || decide (page.height < 1)) = true) :
    requestLoop host (r :: rest) async s = requestLoop host rest async s := by
  conv_lhs => unfold requestLoop
  simp only [hp, hb, if_true]

/-- One iteration of the loop of `requestPixmaps` on a request whose page
number is outside the page vector: no result. -/
theorem requestLoop_cons_outside (host : Nat → Host) (r : PixmapRequest)
    (rest : List PixmapRequest) (async : Bool) (s : KPDFDocument)
    (hp : pageAt s.pages_vector r.pageNumber = none) :
    requestLoop host (r :: rest) async s = none := by
  conv_lhs => unfold requestLoop
  simp only [hp]

/-- Inversion of one iteration of the loop of `requestPixmaps`. -/
theorem requestLoop_cons_some (host : Nat → Host) (r : PixmapRequest)
    (rest : List PixmapRequest) (async : Bool) (s : KPDFDocument) (d : Dispatch)
    (h : requestLoop host (r :: rest) async s = some d) :
    (validRequest s r = false ∧ (pageAt s.pages_vector r.pageNumber).isSome = true ∧
      requestLoop host rest async s = some d) ∨
    (validRequest s r = true ∧ ∃ s1 p d0, accountRequest r s = some s1 ∧
      mCleanupMemory (host 0) r.id s1 = some p ∧
      requestLoop (fun i => host (i + 1)) rest async p.doc = some d0 ∧
      d = { d0 with
            forwarded := (r, if (host 0).disableThreading then false else async)
              :: d0.forwarded
            passes := p.toEviction :: d0.passes }) := by
  cases hp : pageAt s.pages_vector r.pageNumber with
  | none =>
    rw [requestLoop_cons_outside host r rest async s hp] at h
    exact absurd h (by simp)
  | some page =>
    cases hb : (decide (page.width < 1) || decide (page.height < 1)) with
    | true =>
      rw [requestLoop_cons_dropped host r rest async s page hp hb] at h
      have hv : validRequest s r = false := by
        cases hv' : validRequest s r with
        | false => rfl
        | true =>
          obtain ⟨page', hp', hb'⟩ := (validRequest_iff s r).1 hv'
          rw [hp] at hp'
          have hpp : page = page' := Option.some.inj hp'
          subst hpp
          rw [hb] at hb'
          exact absurd hb' (by decide)
      exact Or.inl ⟨hv, by simp, h⟩
    | false =>
      have hv : validRequest s r = true := (validRequest_iff s r).2 ⟨page, hp, hb⟩
      rw [requestLoop_cons_valid host r rest async s hv] at h
      cases hacc : accountRequest r s with
      | none => simp [hacc] at h
      | some s1 =>
        simp only [hacc] at h
        cases hpass : mCleanupMemory (host 0) r.id s1 with
        | none => simp [hpass] at h
        | some p =>
          simp only [hpass] at h
          cases hl : requestLoop (fun i => host (i + 1)) rest async p.doc with
          | none => simp [hl] at h
          | some d0 =>
            simp only [hl, Option.some.injEq] at h
            exact Or.inr ⟨hv, s1, p, d0, rfl, hpass, hl, h.symm⟩

/-- One iteration of the loop of `requestPixmaps` when the target of the pass
is not positive: the statistics are updated and the request is forwarded. -/
theorem requestPixmaps_single_of_le (host : Nat → Host) (r : PixmapRequest) (async : Bool)
    (s : KPDFDocument) (obs : ObserverData) (hgen : s.generator = true)
    (hv : validRequest s r = true) (hobs : QMap.find s.observers r.id = some obs)
    (hT : memoryToFree (host 0) r.id (updateStatistics r obs).totalMemory ≤ 0) :
    requestPixmaps host [r] async s =
      some { doc := { s with
               observers := QMap.insert s.observers r.id (updateStatistics r obs) }
             forwarded := [(r, if (host 0).disableThreading then false else async)]
             passes := [{ observerId := r.id, asked := [], removed := [] }] } := by
  have hacc : accountRequest r s = some { s with
      observers := QMap.insert s.observers r.id (updateStatistics r obs) } := by
    simp only [accountRequest, hobs]
  have hpass := mCleanupMemory_of_le (host 0) r.id
    { s with observers := QMap.insert s.observers r.id (updateStatistics r obs) }
    (updateStatistics r obs) (QMap.find_insert_self _ _ _) hT
  unfold requestPixmaps
  rw [if_pos hgen, requestLoop_cons_valid host r [] async s hv]
  simp only [requestLoop, hacc, hpass]

/-- C9: re-request accounting. A valid request r1 for a registered observer
followed by a request r2 for the same page and observer, both passes with a
target of at most 0 (no eviction): both calls return; after the first the
page has the cost of r1, after the second the ledger has exactly one entry
for the page, with the cost of r2, and the total is the total after the
first call plus the cost of r2 minus the cost of r1. -/
theorem rerequest_accounting (host1 host2 : Nat → Host) (r1 r2 : PixmapRequest)
    (async : Bool) (s : KPDFDocument) (obs : ObserverData)
    (hgen : s.generator = true) (hv : validRequest s r1 = true)
    (hobs : QMap.find s.observers r1.id = some obs) (hwf : QMap.WF obs.pageMemory)
    (hid : r2.id = r1.id) (hpage : r2.pageNumber = r1.pageNumber)
    (hT1 : memoryToFree (host1 0) r1.id (updateStatistics r1 obs).totalMemory ≤ 0)
    (hT2 : memoryToFree (host2 0) r1.id
      (updateStatistics r2 (updateStatistics r1 obs)).totalMemory ≤ 0) :
    ∃ d1 d2 obs1 obs2,
      requestPixmaps host1 [r1] async s = some d1 ∧
      requestPixmaps host2 [r2] async d1.doc = some d2 ∧
      QMap.find d1.doc.observers r1.id = some obs1 ∧
      QMap.find d2.doc.observers r1.id = some obs2 ∧
      QMap.find obs1.pageMemory r1.pageNumber = some (pixmapMemory r1.width r1.height) ∧
      obs2.pageMemory.filter (fun e => decide (e.1 = r1.pageNumber)) =
        [(r1.pageNumber, pixmapMemory r2.width r2.height)] ∧
      obs2.totalMemory =
        obs1.totalMemory + pixmapMemory r2.width r2.height - pixmapMemory r1.width r1.height := by
  have h1 := requestPixmaps_single_of_le host1 r1 async s obs hgen hv hobs hT1
  have hv2 : validRequest { s with
      observers := QMap.insert s.observers r1.id (updateStatistics r1 obs) } r2 = true := by
    exact (validRequest_congr s { s with
      observers := QMap.insert s.observers r1.id (updateStatistics r1 obs) } r1 r2
      rfl hpage).trans hv
  have hobs2 : QMap.find (QMap.insert s.observers r1.id (updateStatistics r1 obs)) r2.id =
      some (updateStatistics r1 obs) := by
    rw [hid]
    exact QMap.find_insert_self _ _ _
  have hT2' : memoryToFree (host2 0) r2.id
      (updateStatistics r2 (updateStatistics r1 obs)).totalMemory ≤ 0 := by
    rw [hid]
    exact hT2
  have h2 := requestPixmaps_single_of_le host2 r2 async
    { s with observers := QMap.insert s.observers r1.id (updateStatistics r1 obs) }
    (updateStatistics r1 obs) hgen hv2 hobs2 hT2'
  refine ⟨_, _, updateStatistics r1 obs, updateStatistics r2 (updateStatistics r1 obs),
    h1, h2, QMap.find_insert_self _ _ _, ?_, ?_, ?_, ?_⟩
  · simp only [hid]
    exact QMap.find_insert_self _ _ _
  · simp only [updateStatistics]
    exact QMap.find_insert_self _ _ _
  · simp only [updateStatistics, hpage]
    exact QMap.filter_key_insert _ _ _ (QMap.WF_insert _ _ _ hwf)
  · have hc : QMap.contains (updateStatistics r1 obs).pageMemory r2.pageNumber = true := by
      simp only [updateStatistics, hpage, QMap.contains, QMap.find_insert_self,
        Option.isSome_some]
    have hval : QMap.value (updateStatistics r1 obs).pageMemory r2.pageNumber =
        pixmapMemory r1.width r1.height := by
      simp only [updateStatistics, hpage, QMap.value, QMap.find_insert_self,
        Option.getD_some]
    rw [updateStatistics_totalMemory r2 (updateStatistics r1 obs), hc, if_pos rfl, hval]
    ring

theorem rerequest_accounting_witness :
    freshDocument.generator = true ∧
    validRequest freshDocument { id := 7, pageNumber := 0, width := 100, height := 100 } = true ∧
    QMap.find freshDocument.observers 7 = some (ObserverData.new demoObserver) ∧
    ∃ d1 d2 obs1 obs2,
      requestPixmaps (fun _ => demoHost MemoryLevel.Normal 131072 90000 [])
        [{ id := 7, pageNumber := 0, width := 100, height := 100 }] true freshDocument =
          some d1 ∧
      requestPixmaps (fun _ => demoHost MemoryLevel.Normal 131072 90000 [])
        [{ id := 7, pageNumber := 0, width := 200, height := 200 }] true d1.doc = some d2 ∧
      QMap.find d1.doc.observers 7 = some obs1 ∧
      QMap.find d2.doc.observers 7 = some obs2 ∧
      QMap.find obs1.pageMemory 0 = some (pixmapMemory 100 100) ∧
      obs2.pageMemory.filter (fun e => decide (e.1 = 0)) = [(0, pixmapMemory 200 200)] ∧
      obs2.totalMemory = obs1.totalMemory + pixmapMemory 200 200 - pixmapMemory 100 100 :=
  ⟨rfl, by decide, by decide,
   rerequest_accounting (fun _ => demoHost MemoryLevel.Normal 131072 90000 [])
     (fun _ => demoHost MemoryLevel.Normal 131072 90000 [])
     { id := 7, pageNumber := 0, width := 100, height := 100 }
     { id := 7, pageNumber := 0, width := 200, height := 200 }
     true freshDocument (ObserverData.new demoObserver)
     rfl (by decide) (by decide) (by decide) rfl rfl (by decide) (by decide)⟩

/-! ## The ledger invariant -/

theorem LedgersSound_insert (m : QMap ObserverData) (k : Int) (obs : ObserverData)
    (hm : LedgersSound m) (hwf : QMap.WF obs.pageMemory)
    (htot : obs.totalMemory = QMap.total obs.pageMemory) :
    LedgersSound (QMap.insert m k obs) := by
  intro e he
  rcases QMap.mem_insert m k obs e he with h | h
  · rw [h]
    exact ⟨hwf, htot⟩
  · exact hm e h

theorem LedgersSound_of_find (m : QMap ObserverData) (k : Int) (obs : ObserverData)
    (hm : LedgersSound m) (hobs : QMap.find m k = some obs) :
    QMap.WF obs.pageMemory ∧ obs.totalMemory = QMap.total obs.pageMemory :=
  hm (k, obs) (QMap.mem_of_find m k obs hobs)

theorem LedgersSound_updateStatistics (r : PixmapRequest) (obs : ObserverData)
    (hwf : QMap.WF obs.pageMemory) (htot : obs.totalMemory = QMap.total obs.pageMemory) :
    QMap.WF (updateStatistics r obs).pageMemory ∧
    (updateStatistics r obs).totalMemory = QMap.total (updateStatistics r obs).pageMemory := by
  refine ⟨QMap.WF_insert _ _ _ hwf, ?_⟩
  rw [updateStatistics_totalMemory, updateStatistics_pageMemory,
    QMap.total_insert _ _ _ hwf, htot]

theorem LedgersSound_addObserver (o : KPDFDocumentObserver) (s : KPDFDocument)
    (hs : LedgersSound s.observers) : LedgersSound (addObserver o s).observers :=
  LedgersSound_insert _ _ _ hs List.Pairwise.nil rfl

theorem LedgersSound_removeObserver (o : KPDFDocumentObserver) (s : KPDFDocument)
    (hs : LedgersSound s.observers) : LedgersSound (removeObserver o s).observers := by
  unfold removeObserver
  split
  · intro e he
    exact hs e (List.mem_of_mem_filter he)
  · exact hs

theorem LedgersSound_closeDocument (s : KPDFDocument) :
    LedgersSound (closeDocument s).observers := by
  intro e he
  simp only [closeDocument, List.mem_map] at he
  obtain ⟨e0, _, rfl⟩ := he
  exact ⟨List.Pairwise.nil, rfl⟩

theorem LedgersSound_accountRequest (r : PixmapRequest) (s s' : KPDFDocument)
    (hs : LedgersSound s.observers) (h : accountRequest r s = some s') :
    LedgersSound s'.observers := by
  unfold accountRequest at h
  cases hobs : QMap.find s.observers r.id with
  | none => simp [hobs] at h
  | some obs =>
    simp only [hobs, Option.some.injEq] at h
    subst h
    obtain ⟨h1, h2⟩ := LedgersSound_of_find _ _ _ hs hobs
    obtain ⟨h3, h4⟩ := LedgersSound_updateStatistics r obs h1 h2
    exact LedgersSound_insert _ _ _ hs h3 h4

theorem LedgersSound_mCleanupMemory (h : Host) (observerId : Int) (s : KPDFDocument)
    (p : Pass) (hs : LedgersSound s.observers) (hp : mCleanupMemory h observerId s = some p) :
    LedgersSound p.doc.observers := by
  obtain ⟨obs, hobs, hcase⟩ := mCleanupMemory_cases h observerId s p hp
  obtain ⟨h1, h2⟩ := LedgersSound_of_find _ _ _ hs hobs
  rcases hcase with ⟨_, hp'⟩ | ⟨_, w, hw, hp'⟩
  · subst hp'
    exact hs
  · subst hp'
    obtain ⟨h3, h4⟩ := cleanupLoop_totalMemory _ _ _ _ _ _ _ hw
    refine LedgersSound_insert _ _ _ hs ?_ ?_
    · exact QMap.WF_of_sublist _ _ (cleanupLoop_sublist _ _ _ _ _ _ _ hw) h1
    · show w.totalMemory = QMap.total w.pageMemory
      rw [h3, h4, h2]

theorem LedgersSound_requestLoop (requests : List PixmapRequest) (async : Bool) :
    ∀ (host : Nat → Host) (s : KPDFDocument) (d : Dispatch),
      LedgersSound s.observers → requestLoop host requests async s = some d →
      LedgersSound d.doc.observers := by
  induction requests with
  | nil =>
    intro host s d hs h
    simp only [requestLoop, Option.some.injEq] at h
    subst h
    exact hs
  | cons r rest ih =>
    intro host s d hs h
    rcases requestLoop_cons_some host r rest async s d h with
      ⟨_, _, h0⟩ | ⟨_, s1, p, d0, hacc, hp, hl, hd⟩
    · exact ih host s d hs h0
    · subst hd
      exact ih _ _ d0 (LedgersSound_mCleanupMemory _ _ _ _
        (LedgersSound_accountRequest r s s1 hs hacc) hp) hl

theorem LedgersSound_checkLoop (ids : List Int) :
    ∀ (host : Nat → Host) (s : KPDFDocument) (w : Sweep),
      LedgersSound s.observers → checkLoop host ids s = some w →
      LedgersSound w.doc.observers := by
  induction ids with
  | nil =>
    intro host s w hs h
    simp only [checkLoop, Option.some.injEq] at h
    subst h
    exact hs
  | cons id rest ih =>
    intro host s w hs h
    unfold checkLoop at h
    cases hobs : QMap.find s.observers id with
    | none =>
      simp only [hobs] at h
      exact ih host s w hs h
    | some obs =>
      simp only [hobs] at h
      by_cases hbig : obs.totalMemory > 1024
      · simp only [hbig, if_true] at h
        cases hp : mCleanupMemory (host 0) id s with
        | none => simp [hp] at h
        | some p =>
          simp only [hp] at h
          cases hl : checkLoop (fun i => host (i + 1)) rest p.doc with
          | none => simp [hl] at h
          | some w0 =>
            simp only [hl, Option.some.injEq] at h
            subst h
            exact ih _ _ w0 (LedgersSound_mCleanupMemory _ _ _ _ hs hp) hl
      · simp only [hbig, if_false] at h
        exact ih host s w hs h

theorem LedgersSound_of_Reachable (s : KPDFDocument) (h : Reachable s) :
    LedgersSound s.observers := by
  induction h with
  | new =>
    intro e he
    simp [KPDFDocument.new] at he
  | add o s _ ih => exact LedgersSound_addObserver o s ih
  | remove o s _ ih => exact LedgersSound_removeObserver o s ih
  | close s _ _ => exact LedgersSound_closeDocument s
  | account r s s' _ hacc ih => exact LedgersSound_accountRequest r s s' ih hacc
  | cleanup h id s p _ hp ih => exact LedgersSound_mCleanupMemory h id s p ih hp
  | request host requests async s d _ hd ih =>
    unfold requestPixmaps at hd
    by_cases hgen : s.generator = true
    · rw [if_pos hgen] at hd
      exact LedgersSound_requestLoop requests async host s d ih hd
    · rw [if_neg hgen] at hd
      simp only [Option.some.injEq] at hd
      subst hd
      exact ih
  | check host s w _ hw ih =>
    unfold slotCheckMemory at hw
    by_cases hlow : (host 0).memoryLevel = MemoryLevel.Low
    · rw [if_pos hlow] at hw
      simp only [Option.some.injEq] at hw
      subst hw
      exact ih
    · rw [if_neg hlow] at hw
      exact LedgersSound_checkLoop _ host s w ih hw
  | other s s' _ hobs ih =>
    rw [hobs]
    exact ih

/-- C1: the ledger invariant. In every state the document can reach (the
state after construction, and any state after `addObserver`, the accounting
step of `requestPixmaps`, `mCleanupMemory`, `requestPixmaps`,
`slotCheckMemory`, `closeDocument`, `removeObserver` or an operation that
does not write the observers map), every registered observer has
`totalMemory` equal to the sum of the sizes in its `pageMemory`. -/
theorem ledger_invariant (s : KPDFDocument) (h : Reachable s) :
    ∀ id obs, (id, obs) ∈ s.observers → obs.totalMemory = QMap.total obs.pageMemory :=
  fun id obs hmem => (LedgersSound_of_Reachable s h (id, obs) hmem).2

theorem ledger_invariant_witness :
    Reachable scenarioDocument ∧
    ∀ id obs, (id, obs) ∈ scenarioDocument.observers →
      obs.totalMemory = QMap.total obs.pageMemory :=
  have hr : Reachable scenarioDocument :=
    Reachable.account { id := 7, pageNumber := 0, width := 100, height := 100 }
      freshDocument scenarioDocument
      (Reachable.add demoObserver { freshDocument with observers := [] }
        (Reachable.other KPDFDocument.new { freshDocument with observers := [] }
          Reachable.new rfl))
      (by decide)
  ⟨hr, ledger_invariant scenarioDocument hr⟩

/-! ## The Low memory level -/

theorem QMap.total_nonneg (m : QMap Int) (h : ∀ e, e ∈ m → 0 ≤ e.2) : 0 ≤ QMap.total m := by
  induction m with
  | nil => simp [QMap.total]
  | cons e m ih =>
    rw [sizes_cons]
    have h1 := h e (by simp)
    have h2 := ih (fun e' he' => h e' (List.mem_cons_of_mem _ he'))
    omega

theorem QMap.sizes_zero_of_total_le (m : QMap Int) (h : ∀ e, e ∈ m → 0 ≤ e.2)
    (hle : QMap.total m ≤ 0) : ∀ e, e ∈ m → e.2 = 0 := by
  induction m with
  | nil =>
    intro e he
    simp at he
  | cons e0 m ih =>
    rw [sizes_cons] at hle
    have h1 := h e0 (by simp)
    have hm : ∀ e', e' ∈ m → 0 ≤ e'.2 := fun e' he' => h e' (List.mem_cons_of_mem _ he')
    have h2 := QMap.total_nonneg m hm
    intro e he
    rcases List.mem_cons.1 he with he | he
    · rw [he]; omega
    · exact ih hm (by omega) e he

/-- With an observer that lets every page go and a target equal to the sum
of the (non-negative) sizes, the loop leaves a total of 0 and only entries
of size 0. -/
theorem cleanupLoop_all_permitted (can : Int → Bool) (id : Int) (m : QMap Int)
    (hcan : ∀ page, can page = true) :
    ∀ (T : Int) (pv : List KPDFPage) (w : Walk),
      (∀ e, e ∈ m → 0 ≤ e.2) → T = QMap.total m →
      cleanupLoop can id m T T pv = some w →
      w.totalMemory = 0 ∧ ∀ e, e ∈ w.pageMemory → e.2 = 0 := by
  induction m with
  | nil =>
    intro T pv w _ hT h
    rw [cleanupLoop_nil can id T T pv w h]
    exact ⟨by simpa [QMap.total] using hT, by simp⟩
  | cons e' rest ih =>
    obtain ⟨k, d⟩ := e'
    intro T pv w hnn hT h
    have hrest : ∀ e, e ∈ rest → 0 ≤ e.2 := fun e he => hnn e (List.mem_cons_of_mem _ he)
    rcases cleanupLoop_cons can id k d rest T T pv w h with
      ⟨hstop, hw⟩ | ⟨_, hc, _, _, _⟩ | ⟨_, _, pv', w0, _, h0, hw⟩
    · subst hw
      have hge := QMap.total_nonneg _ hnn
      have hle : QMap.total ((k, d) :: rest) ≤ 0 := by rw [← hT]; exact not_lt.1 hstop
      exact ⟨by show T = 0; omega, QMap.sizes_zero_of_total_le _ hnn hle⟩
    · rw [hcan k] at hc
      exact absurd hc (by simp)
    · subst hw
      exact ih (T - d) pv' w0 hrest (by rw [hT, sizes_cons]; simp) h0

/-- Under the Low level the target is the total of the observer. -/
theorem memoryToFree_low (h : Host) (observerId totalMemory : Int)
    (hlow : h.memoryLevel = MemoryLevel.Low) :
    memoryToFree h observerId totalMemory = max 0 totalMemory := by
  unfold memoryToFree clipValue switchMemoryToFree
  simp only [hlow]
  split
  · rw [max_eq_left (le_of_lt (by assumption))]
  · rw [max_eq_right (not_lt.1 (by assumption))]

/-- A Low pass for an observer that lets every page go zeroes its ledger. -/
theorem mCleanupMemory_low_zeroes (h : Host) (observerId : Int) (s : KPDFDocument)
    (obs : ObserverData) (p : Pass) (hlow : h.memoryLevel = MemoryLevel.Low)
    (hobs : QMap.find s.observers observerId = some obs) (hnn : LedgerNonneg obs)
    (hcan : ∀ page, h.canUnloadPixmap obs.observer page = true)
    (hp : mCleanupMemory h observerId s = some p) :
    ∃ obs', QMap.find p.doc.observers observerId = some obs' ∧
      obs'.observer = obs.observer ∧ LedgerNonneg obs' ∧ LedgerZeroed obs' := by
  obtain ⟨hwf, htot, hsz⟩ := hnn
  have hge : 0 ≤ obs.totalMemory := by rw [htot]; exact QMap.total_nonneg _ hsz
  have hT : memoryToFree h observerId obs.totalMemory = obs.totalMemory := by
    rw [memoryToFree_low h observerId obs.totalMemory hlow, max_eq_right hge]
  obtain ⟨obs0, hobs0, hcase⟩ := mCleanupMemory_cases h observerId s p hp
  rw [hobs] at hobs0
  have hobs0' : obs = obs0 := Option.some.inj hobs0
  subst hobs0'
  rcases hcase with ⟨hle, hp'⟩ | ⟨_, w, hw, hp'⟩
  · subst hp'
    rw [hT] at hle
    refine ⟨obs, hobs, rfl, ⟨hwf, htot, hsz⟩, by omega, ?_⟩
    exact QMap.sizes_zero_of_total_le _ hsz (by rw [← htot]; exact hle)
  · subst hp'
    rw [hT] at hw
    obtain ⟨h1, h2⟩ := cleanupLoop_all_permitted _ _ _ hcan _ _ _ hsz htot hw
    obtain ⟨h3, h4⟩ := cleanupLoop_totalMemory _ _ _ _ _ _ _ hw
    have hsub := cleanupLoop_sublist _ _ _ _ _ _ _ hw
    refine ⟨_, QMap.find_insert_self _ _ _, rfl, ⟨?_, ?_, ?_⟩, h1, h2⟩
    · exact QMap.WF_of_sublist _ _ hsub hwf
    · show w.totalMemory = QMap.total w.pageMemory
      rw [h3, h4, htot]
    · intro e he
      exact hsz e (hsub.subset he)

/-- A pass for one observer leaves the ledger of every other observer alone. -/
theorem mCleanupMemory_find_ne (h : Host) (observerId other : Int) (s : KPDFDocument)
    (p : Pass) (hne : other ≠ observerId) (hp : mCleanupMemory h observerId s = some p) :
    QMap.find p.doc.observers other = QMap.find s.observers other := by
  obtain ⟨obs, _, hcase⟩ := mCleanupMemory_cases h observerId s p hp
  rcases hcase with ⟨_, hp'⟩ | ⟨_, w, _, hp'⟩
  · subst hp'
    rfl
  · subst hp'
    exact QMap.find_insert_ne _ _ _ _ hne

/-- A pass changes no page number, width or height, so the validity of a
request is the same before and after. -/
theorem validRequest_mCleanupMemory (h : Host) (observerId : Int) (s : KPDFDocument)
    (p : Pass) (r : PixmapRequest) (hp : mCleanupMemory h observerId s = some p) :
    validRequest p.doc r = validRequest s r := by
  obtain ⟨obs, _, hcase⟩ := mCleanupMemory_cases h observerId s p hp
  rcases hcase with ⟨_, hp'⟩ | ⟨_, w, hw, hp'⟩
  · subst hp'
    rfl
  · subst hp'
    obtain ⟨_, hn⟩ := cleanupLoop_pages _ _ _ _ _ _ _ hw
    unfold validRequest pageAt
    by_cases hk : 0 ≤ r.pageNumber
    · simp only [hk, if_true]
      rcases hn r.pageNumber.toNat with h1 | ⟨_, h1⟩
      · rw [h1]
      · rw [h1]
        cases s.pages_vector[r.pageNumber.toNat]? with
        | none => rfl
        | some page => rfl
    · simp only [hk, if_false]

theorem accountRequest_find_ne (r : PixmapRequest) (s s' : KPDFDocument) (other : Int)
    (hne : other ≠ r.id) (h : accountRequest r s = some s') :
    QMap.find s'.observers other = QMap.find s.observers other := by
  unfold accountRequest at h
  cases hobs : QMap.find s.observers r.id with
  | none => simp [hobs] at h
  | some obs =>
    simp only [hobs, Option.some.injEq] at h
    subst h
    exact QMap.find_insert_ne _ _ _ _ hne

theorem accountRequest_pages (r : PixmapRequest) (s s' : KPDFDocument)
    (h : accountRequest r s = some s') : s'.pages_vector = s.pages_vector := by
  unfold accountRequest at h
  cases hobs : QMap.find s.observers r.id with
  | none => simp [hobs] at h
  | some obs =>
    simp only [hobs, Option.some.injEq] at h
    subst h
    rfl

theorem accountRequest_find_self (r : PixmapRequest) (s s' : KPDFDocument)
    (obs : ObserverData) (hobs : QMap.find s.observers r.id = some obs)
    (h : accountRequest r s = some s') :
    QMap.find s'.observers r.id = some (updateStatistics r obs) := by
  unfold accountRequest at h
  simp only [hobs, Option.some.injEq] at h
  subst h
  exact QMap.find_insert_self _ _ _

theorem LedgerNonneg_updateStatistics (r : PixmapRequest) (obs : ObserverData)
    (hnn : LedgerNonneg obs) (hcost : 0 ≤ pixmapMemory r.width r.height) :
    LedgerNonneg (updateStatistics r obs) := by
  obtain ⟨hwf, htot, hsz⟩ := hnn
  obtain ⟨h1, h2⟩ := LedgersSound_updateStatistics r obs hwf htot
  refine ⟨h1, h2, ?_⟩
  intro e he
  rcases QMap.mem_insert _ _ _ e he with h | h
  · rw [h]; exact hcost
  · exact hsz e h

/-- The loop of `requestPixmaps` under the Low level, seen from one observer
that lets every page go: its ledger stays in good order, and it is zeroed at
the end if it was zeroed at the start or one of the requests was a valid
request for this observer. -/
theorem requestLoop_low (observerId : Int) (o : KPDFDocumentObserver)
    (requests : List PixmapRequest) (async : Bool) :
    ∀ (host : Nat → Host) (s : KPDFDocument) (d : Dispatch) (obs : ObserverData),
      (∀ i, (host i).memoryLevel = MemoryLevel.Low) →
      (∀ i page, (host i).canUnloadPixmap o page = true) →
      QMap.find s.observers observerId = some obs → obs.observer = o →
      LedgerNonneg obs →
      (∀ r, r ∈ requests → r.id = observerId → 0 ≤ pixmapMemory r.width r.height) →
      requestLoop host requests async s = some d →
      ∃ obs', QMap.find d.doc.observers observerId = some obs' ∧ obs'.observer = o ∧
        LedgerNonneg obs' ∧
        ((LedgerZeroed obs ∨
            ∃ r, r ∈ requests ∧ r.id = observerId ∧ validRequest s r = true) →
          LedgerZeroed obs') := by
  induction requests with
  | nil =>
    intro host s d obs _ _ hobs ho hnn _ h
    simp only [requestLoop, Option.some.injEq] at h
    subst h
    refine ⟨obs, hobs, ho, hnn, ?_⟩
    intro hz
    rcases hz with hz | ⟨r, hr, _⟩
    · exact hz
    · simp at hr
  | cons r rest ih =>
    intro host s d obs hlow hcan hobs ho hnn hcost h
    have hcost' : ∀ r', r' ∈ rest → r'.id = observerId →
        0 ≤ pixmapMemory r'.width r'.height :=
      fun r' hr' => hcost r' (List.mem_cons_of_mem _ hr')
    have hlow' : ∀ i, ((fun i => host (i + 1)) i).memoryLevel = MemoryLevel.Low :=
      fun i => hlow (i + 1)
    have hcan' : ∀ i page, ((fun i => host (i + 1)) i).canUnloadPixmap o page = true :=
      fun i page => hcan (i + 1) page
    rcases requestLoop_cons_some host r rest async s d h with
      ⟨hv, _, h0⟩ | ⟨_, s1, p, d0, hacc, hp, hl, hd⟩
    · obtain ⟨obs', h1, h2, h3, h4⟩ := ih host s d obs hlow hcan hobs ho hnn hcost' h0
      refine ⟨obs', h1, h2, h3, ?_⟩
      intro hz
      apply h4
      rcases hz with hz | ⟨r', hr', hr'id, hr'v⟩
      · exact Or.inl hz
      · rcases List.mem_cons.1 hr' with hr' | hr'
        · rw [hr', hv] at hr'v
          exact absurd hr'v (by decide)
        · exact Or.inr ⟨r', hr', hr'id, hr'v⟩
    · subst hd
      by_cases hid : r.id = observerId
      · subst hid
        have hobs1 := accountRequest_find_self r s s1 obs hobs hacc
        have hnn1 := LedgerNonneg_updateStatistics r obs hnn
          (hcost r (by simp) rfl)
        have hcan0 : ∀ page,
            (host 0).canUnloadPixmap (updateStatistics r obs).observer page = true := by
          intro page
          show (host 0).canUnloadPixmap obs.observer page = true
          rw [ho]
          exact hcan 0 page
        obtain ⟨obs2, hobs2, ho2, hnn2, hz2⟩ :=
          mCleanupMemory_low_zeroes (host 0) r.id s1 (updateStatistics r obs) p
            (hlow 0) hobs1 hnn1 hcan0 hp
        have ho2' : obs2.observer = o := by rw [ho2]; exact ho
        obtain ⟨obs', h1, h2, h3, h4⟩ :=
          ih _ p.doc d0 obs2 hlow' hcan' hobs2 ho2' hnn2 hcost' hl
        exact ⟨obs', h1, h2, h3, fun _ => h4 (Or.inl hz2)⟩
      · have hne : observerId ≠ r.id := fun hh => hid hh.symm
        have hobs1 : QMap.find s1.observers observerId = some obs := by
          rw [accountRequest_find_ne r s s1 observerId hne hacc]
          exact hobs
        have hobs2 : QMap.find p.doc.observers observerId = some obs := by
          rw [mCleanupMemory_find_ne (host 0) r.id observerId s1 p hne hp]
          exact hobs1
        obtain ⟨obs', h1, h2, h3, h4⟩ :=
          ih _ p.doc d0 obs hlow' hcan' hobs2 ho hnn hcost' hl
        refine ⟨obs', h1, h2, h3, ?_⟩
        intro hz
        apply h4
        rcases hz with hz | ⟨r', hr', hr'id, hr'v⟩
        · exact Or.inl hz
        · rcases List.mem_cons.1 hr' with hr' | hr'
          · rw [hr'] at hr'id
            exact absurd hr'id hid
          · refine Or.inr ⟨r', hr', hr'id, ?_⟩
            rw [validRequest_mCleanupMemory (host 0) r.id s1 p r' hp,
              validRequest_congr s s1 r' r' (accountRequest_pages r s s1 hacc) rfl]
            exact hr'v

/-- C8, as stated, fails on three inputs, each a single valid request for
page 0 and the registered observer 7 under the Low level. (1) The observer
refuses to unload page 0: the total stays 39. (2) The observer lets every
page go and the request is 10 x 10, of cost 0: the total is 0 but the mapping
keeps the entry of size 0. (3) The observer lets every page go and the
request has width -100: the total is -39 and nothing is evicted. -/
theorem low_level_counterexample :
    (requestPixmaps (fun _ => demoHost MemoryLevel.Low 131072 0 [0])
        [{ id := 7, pageNumber := 0, width := 100, height := 100 }] true freshDocument).map
      (fun d => QMap.find d.doc.observers 7) =
      some (some { observer := demoObserver, pageMemory := [(0, 39)], totalMemory := 39 }) ∧
    (requestPixmaps (fun _ => demoHost MemoryLevel.Low 131072 0 [])
        [{ id := 7, pageNumber := 0, width := 10, height := 10 }] true freshDocument).map
      (fun d => QMap.find d.doc.observers 7) =
      some (some { observer := demoObserver, pageMemory := [(0, 0)], totalMemory := 0 }) ∧
    (requestPixmaps (fun _ => demoHost MemoryLevel.Low 131072 0 [])
        [{ id := 7, pageNumber := 0, width := -100, height := 100 }] true freshDocument).map
      (fun d => QMap.find d.doc.observers 7) =
      some (some { observer := demoObserver, pageMemory := [(0, -39)], totalMemory := -39 }) := by
  decide

/-- C8, amended: under the Low memory level the eviction target equals the
total of the observer whenever that total is not negative. After a
`requestPixmaps` call that has completed, made with a generator present and
under the Low level, that contains a valid request for a registered
observer: if that observer answers true to every `canUnloadPixmap` of the
call, its ledger was in good order with no negative size before the call
(keys ascending, total the sum of the sizes) and its requests in the batch
have a cost of at least 0, then afterwards its total is 0 and every entry
left in its mapping has size 0. -/
theorem low_level_discards (host : Nat → Host) (requests : List PixmapRequest)
    (async : Bool) (s : KPDFDocument) (d : Dispatch) (observerId : Int) (obs : ObserverData)
    (hlow : ∀ i, (host i).memoryLevel = MemoryLevel.Low)
    (hcan : ∀ i page, (host i).canUnloadPixmap obs.observer page = true)
    (hgen : s.generator = true)
    (hobs : QMap.find s.observers observerId = some obs)
    (hwf : QMap.WF obs.pageMemory)
    (htot : obs.totalMemory = QMap.total obs.pageMemory)
    (hsz : ∀ e, e ∈ obs.pageMemory → 0 ≤ e.2)
    (hcost : ∀ r, r ∈ requests → r.id = observerId → 0 ≤ pixmapMemory r.width r.height)
    (hreq : ∃ r, r ∈ requests ∧ r.id = observerId ∧ validRequest s r = true)
    (hd : requestPixmaps host requests async s = some d) :
    (∀ i t, 0 ≤ t → memoryToFree (host i) observerId t = t) ∧
    ∃ obs', QMap.find d.doc.observers observerId = some obs' ∧
      obs'.totalMemory = 0 ∧ ∀ e, e ∈ obs'.pageMemory → e.2 = 0 := by
  refine ⟨?_, ?_⟩
  · intro i t ht
    rw [memoryToFree_low (host i) observerId t (hlow i), max_eq_right ht]
  · unfold requestPixmaps at hd
    rw [if_pos hgen] at hd
    obtain ⟨obs', h1, _, _, h4⟩ :=
      requestLoop_low observerId obs.observer requests async host s d obs hlow hcan hobs rfl
        ⟨hwf, htot, hsz⟩ hcost hd
    obtain ⟨h5, h6⟩ := h4 (Or.inr hreq)
    exact ⟨obs', h1, h5, h6⟩

theorem low_level_discards_witness :
    requestPixmaps (fun _ => demoHost MemoryLevel.Low 131072 0 [])
        [{ id := 7, pageNumber := 0, width := 100, height := 100 }] true freshDocument =
      some { doc := freshDocument
             forwarded := [({ id := 7, pageNumber := 0, width := 100, height := 100 }, true)]
             passes := [{ observerId := 7, asked := [0], removed := [(0, 39)] }] } ∧
    ((∀ (_ : Nat) (t : Int), 0 ≤ t →
        memoryToFree (demoHost MemoryLevel.Low 131072 0 []) 7 t = t) ∧
      ∃ obs', QMap.find freshDocument.observers 7 = some obs' ∧
        obs'.totalMemory = 0 ∧ ∀ e, e ∈ obs'.pageMemory → e.2 = 0) :=
  ⟨by decide,
   low_level_discards (fun _ => demoHost MemoryLevel.Low 131072 0 [])
     [{ id := 7, pageNumber := 0, width := 100, height := 100 }] true freshDocument
     { doc := freshDocument
       forwarded := [({ id := 7, pageNumber := 0, width := 100, height := 100 }, true)]
       passes := [{ observerId := 7, asked := [0], removed := [(0, 39)] }] }
     7 (ObserverData.new demoObserver)
     (fun _ => rfl) (fun _ _ => rfl) rfl (by decide) List.Pairwise.nil rfl
     (fun e he => absurd he (List.not_mem_nil e))
     (by decide)
     ⟨{ id := 7, pageNumber := 0, width := 100, height := 100 }, by decide, rfl, by decide⟩
     (by decide)⟩

/-! ## closeDocument -/

theorem QMap.find_map_values {β γ : Type} (f : β → γ) (m : QMap β) (k : Int) :
    QMap.find (m.map (fun e => (e.1, f e.2))) k = (QMap.find m k).map f := by
  induction m with
  | nil => rfl
  | cons e m ih =>
    obtain ⟨k', v⟩ := e
    by_cases h : k' = k
    · simp [QMap.find, h]
    · simp only [List.map_cons, QMap.find, h, if_false]
      exact ih

/-- C12: after `closeDocument` the page list is empty, the current page is
-1, and an observer that was registered before the call is registered
afterwards, with the same observer object, an empty `pageMemory` and a
`totalMemory` of 0; the observers map has the same keys as before. -/
theorem closeDocument_zeroes_ledgers (s : KPDFDocument) (id : Int) (obs : ObserverData)
    (hobs : QMap.find s.observers id = some obs) :
    (closeDocument s).pages_vector = [] ∧
    (closeDocument s).currentPage = -1 ∧
    QMap.find (closeDocument s).observers id =
      some { observer := obs.observer, pageMemory := [], totalMemory := 0 } ∧
    QMap.keys (closeDocument s).observers = QMap.keys s.observers := by
  refine ⟨rfl, rfl, ?_, ?_⟩
  · have h := QMap.find_map_values (fun o : ObserverData =>
      { o with pageMemory := [], totalMemory := 0 }) s.observers id
    rw [hobs] at h
    exact h
  · simp [closeDocument, QMap.keys, List.map_map, Function.comp_def]

theorem closeDocument_zeroes_ledgers_witness :
    registerAll [demoObserver, otherObserver] { freshDocument with observers := [] } =
      { freshDocument with
        observers := [(3, ObserverData.new otherObserver), (7, ObserverData.new demoObserver)] } ∧
    (QMap.find twoObserversDocument.observers 7 =
        some { observer := demoObserver, pageMemory := [(0, 39)], totalMemory := 39 } ∧
      ((closeDocument twoObserversDocument).pages_vector = [] ∧
        (closeDocument twoObserversDocument).currentPage = -1 ∧
        QMap.find (closeDocument twoObserversDocument).observers 7 =
          some { observer := demoObserver, pageMemory := [], totalMemory := 0 } ∧
        QMap.keys (closeDocument twoObserversDocument).observers =
          QMap.keys twoObserversDocument.observers)) ∧
    QMap.find (closeDocument twoObserversDocument).observers 3 =
      some { observer := otherObserver, pageMemory := [], totalMemory := 0 } ∧
    QMap.find (closeDocument (registerAll [demoObserver, otherObserver]
        { freshDocument with observers := [] })).observers 3 =
      some { observer := otherObserver, pageMemory := [], totalMemory := 0 } :=
  ⟨by decide,
   ⟨by decide,
    closeDocument_zeroes_ledgers twoObserversDocument 7
      { observer := demoObserver, pageMemory := [(0, 39)], totalMemory := 39 } (by decide)⟩,
   by decide, by decide⟩

/-- C13: `closeDocument` is idempotent. The document after two calls in a row
is the document after one (page list, generator, current page, search page,
file name, observers map with every ledger), and after `closeDocument` every
ledger has an empty `pageMemory` and a `totalMemory` of exactly 0, so none
is decremented twice or negative. -/
theorem closeDocument_idempotent (s : KPDFDocument) :
    closeDocument (closeDocument s) = closeDocument s ∧
    ∀ e, e ∈ (closeDocument s).observers → e.2.pageMemory = [] ∧ e.2.totalMemory = 0 := by
  refine ⟨?_, ?_⟩
  · simp [closeDocument, List.map_map, Function.comp_def]
  · intro e he
    simp only [closeDocument, List.mem_map] at he
    obtain ⟨e0, _, rfl⟩ := he
    exact ⟨rfl, rfl⟩

/-! ## addObserver -/

/-- C16: `addObserver( o )` registers `o` under its id with an empty
`pageMemory` and a `totalMemory` of 0, leaves every other registration and
the rest of the document as they were, and calls observers as follows: when
the page vector is not empty, exactly one call, `pageSetup` with the whole
page vector and `documentChanged = true`, on `o`; when it is empty, no call
at all. -/
theorem addObserver_registers (o : KPDFDocumentObserver) (s : KPDFDocument) :
    QMap.find (addObserver o s).observers o.observerId =
      some { observer := o, pageMemory := [], totalMemory := 0 } ∧
    (∀ id, id ≠ o.observerId →
      QMap.find (addObserver o s).observers id = QMap.find s.observers id) ∧
    (addObserver o s).pages_vector = s.pages_vector ∧
    (addObserver o s).currentPage = s.currentPage ∧
    addObserverCalls o s =
      (if s.pages_vector = [] then []
       else [(o, Notification.pageSetup s.pages_vector true)]) := by
  refine ⟨QMap.find_insert_self _ _ _, ?_, rfl, rfl, ?_⟩
  · intro id hid
    exact QMap.find_insert_ne _ _ _ _ hid
  · unfold addObserverCalls
    cases hpv : s.pages_vector with
    | nil => simp
    | cons p ps => simp

theorem QMap.keys_insert_of_find {β : Type} (m : QMap β) (k : Int) (v v0 : β)
    (hwf : QMap.WF m) (hfind : QMap.find m k = some v0) :
    QMap.keys (QMap.insert m k v) = QMap.keys m := by
  induction m with
  | nil => simp [QMap.find] at hfind
  | cons e m ih =>
    obtain ⟨k', v'⟩ := e
    have hwf' : (∀ a ∈ QMap.keys m, k' < a) ∧ QMap.WF m := by
      simpa [QMap.WF, QMap.keys] using hwf
    unfold QMap.insert
    by_cases h2 : k = k'
    · subst h2
      simp [QMap.keys]
    · have h3 : ¬ k' = k := fun h => h2 h.symm
      simp only [QMap.find, h3, if_false] at hfind
      have hk : k ∈ QMap.keys m := List.mem_map.2 ⟨(k, v0), QMap.mem_of_find m k v0 hfind, rfl⟩
      have h1 : ¬ k < k' := not_lt.2 (le_of_lt (hwf'.1 k hk))
      simp only [h1, h2, if_false, QMap.keys, List.map_cons]
      have := ih hwf'.2 hfind
      simp only [QMap.keys] at this
      rw [this]

/-- C15, as stated, fails: observer 7 has the mapping {0 ↦ 39} and a total of
39; after `addObserver` of another observer object that reports id 7 the
mapping of id 7 is empty and its total is 0. -/
theorem addObserver_again_counterexample :
    QMap.find scenarioDocument.observers 7 =
      some { observer := demoObserver, pageMemory := [(0, 39)], totalMemory := 39 } ∧
    QMap.find (addObserver rivalObserver scenarioDocument).observers 7 =
      some { observer := rivalObserver, pageMemory := [], totalMemory := 0 } := by
  decide

/-- C15, amended: `addObserver` under an id that is already registered
replaces the whole registration of that id: the observer object is the new
one and the ledger is a fresh one, with an empty mapping and a total of 0.
The set of registered ids, every other registration and the pages (with the
pixmaps they hold for that id) are as before. -/
theorem addObserver_again_resets (o : KPDFDocumentObserver) (s : KPDFDocument)
    (obs : ObserverData) (hwf : QMap.WF s.observers)
    (hobs : QMap.find s.observers o.observerId = some obs) :
    QMap.find (addObserver o s).observers o.observerId =
      some { observer := o, pageMemory := [], totalMemory := 0 } ∧
    QMap.keys (addObserver o s).observers = QMap.keys s.observers ∧
    (∀ id, id ≠ o.observerId →
      QMap.find (addObserver o s).observers id = QMap.find s.observers id) ∧
    (addObserver o s).pages_vector = s.pages_vector := by
  refine ⟨QMap.find_insert_self _ _ _, ?_, ?_, rfl⟩
  · exact QMap.keys_insert_of_find _ _ _ obs hwf hobs
  · intro id hid
    exact QMap.find_insert_ne _ _ _ _ hid

theorem addObserver_again_resets_witness :
    QMap.WF scenarioDocument.observers ∧
    QMap.find scenarioDocument.observers rivalObserver.observerId =
      some { observer := demoObserver, pageMemory := [(0, 39)], totalMemory := 39 } ∧
    (QMap.find (addObserver rivalObserver scenarioDocument).observers rivalObserver.observerId =
        some { observer := rivalObserver, pageMemory := [], totalMemory := 0 } ∧
      QMap.keys (addObserver rivalObserver scenarioDocument).observers =
        QMap.keys scenarioDocument.observers ∧
      (∀ id, id ≠ rivalObserver.observerId →
        QMap.find (addObserver rivalObserver scenarioDocument).observers id =
          QMap.find scenarioDocument.observers id) ∧
      (addObserver rivalObserver scenarioDocument).pages_vector =
        scenarioDocument.pages_vector) :=
  ⟨by decide, by decide,
   addObserver_again_resets rivalObserver scenarioDocument
     { observer := demoObserver, pageMemory := [(0, 39)], totalMemory := 39 }
     (by decide) (by decide)⟩

/-! ## Broadcast order -/

theorem QMap.perm_insert_of_not_mem {β : Type} (m : QMap β) (k : Int) (v : β)
    (hk : k ∉ QMap.keys m) : List.Perm (QMap.insert m k v) ((k, v) :: m) := by
  induction m with
  | nil => simp [QMap.insert]
  | cons e m ih =>
    obtain ⟨k', v'⟩ := e
    have hne : k ≠ k' := by
      intro h
      apply hk
      simp [QMap.keys, h]
    have hk' : k ∉ QMap.keys m := by
      intro h
      apply hk
      simp only [QMap.keys, List.map_cons, List.mem_cons]
      exact Or.inr h
    unfold QMap.insert
    by_cases h1 : k < k'
    · simp only [h1, if_true]
      exact List.Perm.refl _
    · simp only [h1, hne, if_false]
      exact List.Perm.trans (List.Perm.cons _ (ih hk')) (List.Perm.swap _ _ _)

theorem RegistryKeyed_insert (m : QMap ObserverData) (k : Int) (obs : ObserverData)
    (hm : RegistryKeyed m) (hk : obs.observer.observerId = k) :
    RegistryKeyed (QMap.insert m k obs) := by
  intro e he
  rcases QMap.mem_insert m k obs e he with h | h
  · rw [h]
    exact hk
  · exact hm e h

/-- Registering observers of distinct, not yet registered ids one after the
other keeps the observers map in key order and keyed by the observer ids,
and adds exactly the new observers to it. -/
theorem registerAll_spec (os : List KPDFDocumentObserver) :
    ∀ s : KPDFDocument, QMap.WF s.observers → RegistryKeyed s.observers →
      (∀ o, o ∈ os → o.observerId ∉ QMap.keys s.observers) →
      (os.map (fun o => o.observerId)).Nodup →
      QMap.WF (registerAll os s).observers ∧
      RegistryKeyed (registerAll os s).observers ∧
      List.Perm ((registerAll os s).observers.map (fun e => e.2.observer))
        (s.observers.map (fun e => e.2.observer) ++ os) := by
  induction os with
  | nil =>
    intro s hwf hkeyed _ _
    exact ⟨hwf, hkeyed, by simp [registerAll]⟩
  | cons o os ih =>
    intro s hwf hkeyed hnew hnodup
    have hnodup' : o.observerId ∉ os.map (fun o => o.observerId) ∧
        (os.map (fun o => o.observerId)).Nodup := by
      simpa using hnodup
    have ho : o.observerId ∉ QMap.keys s.observers := hnew o (by simp)
    have hperm := QMap.perm_insert_of_not_mem s.observers o.observerId (ObserverData.new o) ho
    have hwf1 : QMap.WF (addObserver o s).observers := QMap.WF_insert _ _ _ hwf
    have hkeyed1 : RegistryKeyed (addObserver o s).observers :=
      RegistryKeyed_insert _ _ _ hkeyed rfl
    have hnew1 : ∀ o', o' ∈ os → o'.observerId ∉ QMap.keys (addObserver o s).observers := by
      intro o' ho' hmem
      rcases QMap.keys_insert_mem _ _ _ _ hmem with h | h
      · apply hnodup'.1
        rw [← h]
        exact List.mem_map.2 ⟨o', ho', rfl⟩
      · exact hnew o' (List.mem_cons_of_mem _ ho') h
    obtain ⟨h1, h2, h3⟩ := ih (addObserver o s) hwf1 hkeyed1 hnew1 hnodup'.2
    refine ⟨h1, h2, ?_⟩
    have hstep : List.Perm ((addObserver o s).observers.map (fun e => e.2.observer))
        (o :: s.observers.map (fun e => e.2.observer)) := by
      have := List.Perm.map (fun e : Int × ObserverData => e.2.observer) hperm
      simpa [ObserverData.new] using this
    have h4 : List.Perm ((addObserver o s).observers.map (fun e => e.2.observer) ++ os)
        (s.observers.map (fun e => e.2.observer) ++ o :: os) := by
      exact List.Perm.trans (List.Perm.append_right os hstep) List.perm_middle.symm
    exact List.Perm.trans h3 h4

/-- C17, as stated, fails: after registering observer 7 and then observer 3
a broadcast calls observer 3 first, observer 7 second. -/
theorem foreachObserver_order_counterexample :
    (foreachObserver (registerAll [demoObserver, otherObserver] KPDFDocument.new)
        Notification.notifyPixmapsCleared).map Prod.fst = [otherObserver, demoObserver] ∧
    (foreachObserver (registerAll [demoObserver, otherObserver] KPDFDocument.new)
        Notification.notifyPixmapsCleared).map Prod.fst ≠ [demoObserver, otherObserver] := by
  decide

/-- C17, amended: after any sequence of registrations with distinct ids, made
on a document with no observer, a broadcast through `foreachObserver` of any
of the four calls is received exactly once by every registered observer and
by nobody else (the receivers are a rearrangement of the registered
observers), every receiver gets the call that was broadcast, and the
deliveries occur in ascending order of observer id. -/
theorem foreachObserver_ascending (os : List KPDFDocumentObserver) (s : KPDFDocument)
    (cmd : Notification) (hs : s.observers = [])
    (hd : (os.map (fun o => o.observerId)).Nodup) :
    List.Perm ((foreachObserver (registerAll os s) cmd).map Prod.fst) os ∧
    (∀ c, c ∈ foreachObserver (registerAll os s) cmd → c.2 = cmd) ∧
    List.Pairwise (fun a b => a < b)
      ((foreachObserver (registerAll os s) cmd).map (fun c => c.1.observerId)) := by
  have hwf : QMap.WF s.observers := by rw [hs]; exact List.Pairwise.nil
  have hkeyed : RegistryKeyed s.observers := by
    intro e he
    rw [hs] at he
    simp at he
  have hnew : ∀ o, o ∈ os → o.observerId ∉ QMap.keys s.observers := by
    intro o _
    rw [hs]
    simp [QMap.keys]
  obtain ⟨h1, h2, h3⟩ := registerAll_spec os s hwf hkeyed hnew hd
  refine ⟨?_, ?_, ?_⟩
  · have : (foreachObserver (registerAll os s) cmd).map Prod.fst =
        (registerAll os s).observers.map (fun e => e.2.observer) := by
      simp [foreachObserver, List.map_map, Function.comp_def]
    rw [this]
    simpa [hs] using h3
  · intro c hc
    simp only [foreachObserver, List.mem_map] at hc
    obtain ⟨e, _, rfl⟩ := hc
    rfl
  · have : (foreachObserver (registerAll os s) cmd).map (fun c => c.1.observerId) =
        QMap.keys (registerAll os s).observers := by
      simp only [foreachObserver, List.map_map, QMap.keys]
      apply List.map_congr_left
      intro e he
      exact h2 e he
    rw [this]
    exact h1

theorem foreachObserver_ascending_witness :
    KPDFDocument.new.observers = [] ∧
    ([demoObserver, otherObserver].map (fun o => o.observerId)).Nodup ∧
    (List.Perm
        ((foreachObserver (registerAll [demoObserver, otherObserver] KPDFDocument.new)
          (Notification.pageSetCurrent 2)).map Prod.fst)
        [demoObserver, otherObserver] ∧
      (∀ c, c ∈ foreachObserver (registerAll [demoObserver, otherObserver] KPDFDocument.new)
          (Notification.pageSetCurrent 2) → c.2 = Notification.pageSetCurrent 2) ∧
      List.Pairwise (fun a b => a < b)
        ((foreachObserver (registerAll [demoObserver, otherObserver] KPDFDocument.new)
          (Notification.pageSetCurrent 2)).map (fun c => c.1.observerId))) :=
  ⟨rfl, by decide,
   foreachObserver_ascending [demoObserver, otherObserver] KPDFDocument.new
     (Notification.pageSetCurrent 2) rfl (by decide)⟩

/-! ## The observers map is keyed by observer id -/

theorem RegistryKeyed_of_find (m : QMap ObserverData) (k : Int) (obs : ObserverData)
    (hm : RegistryKeyed m) (hobs : QMap.find m k = some obs) :
    obs.observer.observerId = k :=
  hm (k, obs) (QMap.mem_of_find m k obs hobs)

theorem RegistryKeyed_removeObserver (o : KPDFDocumentObserver) (s : KPDFDocument)
    (hs : RegistryKeyed s.observers) : RegistryKeyed (removeObserver o s).observers := by
  unfold removeObserver
  split
  · intro e he
    exact hs e (List.mem_of_mem_filter he)
  · exact hs

theorem RegistryKeyed_closeDocument (s : KPDFDocument) (hs : RegistryKeyed s.observers) :
    RegistryKeyed (closeDocument s).observers := by
  intro e he
  simp only [closeDocument, List.mem_map] at he
  obtain ⟨e0, he0, rfl⟩ := he
  exact hs e0 he0

theorem RegistryKeyed_accountRequest (r : PixmapRequest) (s s' : KPDFDocument)
    (hs : RegistryKeyed s.observers) (h : accountRequest r s = some s') :
    RegistryKeyed s'.observers := by
  unfold accountRequest at h
  cases hobs : QMap.find s.observers r.id with
  | none => simp [hobs] at h
  | some obs =>
    simp only [hobs, Option.some.injEq] at h
    subst h
    exact RegistryKeyed_insert _ _ _ hs (RegistryKeyed_of_find _ _ obs hs hobs)

theorem RegistryKeyed_mCleanupMemory (h : Host) (observerId : Int) (s : KPDFDocument)
    (p : Pass) (hs : RegistryKeyed s.observers) (hp : mCleanupMemory h observerId s = some p) :
    RegistryKeyed p.doc.observers := by
  obtain ⟨obs, hobs, hcase⟩ := mCleanupMemory_cases h observerId s p hp
  rcases hcase with ⟨_, hp'⟩ | ⟨_, w, _, hp'⟩
  · subst hp'
    exact hs
  · subst hp'
    exact RegistryKeyed_insert _ _ _ hs (RegistryKeyed_of_find _ _ obs hs hobs)

theorem RegistryKeyed_requestLoop (requests : List PixmapRequest) (async : Bool) :
    ∀ (host : Nat → Host) (s : KPDFDocument) (d : Dispatch),
      RegistryKeyed s.observers → requestLoop host requests async s = some d →
      RegistryKeyed d.doc.observers := by
  induction requests with
  | nil =>
    intro host s d hs h
    simp only [requestLoop, Option.some.injEq] at h
    subst h
    exact hs
  | cons r rest ih =>
    intro host s d hs h
    rcases requestLoop_cons_some host r rest async s d h with
      ⟨_, _, h0⟩ | ⟨_, s1, p, d0, hacc, hp, hl, hd⟩
    · exact ih host s d hs h0
    · subst hd
      exact ih _ _ d0 (RegistryKeyed_mCleanupMemory _ _ _ _
        (RegistryKeyed_accountRequest r s s1 hs hacc) hp) hl

theorem RegistryKeyed_checkLoop (ids : List Int) :
    ∀ (host : Nat → Host) (s : KPDFDocument) (w : Sweep),
      RegistryKeyed s.observers → checkLoop host ids s = some w →
      RegistryKeyed w.doc.observers := by
  induction ids with
  | nil =>
    intro host s w hs h
    simp only [checkLoop, Option.some.injEq] at h
    subst h
    exact hs
  | cons id rest ih =>
    intro host s w hs h
    unfold checkLoop at h
    cases hobs : QMap.find s.observers id with
    | none =>
      simp only [hobs] at h
      exact ih host s w hs h
    | some obs =>
      simp only [hobs] at h
      by_cases hbig : obs.totalMemory > 1024
      · simp only [hbig, if_true] at h
        cases hp : mCleanupMemory (host 0) id s with
        | none => simp [hp] at h
        | some p =>
          simp only [hp] at h
          cases hl : checkLoop (fun i => host (i + 1)) rest p.doc with
          | none => simp [hl] at h
          | some w0 =>
            simp only [hl, Option.some.injEq] at h
            subst h
            exact ih _ _ w0 (RegistryKeyed_mCleanupMemory _ _ _ _ hs hp) hl
      · simp only [hbig, if_false] at h
        exact ih host s w hs h

theorem RegistryKeyed_of_Reachable (s : KPDFDocument) (h : Reachable s) :
    RegistryKeyed s.observers := by
  induction h with
  | new =>
    intro e he
    simp [KPDFDocument.new] at he
  | add o s _ ih => exact RegistryKeyed_insert _ _ _ ih rfl
  | remove o s _ ih => exact RegistryKeyed_removeObserver o s ih
  | close s _ ih => exact RegistryKeyed_closeDocument s ih
  | account r s s' _ hacc ih => exact RegistryKeyed_accountRequest r s s' ih hacc
  | cleanup h id s p _ hp ih => exact RegistryKeyed_mCleanupMemory h id s p ih hp
  | request host requests async s d _ hd ih =>
    unfold requestPixmaps at hd
    by_cases hgen : s.generator = true
    · rw [if_pos hgen] at hd
      exact RegistryKeyed_requestLoop requests async host s d ih hd
    · rw [if_neg hgen] at hd
      simp only [Option.some.injEq] at hd
      subst hd
      exact ih
  | check host s w _ hw ih =>
    unfold slotCheckMemory at hw
    by_cases hlow : (host 0).memoryLevel = MemoryLevel.Low
    · rw [if_pos hlow] at hw
      simp only [Option.some.injEq] at hw
      subst hw
      exact ih
    · rw [if_neg hlow] at hw
      exact RegistryKeyed_checkLoop _ host s w ih hw
  | other s s' _ hobs ih =>
    rw [hobs]
    exact ih

/-! ## removeObserver -/

theorem QMap.find_remove_self {β : Type} (m : QMap β) (k : Int) :
    QMap.find (QMap.remove m k) k = none := by
  induction m with
  | nil => rfl
  | cons e m ih =>
    obtain ⟨k', v⟩ := e
    unfold QMap.remove at ih ⊢
    by_cases h : k' = k
    · rw [List.filter_cons_of_neg (by simp [h])]
      exact ih
    · rw [List.filter_cons_of_pos (by simp [h])]
      simp only [QMap.find, h, if_false]
      exact ih

theorem QMap.find_remove_ne {β : Type} (m : QMap β) (k k0 : Int) (hne : k0 ≠ k) :
    QMap.find (QMap.remove m k) k0 = QMap.find m k0 := by
  induction m with
  | nil => rfl
  | cons e m ih =>
    obtain ⟨k', v⟩ := e
    unfold QMap.remove at ih ⊢
    by_cases h : k' = k
    · have h0 : ¬ k' = k0 := fun hh => hne (hh.symm.trans h)
      rw [List.filter_cons_of_neg (by simp [h])]
      simp only [QMap.find, h0, if_false]
      exact ih
    · rw [List.filter_cons_of_pos (by simp [h])]
      by_cases h0 : k' = k0
      · simp [QMap.find, h0]
      · simp only [QMap.find, h0, if_false]
        exact ih

theorem QMap.key_ne_of_mem_remove {β : Type} (m : QMap β) (k : Int) (e : Int × β)
    (he : e ∈ QMap.remove m k) : e ∈ m ∧ e.1 ≠ k := by
  unfold QMap.remove at he
  have h := List.mem_filter.1 he
  exact ⟨h.1, by simpa using h.2⟩

theorem deletePixmap_not_mem (p : KPDFPage) (id : Int) : id ∉ (p.deletePixmap id).pixmaps := by
  simp [KPDFPage.deletePixmap]

/-- After `removeObserver` of a registered observer no page holds a pixmap
of its id and the id is not registered. -/
theorem removeObserver_clears (A : KPDFDocumentObserver) (s : KPDFDocument)
    (hreg : QMap.contains s.observers A.observerId = true) :
    (∀ p, p ∈ (removeObserver A s).pages_vector → A.observerId ∉ p.pixmaps) ∧
    QMap.find (removeObserver A s).observers A.observerId = none := by
  unfold removeObserver
  rw [if_pos hreg]
  refine ⟨?_, QMap.find_remove_self _ _⟩
  intro p hp
  obtain ⟨p0, _, rfl⟩ := List.mem_map.1 hp
  exact deletePixmap_not_mem p0 _

/-- The entries left by `removeObserver` of a registered observer are entries
of the map before, under other keys. -/
theorem removeObserver_mem (A : KPDFDocumentObserver) (s : KPDFDocument)
    (hreg : QMap.contains s.observers A.observerId = true) (e : Int × ObserverData)
    (he : e ∈ (removeObserver A s).observers) : e ∈ s.observers ∧ e.1 ≠ A.observerId := by
  unfold removeObserver at he
  rw [if_pos hreg] at he
  exact QMap.key_ne_of_mem_remove _ _ e he

/-- C14: `removeObserver( A )` of a registered observer, in any state the
document can reach: afterwards no page holds a pixmap keyed by the id of A,
the id of A is not in the observers map, no broadcast through
`foreachObserver` and no generator completion `slotGeneratedContents` calls
A (or any observer of that id), and the registration and ledger of every
other id are as before; `removeObserver` of an observer whose id is not
registered returns the document unchanged. -/
theorem removeObserver_deregisters (A : KPDFDocumentObserver) (s : KPDFDocument)
    (hr : Reachable s) (hreg : QMap.contains s.observers A.observerId = true) :
    (∀ p, p ∈ (removeObserver A s).pages_vector → A.observerId ∉ p.pixmaps) ∧
    QMap.find (removeObserver A s).observers A.observerId = none ∧
    (∀ cmd c, c ∈ foreachObserver (removeObserver A s) cmd →
      c.1.observerId ≠ A.observerId ∧ c.1 ≠ A) ∧
    (∀ id page c, c ∈ slotGeneratedContents id page (removeObserver A s) →
      c.1.observerId ≠ A.observerId ∧ c.1 ≠ A) ∧
    (∀ id, id ≠ A.observerId →
      QMap.find (removeObserver A s).observers id = QMap.find s.observers id) ∧
    (∀ B : KPDFDocumentObserver, QMap.contains s.observers B.observerId = false →
      removeObserver B s = s) := by
  have hkeyed := RegistryKeyed_of_Reachable s hr
  obtain ⟨h1, h2⟩ := removeObserver_clears A s hreg
  have hentry : ∀ e, e ∈ (removeObserver A s).observers →
      e.2.observer.observerId ≠ A.observerId ∧ e.2.observer ≠ A := by
    intro e he
    obtain ⟨hmem, hne⟩ := removeObserver_mem A s hreg e he
    have hid : e.2.observer.observerId ≠ A.observerId := by
      rw [hkeyed e hmem]
      exact hne
    exact ⟨hid, fun h => hid (by rw [h])⟩
  refine ⟨h1, h2, ?_, ?_, ?_, ?_⟩
  · intro cmd c hc
    simp only [foreachObserver, List.mem_map] at hc
    obtain ⟨e, he, rfl⟩ := hc
    exact hentry e he
  · intro id page c hc
    unfold slotGeneratedContents at hc
    cases hobs : QMap.find (removeObserver A s).observers id with
    | none => simp [hobs] at hc
    | some obs =>
      simp only [hobs, List.mem_singleton] at hc
      subst hc
      exact hentry (id, obs) (QMap.mem_of_find _ _ _ hobs)
  · intro id hid
    unfold removeObserver
    rw [if_pos hreg]
    exact QMap.find_remove_ne _ _ _ hid
  · intro B hB
    unfold removeObserver
    rw [hB]
    rfl

theorem removeObserver_deregisters_witness :
    Reachable holdingDocument ∧
    QMap.contains holdingDocument.observers demoObserver.observerId = true ∧
    removeObserver demoObserver holdingDocument =
      { holdingDocument with
        pages_vector := [{ number := 0, width := 600, height := 800, pixmaps := [] },
                         { number := 1, width := 600, height := 800, pixmaps := [] },
                         { number := 2, width := 600, height := 800, pixmaps := [] }]
        observers := [] } ∧
    QMap.find (removeObserver demoObserver holdingDocument).observers
      demoObserver.observerId = none :=
  have hr : Reachable holdingDocument :=
    Reachable.account { id := 7, pageNumber := 2, width := 100, height := 100 }
      { holdingDocument with
        observers := [(7, { observer := demoObserver, pageMemory := [(1, 39)],
                            totalMemory := 39 })] }
      holdingDocument
      (Reachable.account { id := 7, pageNumber := 1, width := 100, height := 100 }
        { holdingDocument with observers := [(7, ObserverData.new demoObserver)] }
        { holdingDocument with
          observers := [(7, { observer := demoObserver, pageMemory := [(1, 39)],
                              totalMemory := 39 })] }
        (Reachable.add demoObserver { holdingDocument with observers := [] }
          (Reachable.other KPDFDocument.new { holdingDocument with observers := [] }
            Reachable.new rfl))
        (by decide))
      (by decide)
  ⟨hr, by decide, by decide,
   (removeObserver_deregisters demoObserver holdingDocument hr (by decide)).2.1⟩

/-! ## Ledger and page store -/

/-- After the loop, the page of every removed entry holds no pixmap of the
observer. -/
theorem cleanupLoop_pages_removed (can : Int → Bool) (id : Int) (m : QMap Int) :
    ∀ (T tot : Int) (pv : List KPDFPage) (w : Walk),
      cleanupLoop can id m T tot pv = some w →
      ∀ k, k ∈ QMap.keys w.removed → ∀ pg, pageAt w.pages_vector k = some pg →
        id ∉ pg.pixmaps := by
  induction m with
  | nil =>
    intro T tot pv w h k hk
    rw [cleanupLoop_nil can id T tot pv w h] at hk
    simp [QMap.keys] at hk
  | cons e' rest ih =>
    obtain ⟨k0, d⟩ := e'
    intro T tot pv w h k hk pg hpg
    rcases cleanupLoop_cons can id k0 d rest T tot pv w h with
      ⟨_, hw⟩ | ⟨_, _, w0, h0, hw⟩ | ⟨_, _, pv', w0, hd, h0, hw⟩
    · subst hw
      simp [QMap.keys] at hk
    · subst hw
      exact ih T tot pv w0 h0 k hk pg hpg
    · subst hw
      simp only [QMap.keys, List.map_cons, List.mem_cons] at hk
      rcases hk with hk | hk
      · subst hk
        obtain ⟨hk0, p0, hp0, hpv'⟩ := deletePixmapAt_spec pv pv' k id hd
        subst hpv'
        have hlt : k.toNat < pv.length := by
          rcases List.getElem?_eq_some.1 hp0 with ⟨hlt, _⟩
          exact hlt
        have hset : (pv.set k.toNat (p0.deletePixmap id))[k.toNat]? =
            some (p0.deletePixmap id) := List.getElem?_set_self hlt
        have hpg' : w0.pages_vector[k.toNat]? = some pg := by
          simpa [pageAt, hk0] using hpg
        rcases (cleanupLoop_pages _ _ _ _ _ _ _ h0).2 k.toNat with h1 | ⟨_, h1⟩
        · rw [h1, hset] at hpg'
          have hpp : p0.deletePixmap id = pg := Option.some.inj hpg'
          rw [← hpp]
          exact deletePixmap_not_mem p0 id
        · rw [h1, hset] at hpg'
          have hpp : (p0.deletePixmap id).deletePixmap id = pg := by
            simpa using hpg'
          rw [← hpp]
          exact deletePixmap_not_mem _ id
      · exact ih _ _ _ w0 h0 k hk pg hpg

/-- C18, as stated, fails: under the Low level with an observer that lets
every page go, `requestPixmaps` of one valid request for page 0 and observer
7 hands the request to the generator (the pixmap for page 0 and observer 7
is pending) while the ledger of observer 7 has no entry for page 0. -/
theorem ledger_store_counterexample :
    (requestPixmaps (fun _ => demoHost MemoryLevel.Low 131072 0 [])
        [{ id := 7, pageNumber := 0, width := 100, height := 100 }] true freshDocument).map
      (fun d => (d.forwarded.map (fun f => (f.1.id, f.1.pageNumber)),
        (QMap.find d.doc.observers 7).map (fun o => QMap.contains o.pageMemory 0))) =
      some ([(7, 0)], some false) := by
  decide

/-- C18, amended: an eviction pass that removes the ledger entry of the
observer for a page also clears the pixmap that page holds for the observer,
in the same call of `mCleanupMemory`; `removeObserver` of a registered
observer leaves no pixmap of its id on any page and no ledger of its id;
`closeDocument` leaves no page and no entry in any ledger. -/
theorem eviction_clears_pixmap (h : Host) (observerId : Int) (s : KPDFDocument)
    (obs : ObserverData) (p : Pass)
    (hobs : QMap.find s.observers observerId = some obs)
    (hp : mCleanupMemory h observerId s = some p) :
    (∃ obs', QMap.find p.doc.observers observerId = some obs' ∧
      ∀ page, QMap.contains obs.pageMemory page = true →
        QMap.contains obs'.pageMemory page = false →
        ∀ pg, pageAt p.doc.pages_vector page = some pg → observerId ∉ pg.pixmaps) ∧
    (∀ A : KPDFDocumentObserver, QMap.contains s.observers A.observerId = true →
      (∀ pg, pg ∈ (removeObserver A s).pages_vector → A.observerId ∉ pg.pixmaps) ∧
      QMap.find (removeObserver A s).observers A.observerId = none) ∧
    ((closeDocument s).pages_vector = [] ∧
      ∀ e, e ∈ (closeDocument s).observers → e.2.pageMemory = []) := by
  refine ⟨?_, fun A hA => removeObserver_clears A s hA, rfl, ?_⟩
  · obtain ⟨obs0, hobs0, hcase⟩ := mCleanupMemory_cases h observerId s p hp
    rw [hobs] at hobs0
    have hobs0' : obs = obs0 := Option.some.inj hobs0
    subst hobs0'
    rcases hcase with ⟨_, hp'⟩ | ⟨_, w, hw, hp'⟩
    · subst hp'
      refine ⟨obs, hobs, ?_⟩
      intro page h1 h2
      rw [h1] at h2
      exact absurd h2 (by simp)
    · subst hp'
      refine ⟨_, QMap.find_insert_self _ _ _, ?_⟩
      intro page h1 h2 pg hpg
      obtain ⟨v, hv⟩ := Option.isSome_iff_exists.1 h1
      have hmem := QMap.mem_of_find _ _ _ hv
      rcases cleanupLoop_mem _ _ _ _ _ _ _ hw _ hmem with h3 | h3
      · have hk : page ∈ QMap.keys w.pageMemory := List.mem_map.2 ⟨(page, v), h3, rfl⟩
        have := QMap.find_isSome_of_key _ _ hk
        simp only [QMap.contains] at h2
        rw [this] at h2
        exact absurd h2 (by simp)
      · have hk : page ∈ QMap.keys w.removed := List.mem_map.2 ⟨(page, v), h3, rfl⟩
        exact cleanupLoop_pages_removed _ _ _ _ _ _ _ hw page hk pg hpg
  · intro e he
    simp only [closeDocument, List.mem_map] at he
    obtain ⟨e0, _, rfl⟩ := he
    rfl

theorem eviction_clears_pixmap_witness :
    QMap.find demoDocument.observers 7 = some demoLedger ∧
    mCleanupMemory (demoHost MemoryLevel.Low 0 0 [1]) 7 demoDocument =
      some { doc := { demoDocument with
               pages_vector := [{ number := 0, width := 600, height := 800, pixmaps := [] },
                                demoPage 1,
                                { number := 2, width := 600, height := 800, pixmaps := [] }]
               observers := [(7, { observer := demoObserver, pageMemory := [(1, 100)],
                                   totalMemory := 100 })] }
             observerId := 7
             asked := [0, 1, 2]
             removed := [(0, 39), (2, 351)] } ∧
    (closeDocument demoDocument).pages_vector = [] :=
  ⟨by decide, by decide,
   (eviction_clears_pixmap (demoHost MemoryLevel.Low 0 0 [1]) 7 demoDocument demoLedger
      { doc := { demoDocument with
          pages_vector := [{ number := 0, width := 600, height := 800, pixmaps := [] },
                           demoPage 1,
                           { number := 2, width := 600, height := 800, pixmaps := [] }]
          observers := [(7, { observer := demoObserver, pageMemory := [(1, 100)],
                              totalMemory := 100 })] }
        observerId := 7
        asked := [0, 1, 2]
        removed := [(0, 39), (2, 351)] }
      (by decide) (by decide)).2.2.1⟩

/-! ## openDocument -/

/-- Inversion of `openDocument`: the four ways it returns. -/
theorem openDocument_cases (i : OpenInput) (s : KPDFDocument) (o : Opened)
    (h : openDocument i s = some o) :
    (i.readable = false ∧
      o = { result := false, doc := { s with documentFileName := none }, calls := [] }) ∨
    (i.readable = true ∧
      ¬ (i.mimeName = "application/pdf" ∨ i.mimeName = "application/postscript") ∧
      o = { result := false, doc := s, calls := [] }) ∨
    (i.readable = true ∧
      (i.mimeName = "application/pdf" ∨ i.mimeName = "application/postscript") ∧
      (i.openOk = false ∨ i.loaded = []) ∧
      o = { result := i.openOk, doc := loadedDocument i s, calls := [] }) ∨
    (i.readable = true ∧
      (i.mimeName = "application/pdf" ∨ i.mimeName = "application/postscript") ∧
      i.openOk = true ∧ i.loaded ≠ [] ∧
      o = installDocument i (loadedDocument i s)) := by
  unfold openDocument at h
  cases hr : i.readable with
  | false =>
    simp only [hr, Bool.not_false, if_true, Option.some.injEq] at h
    exact Or.inl ⟨rfl, h.symm⟩
  | true =>
    simp only [hr, Bool.not_true, Bool.false_eq_true, if_false] at h
    by_cases hm : i.mimeName = "application/pdf" ∨ i.mimeName = "application/postscript"
    · rw [if_pos hm] at h
      by_cases hg : (if i.mimeName = "application/pdf" then true else s.generator) = true
      · rw [if_pos hg] at h
        by_cases hfail : (!i.openOk || decide (i.loaded.length = 0)) = true
        · rw [if_pos hfail] at h
          simp only [Option.some.injEq] at h
          refine Or.inr (Or.inr (Or.inl ⟨rfl, hm, ?_, h.symm⟩))
          simp only [Bool.or_eq_true, Bool.not_eq_true', decide_eq_true_eq,
            List.length_eq_zero] at hfail
          exact hfail
        · rw [if_neg hfail] at h
          simp only [Option.some.injEq] at h
          simp only [Bool.or_eq_true, Bool.not_eq_true', decide_eq_true_eq,
            List.length_eq_zero, not_or, Bool.not_eq_false] at hfail
          exact Or.inr (Or.inr (Or.inr ⟨rfl, hm, hfail.1, hfail.2, h.symm⟩))
      · rw [if_neg hg] at h
        exact absurd h (by simp)
    · rw [if_neg hm] at h
      simp only [Option.some.injEq] at h
      exact Or.inr (Or.inl ⟨rfl, hm, h.symm⟩)

/-- C19, as stated, fails. (1) An unreadable file: `openDocument` returns
false and the document file name, `demo.pdf` before the call, is null after
it. (2) A load failure on a document without generator: `openDocument`
returns false, and afterwards the generator exists and the document file
name is the one of the file that failed to load. -/
theorem openDocument_failure_counterexample :
    (openDocument { pdfInput false [] with readable := false } freshDocument =
        some { result := false, doc := { freshDocument with documentFileName := none },
               calls := [] } ∧
      { freshDocument with documentFileName := none } ≠ freshDocument) ∧
    (openDocument (pdfInput false []) KPDFDocument.new =
        some { result := false
               doc := { KPDFDocument.new with generator := true
                                              documentFileName := some "b.pdf" }
               calls := [] } ∧
      { KPDFDocument.new with generator := true, documentFileName := some "b.pdf" } ≠
        KPDFDocument.new) := by
  decide

/-- C19, amended: whenever `openDocument` returns false, the observers map
with every ledger, the current page and the search page are those before the
call and no observer has been called. For an unrecognised mimetype the whole
document is unchanged; for an unreadable file it is unchanged but for the
document file name, which is null; for a failed load the generator is the
one created for the file, the document file name is the name of the file
and the page vector is what the load left. -/
theorem openDocument_failure (i : OpenInput) (s : KPDFDocument) (o : Opened)
    (h : openDocument i s = some o) (hres : o.result = false) :
    o.doc.observers = s.observers ∧ o.doc.currentPage = s.currentPage ∧
    o.doc.searchPage = s.searchPage ∧ o.calls = [] ∧
    (i.readable = false → o.doc = { s with documentFileName := none }) ∧
    (i.readable = true →
      ¬ (i.mimeName = "application/pdf" ∨ i.mimeName = "application/postscript") →
      o.doc = s) ∧
    (i.readable = true →
      (i.mimeName = "application/pdf" ∨ i.mimeName = "application/postscript") →
      i.openOk = false ∧
      o.doc = { s with generator := true, documentFileName := some i.docFile,
                       pages_vector := i.loaded }) := by
  rcases openDocument_cases i s o h with
    ⟨hr, ho⟩ | ⟨hr, hm, ho⟩ | ⟨hr, hm, _, ho⟩ | ⟨_, _, _, _, ho⟩
  · subst ho
    refine ⟨rfl, rfl, rfl, rfl, fun _ => rfl, ?_, ?_⟩
    · intro hr'
      rw [hr] at hr'
      exact absurd hr' (by decide)
    · intro hr'
      rw [hr] at hr'
      exact absurd hr' (by decide)
  · subst ho
    refine ⟨rfl, rfl, rfl, rfl, ?_, fun _ _ => rfl, ?_⟩
    · intro hr'
      rw [hr] at hr'
      exact absurd hr' (by decide)
    · intro _ hm'
      exact absurd hm' hm
  · subst ho
    refine ⟨rfl, rfl, rfl, rfl, ?_, ?_, fun _ _ => ⟨hres, rfl⟩⟩
    · intro hr'
      rw [hr] at hr'
      exact absurd hr' (by decide)
    · intro _ hm'
      exact absurd hm hm'
  · subst ho
    exact absurd hres (by simp [installDocument])

theorem openDocument_failure_witness :
    openDocument (pdfInput false []) twoObserversDocument =
      some { result := false
             doc := { twoObserversDocument with
                      generator := true, documentFileName := some "b.pdf",
                      pages_vector := [] }
             calls := [] } ∧
    QMap.find (loadedDocument (pdfInput false []) twoObserversDocument).observers 7 =
      some { observer := demoObserver, pageMemory := [(0, 39)], totalMemory := 39 } ∧
    ({ twoObserversDocument with
       generator := true, documentFileName := some "b.pdf",
       pages_vector := ([] : List KPDFPage) }).observers = twoObserversDocument.observers :=
  ⟨by decide, by decide,
   (openDocument_failure (pdfInput false []) twoObserversDocument
      { result := false
        doc := { twoObserversDocument with
                 generator := true, documentFileName := some "b.pdf", pages_vector := [] }
        calls := [] }
      (by decide) rfl).1⟩

/-- C20, as stated, fails: the load of a readable PDF file reports success
and leaves an empty page vector; `openDocument` returns true, the page list
is empty and no observer has been called. -/
theorem openDocument_empty_counterexample :
    openDocument (pdfInput true []) (closeDocument twoObserversDocument) =
      some { result := true
             doc := { closeDocument twoObserversDocument with
                      generator := true, documentFileName := some "b.pdf" }
             calls := [] } ∧
    ({ closeDocument twoObserversDocument with
       generator := true, documentFileName := some "b.pdf" }).pages_vector = [] := by
  decide

/-- C20, amended: when the load yields an empty page sequence, `openDocument`
returns the success flag of the generator (true when the generator reports
success), leaves the page list empty and calls no observer; whenever
`openDocument` returns true and the loaded page sequence is not empty, the
page vector is the loaded one and `pageSetup` with that page list and
`documentChanged = true` has been called on the observer of every entry of
the observers map. -/
theorem openDocument_installs (i : OpenInput) (s : KPDFDocument) (o : Opened)
    (h : openDocument i s = some o) :
    (i.readable = true →
      (i.mimeName = "application/pdf" ∨ i.mimeName = "application/postscript") →
      i.loaded = [] →
      o.result = i.openOk ∧ o.doc.pages_vector = [] ∧ o.calls = []) ∧
    (o.result = true → i.loaded ≠ [] →
      o.doc.pages_vector = i.loaded ∧ o.doc.pages_vector ≠ [] ∧
      ∀ e, e ∈ s.observers →
        (e.2.observer, Notification.pageSetup i.loaded true) ∈ o.calls) := by
  have hobs : ∀ d : KPDFDocument, (loadDocumentInfo i.activePage d).observers =
      d.observers := by
    intro d
    unfold loadDocumentInfo
    cases i.activePage with
    | none => rfl
    | some page =>
      simp only
      split <;> rfl
  have hpv : ∀ d : KPDFDocument, (loadDocumentInfo i.activePage d).pages_vector =
      d.pages_vector := by
    intro d
    unfold loadDocumentInfo
    cases i.activePage with
    | none => rfl
    | some page =>
      simp only
      split <;> rfl
  have hinstall : (installDocument i (loadedDocument i s)).doc.pages_vector = i.loaded := by
    show (setCurrentPage _ _).pages_vector = i.loaded
    unfold setCurrentPage
    split
    · exact hpv _
    · exact hpv _
  rcases openDocument_cases i s o h with
    ⟨hr, ho⟩ | ⟨hr, hm, ho⟩ | ⟨hr, hm, hfail, ho⟩ | ⟨_, _, _, hne, ho⟩
  · subst ho
    refine ⟨?_, ?_⟩
    · intro hr'
      rw [hr] at hr'
      exact absurd hr' (by decide)
    · intro hres
      exact absurd hres Bool.false_ne_true
  · subst ho
    refine ⟨?_, ?_⟩
    · intro _ hm'
      exact absurd hm' hm
    · intro hres
      exact absurd hres Bool.false_ne_true
  · subst ho
    refine ⟨?_, ?_⟩
    · intro _ _ hempty
      exact ⟨rfl, hempty, rfl⟩
    · intro hres hne
      rcases hfail with hfail | hfail
      · have hres' : i.openOk = true := hres
        rw [hfail] at hres'
        exact absurd hres' (by decide)
      · exact absurd hfail hne
  · subst ho
    refine ⟨?_, ?_⟩
    · intro _ _ hempty
      exact absurd hempty hne
    · intro _ _
      refine ⟨hinstall, by rw [hinstall]; exact hne, ?_⟩
      intro e he
      show (e.2.observer, Notification.pageSetup i.loaded true) ∈
        processPageListCalls true (loadDocumentInfo i.activePage (loadedDocument i s)) ++ _
      apply List.mem_append_left
      unfold processPageListCalls foreachObserver
      rw [hobs, hpv]
      exact List.mem_map.2 ⟨e, he, rfl⟩

theorem openDocument_installs_witness :
    openDocument (pdfInput true freshDocument.pages_vector)
        (closeDocument twoObserversDocument) =
      some { result := true
             doc := { closeDocument twoObserversDocument with
                      generator := true, documentFileName := some "b.pdf",
                      pages_vector := freshDocument.pages_vector, currentPage := 0 }
             calls :=
               [(otherObserver, Notification.pageSetup freshDocument.pages_vector true),
                (demoObserver, Notification.pageSetup freshDocument.pages_vector true),
                (otherObserver, Notification.pageSetCurrent 0),
                (demoObserver, Notification.pageSetCurrent 0)] } ∧
    ({ closeDocument twoObserversDocument with
       generator := true, documentFileName := some "b.pdf",
       pages_vector := freshDocument.pages_vector,
       currentPage := (0 : Int) }).pages_vector = freshDocument.pages_vector :=
  ⟨by decide,
   ((openDocument_installs (pdfInput true freshDocument.pages_vector)
      (closeDocument twoObserversDocument)
      { result := true
        doc := { closeDocument twoObserversDocument with
                 generator := true, documentFileName := some "b.pdf",
                 pages_vector := freshDocument.pages_vector, currentPage := 0 }
        calls :=
          [(otherObserver, Notification.pageSetup freshDocument.pages_vector true),
           (demoObserver, Notification.pageSetup freshDocument.pages_vector true),
           (otherObserver, Notification.pageSetCurrent 0),
           (demoObserver, Notification.pageSetCurrent 0)] }
      (by decide)).2 rfl (by decide)).1⟩

/-! ## Requests that are not let through -/

/-- A pass leaves every page in place, with at most the pixmap of the
observer deleted. -/
theorem pageAt_mCleanupMemory (h : Host) (observerId : Int) (s : KPDFDocument) (p : Pass)
    (n : Int) (page : KPDFPage) (hp : mCleanupMemory h observerId s = some p)
    (hpage : pageAt s.pages_vector n = some page) :
    pageAt p.doc.pages_vector n = some page ∨
    pageAt p.doc.pages_vector n = some (page.deletePixmap observerId) := by
  obtain ⟨obs, _, hcase⟩ := mCleanupMemory_cases h observerId s p hp
  rcases hcase with ⟨_, hp'⟩ | ⟨_, w, hw, hp'⟩
  · subst hp'
    exact Or.inl hpage
  · subst hp'
    obtain ⟨_, hn⟩ := cleanupLoop_pages _ _ _ _ _ _ _ hw
    unfold pageAt at hpage ⊢
    by_cases hk : 0 ≤ n
    · simp only [hk, if_true] at hpage ⊢
      rcases hn n.toNat with h1 | ⟨_, h1⟩
      · exact Or.inl (by rw [h1]; exact hpage)
      · refine Or.inr ?_
        rw [h1, hpage]
        rfl
    · simp [hk] at hpage

/-- A request whose page is in the vector and has width or height below 1 is
skipped by the loop of `requestPixmaps` wherever it stands in the batch: the
result (document, forwarded requests, passes) is the one of the batch
without it. -/
theorem requestLoop_drops_small_page (r : PixmapRequest) (post : List PixmapRequest)
    (async : Bool) (pre : List PixmapRequest) :
    ∀ (host : Nat → Host) (s : KPDFDocument) (page : KPDFPage),
      pageAt s.pages_vector r.pageNumber = some page →
      (decide (page.width < 1) || decide (page.height < 1)) = true →
      requestLoop host (pre ++ r :: post) async s = requestLoop host (pre ++ post) async s := by
  induction pre with
  | nil =>
    intro host s page hp hb
    exact requestLoop_cons_dropped host r post async s page hp hb
  | cons q pre ih =>
    intro host s page hp hb
    simp only [List.cons_append]
    cases hq : pageAt s.pages_vector q.pageNumber with
    | none =>
      rw [requestLoop_cons_outside host q _ async s hq,
        requestLoop_cons_outside host q _ async s hq]
    | some pq =>
      cases hbq : (decide (pq.width < 1) || decide (pq.height < 1)) with
      | true =>
        rw [requestLoop_cons_dropped host q _ async s pq hq hbq,
          requestLoop_cons_dropped host q _ async s pq hq hbq]
        exact ih host s page hp hb
      | false =>
        have hv : validRequest s q = true := (validRequest_iff s q).2 ⟨pq, hq, hbq⟩
        rw [requestLoop_cons_valid host q _ async s hv,
          requestLoop_cons_valid host q _ async s hv]
        cases hacc : accountRequest q s with
        | none => rfl
        | some s1 =>
          simp only []
          cases hpass : mCleanupMemory (host 0) q.id s1 with
          | none => rfl
          | some p =>
            simp only []
            have hp1 : pageAt s1.pages_vector r.pageNumber = some page := by
              rw [accountRequest_pages q s s1 hacc]
              exact hp
            have hstep : requestLoop (fun i => host (i + 1)) (pre ++ r :: post) async p.doc =
                requestLoop (fun i => host (i + 1)) (pre ++ post) async p.doc := by
              rcases pageAt_mCleanupMemory (host 0) q.id s1 p r.pageNumber page hpass hp1 with
                h1 | h1
              · exact ih _ p.doc page h1 hb
              · exact ih _ p.doc (page.deletePixmap q.id) h1 hb
            rw [hstep]

/-- C11 at the failing input: a batch whose first request names page 5 of a
three-page document has no result, while the batch without that request
returns, forwards the remaining request and accounts for it. -/
theorem requestPixmaps_page_outside_vector :
    requestPixmaps (fun _ => demoHost MemoryLevel.Normal 131072 90000 [])
        [{ id := 7, pageNumber := 5, width := 100, height := 100 },
         { id := 7, pageNumber := 0, width := 100, height := 100 }] true freshDocument =
      none ∧
    requestPixmaps (fun _ => demoHost MemoryLevel.Normal 131072 90000 [])
        [{ id := 7, pageNumber := 0, width := 100, height := 100 }] true freshDocument =
      some { doc := scenarioDocument
             forwarded := [({ id := 7, pageNumber := 0, width := 100, height := 100 }, true)]
             passes := [{ observerId := 7, asked := [], removed := [] }] } ∧
    requestPixmaps (fun _ => demoHost MemoryLevel.Normal 131072 90000 [])
        [{ id := 7, pageNumber := 1, width := 100, height := 100 },
         { id := 7, pageNumber := 0, width := 100, height := 100 }] true flatPageDocument =
      requestPixmaps (fun _ => demoHost MemoryLevel.Normal 131072 90000 [])
        [{ id := 7, pageNumber := 0, width := 100, height := 100 }] true flatPageDocument := by
  decide

/-! ## Fallback readings -/

/-- C22: with a free-memory reading of 0, a total of the observer of at least
0 and a system total of at least 0, the target `memoryToFree` is the whole
total of the observer under every memory level (Normal, for the observer
`THUMBNAILS_ID` and for any other, Aggressive, and Low), so it is the target
the Low level computes. -/
theorem memoryToFree_fallback (h : Host) (observerId totalMemory : Int)
    (hfree : h.mFreeMemory = 0) (htot : 0 ≤ totalMemory) (hsys : 0 ≤ h.mTotalMemory) :
    memoryToFree h observerId totalMemory = totalMemory ∧
    memoryToFree h observerId totalMemory =
      memoryToFree { h with memoryLevel := MemoryLevel.Low } observerId totalMemory := by
  have h20 : 0 ≤ Int.tdiv h.mTotalMemory 20 := Int.tdiv_nonneg hsys (by decide)
  have h5 : 0 ≤ Int.tdiv h.mTotalMemory 5 := Int.tdiv_nonneg hsys (by decide)
  have hlow : memoryToFree { h with memoryLevel := MemoryLevel.Low } observerId totalMemory =
      totalMemory := by
    rw [memoryToFree_low _ observerId totalMemory rfl, max_eq_right htot]
  have hmain : memoryToFree h observerId totalMemory = totalMemory := by
    unfold memoryToFree clipValue switchMemoryToFree
    rw [hfree]
    cases h.memoryLevel with
    | Low =>
      simp only
      split <;> omega
    | Normal =>
      simp only [Int.zero_tdiv]
      by_cases hid : observerId = h.THUMBNAILS_ID
      · simp only [hid, if_true]
        split <;> omega
      · simp only [hid, if_false]
        split <;> omega
    | Aggressive =>
      simp only [Int.zero_tdiv]
      split <;> omega
  exact ⟨hmain, by rw [hmain, hlow]⟩

theorem memoryToFree_fallback_witness :
    (demoHost MemoryLevel.Normal 131072 0 []).mFreeMemory = 0 ∧
    memoryToFree (demoHost MemoryLevel.Normal 131072 0 []) 4 490 = 490 ∧
    memoryToFree (demoHost MemoryLevel.Normal 131072 0 []) 7 490 = 490 ∧
    memoryToFree (demoHost MemoryLevel.Aggressive 131072 0 []) 7 490 = 490 ∧
    memoryToFree (demoHost MemoryLevel.Low 131072 0 []) 7 490 = 490 :=
  ⟨rfl,
   (memoryToFree_fallback (demoHost MemoryLevel.Normal 131072 0 []) 4 490 rfl
      (by decide) (by decide)).1,
   by decide, by decide, by decide⟩

/-! ## page, reparseConfig, slotGeneratedContents -/

/-- C26: `page( n )` returns the page at index `n` when `n` is below the page
count and the null pointer when it is not; it has a result for every `n`
(the index is tested before the vector is read), and being a function of
the page vector alone it writes nothing. -/
theorem page_lookup (n : Nat) (s : KPDFDocument) :
    (∀ h : n < s.pages_vector.length,
      page n s = some (some (s.pages_vector.get ⟨n, h⟩))) ∧
    (s.pages_vector.length ≤ n → page n s = some none) ∧
    (page n s).isSome = true := by
  have hlt : ∀ h : n < s.pages_vector.length,
      page n s = some (some (s.pages_vector.get ⟨n, h⟩)) := by
    intro h
    unfold page pageAt
    rw [if_pos h]
    simp [List.getElem?_eq_getElem h]
  have hge : s.pages_vector.length ≤ n → page n s = some none := by
    intro h
    unfold page
    rw [if_neg (not_lt.2 h)]
  refine ⟨hlt, hge, ?_⟩
  by_cases h : n < s.pages_vector.length
  · rw [hlt h]
    rfl
  · rw [hge (not_lt.1 h)]
    rfl

/-- C25: `reparseConfig()` when a generator exists and reports a change:
afterwards no page holds a pixmap for any observer, and `notifyPixmapsCleared`
has been called exactly once per entry of the observers map, on its
observer, and nothing else has been called; when there is no generator or
it reports no change, the document is unchanged and no call is made. In
both cases only the pixmaps of the pages are written. -/
theorem reparseConfig_clears (changed : Bool) (s : KPDFDocument) :
    (s.generator = true → changed = true →
      (∀ p, p ∈ (reparseConfig changed s).pages_vector → p.pixmaps = []) ∧
      reparseConfigCalls changed s =
        s.observers.map (fun e => (e.2.observer, Notification.notifyPixmapsCleared))) ∧
    (s.generator = false ∨ changed = false →
      reparseConfig changed s = s ∧ reparseConfigCalls changed s = []) ∧
    (reparseConfig changed s).observers = s.observers ∧
    (reparseConfig changed s).pages_vector.length = s.pages_vector.length := by
  refine ⟨?_, ?_, ?_, ?_⟩
  · intro hg hc
    subst hc
    unfold reparseConfig reparseConfigCalls
    rw [hg]
    refine ⟨?_, rfl⟩
    intro p hp
    simp only [Bool.and_self, if_true, List.mem_map] at hp
    obtain ⟨p0, _, rfl⟩ := hp
    rfl
  · intro hno
    unfold reparseConfig reparseConfigCalls
    rcases hno with hno | hno
    · rw [hno]
      exact ⟨rfl, rfl⟩
    · rw [hno]
      simp
  · unfold reparseConfig
    split <;> rfl
  · unfold reparseConfig
    split
    · simp
    · rfl

/-- C24, as stated, fails: after `closeDocument` the page list is empty, yet a
completion for observer 7 and page 5 calls `notifyPixmapChanged( 5 )` on the
observer registered under 7. -/
theorem slotGeneratedContents_counterexample :
    (closeDocument twoObserversDocument).pages_vector = [] ∧
    slotGeneratedContents 7 5 (closeDocument twoObserversDocument) =
      [(demoObserver, Notification.notifyPixmapChanged 5)] := by
  decide

/-- C24, amended: `slotGeneratedContents( id, pageNumber )` calls
`notifyPixmapChanged( pageNumber )` exactly once, on the observer registered
under `id` and on nobody else, whenever `id` is registered, whatever the
page number (it is not compared with the page list); it makes no call when
`id` is not registered. The slot writes nothing: its embedding has no
document to return. -/
theorem slotGeneratedContents_notifies (id pageNumber : Int) (s : KPDFDocument) :
    (∀ obs, QMap.find s.observers id = some obs →
      slotGeneratedContents id pageNumber s =
        [(obs.observer, Notification.notifyPixmapChanged pageNumber)]) ∧
    (QMap.find s.observers id = none → slotGeneratedContents id pageNumber s = []) := by
  refine ⟨?_, ?_⟩
  · intro obs hobs
    simp only [slotGeneratedContents, hobs]
  · intro hobs
    simp only [slotGeneratedContents, hobs]

/-! ## setCurrentPage -/

/-- Apart from a page number equal to the page count, `setCurrentPage`
leaves a current page inside the page list of a document with at least one
page. -/
theorem setCurrentPage_in_range (p : Int) (s : KPDFDocument)
    (hn : 1 ≤ s.pages_vector.length) (hp : p ≠ (s.pages_vector.length : Int)) :
    0 ≤ (setCurrentPage p s).currentPage ∧
    (setCurrentPage p s).currentPage < (s.pages_vector.length : Int) := by
  have hclamp : 0 ≤ clampedPage p s ∧ clampedPage p s < (s.pages_vector.length : Int) := by
    unfold clampedPage
    have hn' : (1 : Int) ≤ (s.pages_vector.length : Int) := by exact_mod_cast hn
    split
    · omega
    · split <;> omega
  unfold setCurrentPage
  split
  · rename_i heq
    rw [← heq]
    exact hclamp
  · exact hclamp

/-- `setCurrentPage` calls the observers exactly when it changes the stored
current page, and then it calls `pageSetCurrent` with the new page once per
entry of the observers map. -/
theorem setCurrentPage_calls (p : Int) (s : KPDFDocument) :
    ((setCurrentPage p s).currentPage = s.currentPage → setCurrentPageCalls p s = []) ∧
    ((setCurrentPage p s).currentPage ≠ s.currentPage →
      setCurrentPageCalls p s =
        s.observers.map (fun e =>
          (e.2.observer, Notification.pageSetCurrent (setCurrentPage p s).currentPage))) := by
  by_cases h : clampedPage p s = s.currentPage
  · have h1 : setCurrentPage p s = s := by
      unfold setCurrentPage
      rw [if_pos h]
    have h2 : setCurrentPageCalls p s = [] := by
      unfold setCurrentPageCalls
      rw [if_pos h]
    rw [h1, h2]
    exact ⟨fun _ => rfl, fun hne => absurd rfl hne⟩
  · have h1 : (setCurrentPage p s).currentPage = clampedPage p s := by
      unfold setCurrentPage
      rw [if_neg h]
    have h2 : setCurrentPageCalls p s =
        foreachObserver s (Notification.pageSetCurrent (clampedPage p s)) := by
      unfold setCurrentPageCalls
      rw [if_neg h]
    rw [h1, h2]
    exact ⟨fun heq => absurd heq h, fun _ => rfl⟩

/-- C29 at the failing input: on a document of three pages
`setCurrentPage( 3 )` stores the current page 3, which is not below the page
count, and tells the observers so. -/
theorem setCurrentPage_page_count :
    freshDocument.pages_vector.length = 3 ∧
    (setCurrentPage 3 freshDocument).currentPage = 3 ∧
    setCurrentPageCalls 3 freshDocument = [(demoObserver, Notification.pageSetCurrent 3)] := by
  decide

/-! ## The memory probe -/

theorem scanMemTotal_none (field : String → Int) (lines : List String)
    (h : ∀ l, l ∈ lines → beginsWith l.toList "MemTotal:".toList = false) :
    scanMemTotal field lines = 131072 := by
  induction lines with
  | nil => rfl
  | cons l rest ih =>
    unfold scanMemTotal
    rw [h l (by simp)]
    simp only [Bool.false_eq_true, if_false]
    exact ih (fun l' hl' => h l' (List.mem_cons_of_mem _ hl'))

/-- C23: the fallbacks of the memory probe. When `/proc/meminfo` cannot be
opened `mFreeMemory` returns 0 and a first call of `mTotalMemory` (static
cache still 0) returns 131072; when the file can be opened but no line
starts with 'MemTotal:', a first call of `mTotalMemory` returns 131072 as
well. Both are total functions of the file contents: they return a value
for every input. -/
theorem memory_probe_fallbacks (field : String → Int) :
    mFreeMemory field none = 0 ∧
    (mTotalMemory field 0 none).1 = 131072 ∧
    (∀ lines : List String,
      (∀ l, l ∈ lines → beginsWith l.toList "MemTotal:".toList = false) →
      (mTotalMemory field 0 (some lines)).1 = 131072) ∧
    (∀ (cachedValue : Int) (meminfo : Option (List String)),
      ∃ v c, mTotalMemory field cachedValue meminfo = (v, c)) ∧
    (∀ meminfo : Option (List String), ∃ v, mFreeMemory field meminfo = v) := by
  refine ⟨rfl, rfl, ?_, fun c m => ⟨_, _, rfl⟩, fun m => ⟨_, rfl⟩⟩
  intro lines h
  show scanMemTotal field lines = 131072
  exact scanMemTotal_none field lines h

/-! ## Special commands -/

/-- A command that begins with 'papersize', case ignored, begins with 'pa'
and with none of 'color', 'html:<A href=' and 'pn'. -/
theorem beginsNoCase_papersize (cp : List Char)
    (h : beginsNoCase cp "papersize".toList = true) :
    beginsNoCase cp "color".toList = false ∧
    beginsNoCase cp "html:<A href=".toList = false ∧
    beginsNoCase cp "pn".toList = false ∧
    beginsNoCase cp "pa".toList = true := by
  match cp with
  | [] => simp [beginsNoCase] at h
  | [_] => simp [beginsNoCase] at h
  | c0 :: c1 :: rest =>
    have h0 : lowerCode c0 = 112 ∧ lowerCode c1 = 97 := by
      have hp : lowerCode 'p' = 112 := by decide
      have ha : lowerCode 'a' = 97 := by decide
      simp only [String.toList, beginsNoCase, Bool.and_eq_true, decide_eq_true_eq, hp, ha] at h
      exact ⟨h.1, h.2.1⟩
    have hc : lowerCode 'c' = 99 := by decide
    have hh : lowerCode 'h' = 104 := by decide
    have hp : lowerCode 'p' = 112 := by decide
    have hn : lowerCode 'n' = 110 := by decide
    have ha : lowerCode 'a' = 97 := by decide
    refine ⟨?_, ?_, ?_, ?_⟩
    · simp [String.toList, beginsNoCase, h0.1, hc]
    · simp [String.toList, beginsNoCase, h0.1, hh]
    · simp [String.toList, beginsNoCase, h0.1, h0.2, hp, hn]
    · simp [String.toList, beginsNoCase, h0.1, h0.2, hp, ha]

/-- What `applicationDoSpecial` does with a command that begins with
'papersize', case ignored: the test for the TPIC special 'pa' comes first
and takes it. During the prescan nothing is called; during rendering
`TPIC_addPath_special` is called on the text after the third character. -/
theorem applicationDoSpecial_papersize (cp : List Char) (prescan : Bool)
    (h : beginsNoCase cp "papersize".toList = true) :
    applicationDoSpecial cp prescan =
      if prescan then none else some (SpecialCall.TPIC_addPath_special (cp.drop 3)) := by
  obtain ⟨h1, h2, h3, h4⟩ := beginsNoCase_papersize cp h
  unfold applicationDoSpecial
  rw [h1, h2, h3, h4]
  cases prescan <;> rfl

/-- C28 at the failing input: for the special command 'papersize=a4'
`papersize_special` is not called during the prescan (nothing is), and
during rendering `TPIC_addPath_special` is called with 'ersize=a4'. -/
theorem applicationDoSpecial_papersize_shadowed :
    beginsNoCase "papersize=a4".toList "papersize".toList = true ∧
    applicationDoSpecial "papersize=a4".toList true = none ∧
    applicationDoSpecial "papersize=a4".toList true ≠
      some (SpecialCall.papersize_special "=a4".toList) ∧
    applicationDoSpecial "papersize=a4".toList false =
      some (SpecialCall.TPIC_addPath_special "ersize=a4".toList) := by
  decide

/-! ## The walk and its two-pass reference -/

theorem selectVictims_subset (can : Int → Bool) (m : QMap Int) :
    ∀ (T : Int) (e : Int × Int), e ∈ selectVictims can m T → e ∈ m := by
  induction m with
  | nil =>
    intro T e he
    simp [selectVictims] at he
  | cons e0 rest ih =>
    obtain ⟨k, d⟩ := e0
    intro T e he
    unfold selectVictims at he
    by_cases hT : T > 0
    · by_cases hc : can k = true
      · simp only [hT, hc, if_true, List.mem_cons] at he
        rcases he with he | he
        · exact List.mem_cons.2 (Or.inl he)
        · exact List.mem_cons_of_mem _ (ih _ e he)
      · simp only [hT, hc, if_true, Bool.false_eq_true, if_false] at he
        exact List.mem_cons_of_mem _ (ih _ e he)
    · simp [hT] at he

theorem removeSelected_nil (m : QMap Int) : removeSelected m [] = m := by
  simp [removeSelected]

/-- An entry in front of a well-formed map is not among what is selected
from the rest, and the rest does not contain it. -/
theorem head_not_mem_rest (k d : Int) (rest : QMap Int) (hwf : QMap.WF ((k, d) :: rest)) :
    ∀ e, e ∈ rest → e ≠ (k, d) := by
  have hwf' : (∀ a ∈ QMap.keys rest, k < a) ∧ QMap.WF rest := by
    simpa [QMap.WF, QMap.keys] using hwf
  intro e he heq
  have := hwf'.1 e.1 (List.mem_map.2 ⟨e, he, rfl⟩)
  rw [heq] at this
  exact lt_irrefl k this

theorem removeSelected_cons_selected (k d : Int) (rest : QMap Int) (sel : List (Int × Int))
    (hwf : QMap.WF ((k, d) :: rest)) :
    removeSelected ((k, d) :: rest) ((k, d) :: sel) = removeSelected rest sel := by
  unfold removeSelected
  rw [List.filter_cons_of_neg (by simp)]
  apply List.filter_congr
  intro e he
  have hne := head_not_mem_rest k d rest hwf e he
  simp [hne]

theorem removeSelected_cons_kept (k d : Int) (rest : QMap Int) (sel : List (Int × Int))
    (hwf : QMap.WF ((k, d) :: rest)) (hsel : ∀ e, e ∈ sel → e ∈ rest) :
    removeSelected ((k, d) :: rest) sel = (k, d) :: removeSelected rest sel := by
  unfold removeSelected
  have hnot : (k, d) ∉ sel := fun hmem =>
    head_not_mem_rest k d rest hwf (k, d) (hsel _ hmem) rfl
  rw [List.filter_cons_of_pos (by simpa using hnot)]

/-- The walk computes what the two-pass reference computes. -/
theorem cleanupLoop_eq_twoPass (can : Int → Bool) (id : Int) (m : QMap Int) :
    ∀ (T tot : Int) (pv : List KPDFPage), QMap.WF m →
      (cleanupLoop can id m T tot pv).map
          (fun w => (w.pageMemory, w.totalMemory, w.pages_vector, w.removed)) =
        (deletePixmaps id (QMap.keys (selectVictims can m T)) pv).map
          (fun pv' => (removeSelected m (selectVictims can m T),
            tot - QMap.total (selectVictims can m T), pv', selectVictims can m T)) := by
  induction m with
  | nil =>
    intro T tot pv _
    simp [cleanupLoop, selectVictims, deletePixmaps, QMap.keys, removeSelected, QMap.total]
  | cons e0 rest ih =>
    obtain ⟨k, d⟩ := e0
    intro T tot pv hwf
    have hwf' : (∀ a ∈ QMap.keys rest, k < a) ∧ QMap.WF rest := by
      simpa [QMap.WF, QMap.keys] using hwf
    by_cases hT : T > 0
    · by_cases hc : can k = true
      · have hsel : selectVictims can ((k, d) :: rest) T =
            (k, d) :: selectVictims can rest (T - d) := by
          simp [selectVictims, hT, hc]
        rw [hsel]
        unfold cleanupLoop
        simp only [hT, hc, if_true, QMap.keys, List.map_cons, deletePixmaps]
        cases hd : deletePixmapAt pv k id with
        | none => rfl
        | some pv' =>
          simp only []
          have ih' := ih (T - d) (tot - d) pv' hwf'.2
          simp only [QMap.keys] at ih'
          cases hl : cleanupLoop can id rest (T - d) (tot - d) pv' with
          | none =>
            rw [hl] at ih'
            cases hdp : deletePixmaps id
                (List.map Prod.fst (selectVictims can rest (T - d))) pv' with
            | none => rfl
            | some pv'' =>
              rw [hdp] at ih'
              simp at ih'
          | some w0 =>
            rw [hl] at ih'
            cases hdp : deletePixmaps id
                (List.map Prod.fst (selectVictims can rest (T - d))) pv' with
            | none =>
              rw [hdp] at ih'
              simp at ih'
            | some pv'' =>
              rw [hdp] at ih'
              simp only [Option.map_some', Option.some.injEq, Prod.mk.injEq] at ih' ⊢
              obtain ⟨h1, h2, h3, h4⟩ := ih'
              refine ⟨?_, ?_, h3, ?_⟩
              · rw [removeSelected_cons_selected k d rest _ hwf]
                exact h1
              · rw [h2, sizes_cons]
                ring
              · rw [h4]
      · have hc' : can k = false := by simpa using hc
        have hsel : selectVictims can ((k, d) :: rest) T = selectVictims can rest T := by
          simp [selectVictims, hT, hc']
        rw [hsel]
        unfold cleanupLoop
        simp only [hT, hc', if_true, Bool.false_eq_true, if_false]
        have ih' := ih T tot pv hwf'.2
        rw [removeSelected_cons_kept k d rest _ hwf (selectVictims_subset can rest T)]
        cases hl : cleanupLoop can id rest T tot pv with
        | none =>
          rw [hl] at ih'
          cases hdp : deletePixmaps id (QMap.keys (selectVictims can rest T)) pv with
          | none => rfl
          | some pv'' =>
            rw [hdp] at ih'
            simp at ih'
        | some w0 =>
          rw [hl] at ih'
          cases hdp : deletePixmaps id (QMap.keys (selectVictims can rest T)) pv with
          | none =>
            rw [hdp] at ih'
            simp at ih'
          | some pv'' =>
            rw [hdp] at ih'
            simp only [Option.map_some', Option.some.injEq, Prod.mk.injEq] at ih' ⊢
            obtain ⟨h1, h2, h3, h4⟩ := ih'
            exact ⟨by rw [h1], h2, h3, h4⟩
    · have hsel : selectVictims can ((k, d) :: rest) T = [] := by
        simp [selectVictims, hT]
      rw [hsel]
      unfold cleanupLoop
      simp [hT, deletePixmaps, QMap.keys, removeSelected, QMap.total]

/-- The pages the walk asks about are the keys of an initial part of the
map, in the order of the map. -/
theorem cleanupLoop_asked_initial (can : Int → Bool) (id : Int) (m : QMap Int) :
    ∀ (T tot : Int) (pv : List KPDFPage) (w : Walk),
      cleanupLoop can id m T tot pv = some w →
      ∃ n, w.asked = (QMap.keys m).take n := by
  induction m with
  | nil =>
    intro T tot pv w h
    rw [cleanupLoop_nil can id T tot pv w h]
    exact ⟨0, rfl⟩
  | cons e' rest ih =>
    obtain ⟨k, d⟩ := e'
    intro T tot pv w h
    rcases cleanupLoop_cons can id k d rest T tot pv w h with
      ⟨_, hw⟩ | ⟨_, _, w0, h0, hw⟩ | ⟨_, _, pv', w0, _, h0, hw⟩
    · subst hw
      exact ⟨0, rfl⟩
    · subst hw
      obtain ⟨n, hn⟩ := ih T tot pv w0 h0
      exact ⟨n + 1, by simp [QMap.keys, hn]⟩
    · subst hw
      obtain ⟨n, hn⟩ := ih _ _ _ w0 h0
      exact ⟨n + 1, by simp [QMap.keys, hn]⟩

/-- C27: the in-place walk of `mCleanupMemory` gives the result of the
removal-safe two-pass reference. For every well-formed mapping, target,
total, page vector and `canUnloadPixmap` predicate: the walk returns exactly
when the reference does, and then the mapping left is the mapping without
the selected entries, the total is the total less the selected sizes, the
pages are those with the pixmap deleted on each selected page, and the
removed entries are the selected ones, in order. Whenever the walk returns,
the pages it asked about are the keys of an initial part of the mapping, in
ascending order and so each at most once, and every entry left is an entry
of the mapping before, with its size. -/
theorem walk_refines_twoPass (can : Int → Bool) (id : Int) (m : QMap Int) (T tot : Int)
    (pv : List KPDFPage) (hwf : QMap.WF m) :
    (cleanupLoop can id m T tot pv).map
        (fun w => (w.pageMemory, w.totalMemory, w.pages_vector, w.removed)) =
      (deletePixmaps id (QMap.keys (selectVictims can m T)) pv).map
        (fun pv' => (removeSelected m (selectVictims can m T),
          tot - QMap.total (selectVictims can m T), pv', selectVictims can m T)) ∧
    ∀ w, cleanupLoop can id m T tot pv = some w →
      (∃ n, w.asked = (QMap.keys m).take n) ∧
      List.Pairwise (fun a b => a < b) w.asked ∧
      ∀ e, e ∈ w.pageMemory → e ∈ m := by
  refine ⟨cleanupLoop_eq_twoPass can id m T tot pv hwf, ?_⟩
  intro w hw
  obtain ⟨n, hn⟩ := cleanupLoop_asked_initial can id m T tot pv w hw
  refine ⟨⟨n, hn⟩, ?_, ?_⟩
  · rw [hn]
    exact List.Pairwise.sublist (List.take_sublist n _) hwf
  · intro e he
    exact (cleanupLoop_sublist can id m T tot pv w hw).subset he

theorem walk_refines_twoPass_witness :
    QMap.WF demoLedger.pageMemory ∧
    selectVictims (fun page => !([1].contains page)) demoLedger.pageMemory 90 =
      [(0, 39), (2, 351)] ∧
    cleanupLoop (fun page => !([1].contains page)) 7 demoLedger.pageMemory 90 490
        demoDocument.pages_vector =
      some { pageMemory := [(1, 100)]
             totalMemory := 100
             pages_vector := [{ number := 0, width := 600, height := 800, pixmaps := [] },
                              demoPage 1,
                              { number := 2, width := 600, height := 800, pixmaps := [] }]
             asked := [0, 1, 2]
             removed := [(0, 39), (2, 351)] } ∧
    (cleanupLoop (fun page => !([1].contains page)) 7 demoLedger.pageMemory 90 490
        demoDocument.pages_vector).map
        (fun w => (w.pageMemory, w.totalMemory, w.pages_vector, w.removed)) =
      (deletePixmaps 7
        (QMap.keys (selectVictims (fun page => !([1].contains page))
          demoLedger.pageMemory 90)) demoDocument.pages_vector).map
        (fun pv' => (removeSelected demoLedger.pageMemory
            (selectVictims (fun page => !([1].contains page)) demoLedger.pageMemory 90),
          490 - QMap.total
            (selectVictims (fun page => !([1].contains page)) demoLedger.pageMemory 90),
          pv',
          selectVictims (fun page => !([1].contains page)) demoLedger.pageMemory 90)) :=
  ⟨by decide, by decide, by decide,
   (walk_refines_twoPass (fun page => !([1].contains page)) 7 demoLedger.pageMemory 90 490
      demoDocument.pages_vector (by decide)).1⟩

/-! ## Isolation of observers -/

theorem mem_deletePixmap_ne (p : KPDFPage) (a b : Int) (hne : a ≠ b) :
    b ∈ (p.deletePixmap a).pixmaps ↔ b ∈ p.pixmaps := by
  simp only [KPDFPage.deletePixmap, List.mem_filter, decide_eq_true_eq]
  constructor
  · intro h
    exact h.1
  · intro h
    exact ⟨h, fun hba => hne hba.symm⟩

/-- A pass reads of the host the memory level, the two readings, the constant
and the answers of the observer of the pass, nothing else. -/
theorem mCleanupMemory_congr_host (h : Host) (f : KPDFDocumentObserver → Int → Bool)
    (a : Int) (s : KPDFDocument) (obs : ObserverData)
    (hobs : QMap.find s.observers a = some obs)
    (hf : ∀ page, f obs.observer page = h.canUnloadPixmap obs.observer page) :
    mCleanupMemory { h with canUnloadPixmap := f } a s = mCleanupMemory h a s := by
  have hfun : f obs.observer = h.canUnloadPixmap obs.observer := funext hf
  have hT : ∀ t, memoryToFree { h with canUnloadPixmap := f } a t = memoryToFree h a t :=
    fun t => rfl
  unfold mCleanupMemory
  simp only [hobs, hT, hfun]

/-- C30: isolation of observers. For two distinct registered ids a and b in
a state the document can reach: the accounting step of `requestPixmaps` for
a request that names a returns and leaves the ledger of b, the page vector
and the current page as they were; an eviction pass `mCleanupMemory( a )`
that returns leaves the ledger of b and the current page as they were,
keeps the page count and on every page the number, the size and whether it
holds a pixmap keyed by b, and is a pass of a; the observers of a and b are
different objects and the pass gives the same result whatever the observers
other than the one of a answer to `canUnloadPixmap`. -/
theorem observer_isolation (h : Host) (a b : Int) (s : KPDFDocument)
    (obsA obsB : ObserverData) (r : PixmapRequest) (hr : Reachable s) (hne : a ≠ b)
    (ha : QMap.find s.observers a = some obsA) (hb : QMap.find s.observers b = some obsB)
    (hid : r.id = a) :
    (∃ s1, accountRequest r s = some s1 ∧ QMap.find s1.observers b = some obsB ∧
      s1.pages_vector = s.pages_vector ∧ s1.currentPage = s.currentPage) ∧
    (∀ p, mCleanupMemory h a s = some p →
      QMap.find p.doc.observers b = some obsB ∧
      p.doc.currentPage = s.currentPage ∧
      p.doc.pages_vector.length = s.pages_vector.length ∧
      (∀ (n : Nat) (pg : KPDFPage), s.pages_vector[n]? = some pg →
        ∃ pg', p.doc.pages_vector[n]? = some pg' ∧ pg'.number = pg.number ∧
          pg'.width = pg.width ∧ pg'.height = pg.height ∧
          (b ∈ pg'.pixmaps ↔ b ∈ pg.pixmaps)) ∧
      p.observerId = a) ∧
    obsA.observer ≠ obsB.observer ∧
    (∀ f : KPDFDocumentObserver → Int → Bool,
      (∀ page, f obsA.observer page = h.canUnloadPixmap obsA.observer page) →
      mCleanupMemory { h with canUnloadPixmap := f } a s = mCleanupMemory h a s) := by
  have hkeyed := RegistryKeyed_of_Reachable s hr
  refine ⟨?_, ?_, ?_, ?_⟩
  · subst hid
    refine ⟨{ s with observers := QMap.insert s.observers r.id (updateStatistics r obsA) },
      ?_, ?_, rfl, rfl⟩
    · simp only [accountRequest, ha]
    · rw [QMap.find_insert_ne _ _ _ _ (fun hh => hne hh.symm)]
      exact hb
  · intro p hp
    have hfind : QMap.find p.doc.observers b = some obsB := by
      rw [mCleanupMemory_find_ne h a b s p (fun hh => hne hh.symm) hp]
      exact hb
    obtain ⟨obs0, _, hcase⟩ := mCleanupMemory_cases h a s p hp
    rcases hcase with ⟨_, hp'⟩ | ⟨_, w, hw, hp'⟩
    · subst hp'
      refine ⟨hfind, rfl, rfl, ?_, rfl⟩
      intro n pg hpg
      exact ⟨pg, hpg, rfl, rfl, rfl, Iff.rfl⟩
    · subst hp'
      obtain ⟨hlen, hn⟩ := cleanupLoop_pages _ _ _ _ _ _ _ hw
      refine ⟨hfind, rfl, hlen, ?_, rfl⟩
      intro n pg hpg
      rcases hn n with h1 | ⟨_, h1⟩
      · exact ⟨pg, by rw [h1]; exact hpg, rfl, rfl, rfl, Iff.rfl⟩
      · refine ⟨pg.deletePixmap a, ?_, rfl, rfl, rfl, mem_deletePixmap_ne pg a b hne⟩
        show w.pages_vector[n]? = some (pg.deletePixmap a)
        rw [h1, hpg]
        rfl
  · intro heq
    have h1 := RegistryKeyed_of_find _ _ obsA hkeyed ha
    have h2 := RegistryKeyed_of_find _ _ obsB hkeyed hb
    rw [heq, h2] at h1
    exact hne h1.symm
  · intro f hf
    exact mCleanupMemory_congr_host h f a s obsA ha hf

theorem observer_isolation_witness :
    Reachable twoObserversDocument ∧
    (7 : Int) ≠ 3 ∧
    QMap.find twoObserversDocument.observers 3 =
      some { observer := otherObserver, pageMemory := [(0, 156)], totalMemory := 156 } ∧
    (mCleanupMemory (demoHost MemoryLevel.Low 0 0 []) 7 twoObserversDocument).map
      (fun p => (QMap.find p.doc.observers 7, QMap.find p.doc.observers 3)) =
      some (some { observer := demoObserver, pageMemory := [], totalMemory := 0 },
        some { observer := otherObserver, pageMemory := [(0, 156)], totalMemory := 156 }) ∧
    demoObserver ≠ otherObserver :=
  have hr : Reachable twoObserversDocument :=
    Reachable.account { id := 3, pageNumber := 0, width := 200, height := 200 }
      { twoObserversDocument with
        observers := [(3, ObserverData.new otherObserver),
                      (7, { observer := demoObserver, pageMemory := [(0, 39)],
                            totalMemory := 39 })] }
      twoObserversDocument
      (Reachable.add otherObserver scenarioDocument
        (Reachable.account { id := 7, pageNumber := 0, width := 100, height := 100 }
          freshDocument scenarioDocument
          (Reachable.add demoObserver { freshDocument with observers := [] }
            (Reachable.other KPDFDocument.new { freshDocument with observers := [] }
              Reachable.new rfl))
          (by decide)))
      (by decide)
  ⟨hr, by decide, by decide, by decide,
   (observer_isolation (demoHost MemoryLevel.Low 0 0 []) 7 3 twoObserversDocument
      { observer := demoObserver, pageMemory := [(0, 39)], totalMemory := 39 }
      { observer := otherObserver, pageMemory := [(0, 156)], totalMemory := 156 }
      { id := 7, pageNumber := 0, width := 100, height := 100 }
      hr (by decide) (by decide) (by decide) rfl).2.2.1⟩

/-! ## slotCheckMemory -/

theorem pageAt_isSome_of_length (pv pv' : List KPDFPage) (k : Int)
    (hlen : pv'.length = pv.length) :
    (pageAt pv' k).isSome = (pageAt pv k).isSome := by
  unfold pageAt
  by_cases hk : 0 ≤ k
  · simp only [hk, if_true]
    by_cases hlt : k.toNat < pv.length
    · have h1 : k.toNat < pv'.length := by omega
      rw [List.getElem?_eq_getElem h1, List.getElem?_eq_getElem hlt]
      rfl
    · have h1 : pv'.length ≤ k.toNat := by omega
      rw [List.getElem?_eq_none h1, List.getElem?_eq_none (not_lt.1 hlt)]
  · simp [hk]

theorem overThreshold_mCleanupMemory (h : Host) (observerId other : Int) (s : KPDFDocument)
    (p : Pass) (hne : other ≠ observerId) (hp : mCleanupMemory h observerId s = some p) :
    overThreshold p.doc other = overThreshold s other := by
  unfold overThreshold
  rw [mCleanupMemory_find_ne h observerId other s p hne hp]

/-- In a well-formed observers map, the keys over the threshold are the keys
of the entries whose total is above 1024. -/
theorem keys_filter_overThreshold (s : KPDFDocument) (hwf : QMap.WF s.observers) :
    (QMap.keys s.observers).filter (overThreshold s) =
      (s.observers.filter (fun e => decide (e.2.totalMemory > 1024))).map Prod.fst := by
  unfold QMap.keys
  rw [List.filter_map]
  congr 1
  apply List.filter_congr
  intro e he
  have hfind : QMap.find s.observers e.1 = some e.2 :=
    QMap.find_of_mem_WF s.observers e.1 e.2 hwf he
  simp [overThreshold, hfind]

theorem deletePixmapAt_congr_length (pv pv' pv1' : List KPDFPage) (k id : Int)
    (hlen : pv.length = pv'.length) (h : deletePixmapAt pv' k id = some pv1') :
    ∃ pv1, deletePixmapAt pv k id = some pv1 ∧ pv1.length = pv1'.length := by
  obtain ⟨hk, p', hp', hset⟩ := deletePixmapAt_spec pv' pv1' k id h
  have hlt' : k.toNat < pv'.length := by
    by_contra hge
    rw [List.getElem?_eq_none (not_lt.1 hge)] at hp'
    exact Option.noConfusion hp'
  have hlt : k.toNat < pv.length := by omega
  refine ⟨pv.set k.toNat ((pv.get ⟨k.toNat, hlt⟩).deletePixmap id), ?_, ?_⟩
  · unfold deletePixmapAt pageAt
    simp only [hk, if_true]
    rw [List.getElem?_eq_getElem hlt]
    rfl
  · rw [hset, List.length_set, List.length_set]
    exact hlen

/-- The ledger a walk leaves, the pages it asks about and the entries it
removes do not depend on the pixmaps of the pages, only on how many pages
there are. -/
theorem cleanupLoop_congr_pages (can : Int → Bool) (id : Int) (m : QMap Int) :
    ∀ (T tot : Int) (pv pv' : List KPDFPage) (w' : Walk), pv.length = pv'.length →
      cleanupLoop can id m T tot pv' = some w' →
      ∃ w, cleanupLoop can id m T tot pv = some w ∧ w.pageMemory = w'.pageMemory ∧
        w.totalMemory = w'.totalMemory ∧ w.asked = w'.asked ∧ w.removed = w'.removed ∧
        w.pages_vector.length = w'.pages_vector.length := by
  induction m with
  | nil =>
    intro T tot pv pv' w' hlen h
    rw [cleanupLoop_nil can id T tot pv' w' h]
    exact ⟨_, rfl, rfl, rfl, rfl, rfl, hlen⟩
  | cons e rest ih =>
    obtain ⟨k, d⟩ := e
    intro T tot pv pv' w' hlen h
    rcases cleanupLoop_cons can id k d rest T tot pv' w' h with
      ⟨hT, hw⟩ | ⟨hT, hc, w0, hw0, hw⟩ | ⟨hT, hc, pv1', w0, hd, hw0, hw⟩
    · subst hw
      refine ⟨{ pageMemory := (k, d) :: rest, totalMemory := tot, pages_vector := pv,
                asked := [], removed := [] }, ?_, rfl, rfl, rfl, rfl, hlen⟩
      unfold cleanupLoop
      rw [if_neg hT]
    · subst hw
      obtain ⟨v, hv, h1, h2, h3, h4, h5⟩ := ih T tot pv pv' w0 hlen hw0
      refine ⟨{ v with pageMemory := (k, d) :: v.pageMemory, asked := k :: v.asked },
        ?_, ?_, h2, ?_, h4, h5⟩
      · unfold cleanupLoop
        rw [if_pos hT]
        simp only [hc, Bool.false_eq_true, if_false, hv]
      · show (k, d) :: v.pageMemory = (k, d) :: w0.pageMemory
        rw [h1]
      · show k :: v.asked = k :: w0.asked
        rw [h3]
    · subst hw
      obtain ⟨pv1, hd1, hlen1⟩ := deletePixmapAt_congr_length pv pv' pv1' k id hlen hd
      obtain ⟨v, hv, h1, h2, h3, h4, h5⟩ := ih (T - d) (tot - d) pv1 pv1' w0 hlen1 hw0
      refine ⟨{ v with asked := k :: v.asked, removed := (k, d) :: v.removed },
        ?_, h1, h2, ?_, ?_, h5⟩
      · unfold cleanupLoop
        rw [if_pos hT]
        simp only [hc, if_true, hd1, hv]
      · show k :: v.asked = k :: w0.asked
        rw [h3]
      · show (k, d) :: v.removed = (k, d) :: w0.removed
        rw [h4]

/-- A pass keeps the number of pages. -/
theorem mCleanupMemory_length (h : Host) (observerId : Int) (s : KPDFDocument) (p : Pass)
    (hp : mCleanupMemory h observerId s = some p) :
    p.doc.pages_vector.length = s.pages_vector.length := by
  obtain ⟨obs, _, hcase⟩ := mCleanupMemory_cases h observerId s p hp
  rcases hcase with ⟨_, hp'⟩ | ⟨_, w, hw, hp'⟩
  · subst hp'
    rfl
  · subst hp'
    exact (cleanupLoop_pages _ _ _ _ _ _ _ hw).1

/-- The record of a pass and the ledger it leaves for its observer depend on
the document only through that ledger and the number of pages. -/
theorem mCleanupMemory_congr_pages (h : Host) (observerId : Int) (s s' : KPDFDocument)
    (p' : Pass) (hfind : QMap.find s.observers observerId = QMap.find s'.observers observerId)
    (hlen : s.pages_vector.length = s'.pages_vector.length)
    (hp : mCleanupMemory h observerId s' = some p') :
    ∃ p, mCleanupMemory h observerId s = some p ∧ p.toEviction = p'.toEviction ∧
      QMap.find p.doc.observers observerId = QMap.find p'.doc.observers observerId := by
  obtain ⟨obs, hobs, hcase⟩ := mCleanupMemory_cases h observerId s' p' hp
  rw [hobs] at hfind
  rcases hcase with ⟨hT, hp'⟩ | ⟨hT, w', hw', hp'⟩
  · subst hp'
    refine ⟨_, mCleanupMemory_of_le h observerId s obs hfind hT, rfl, ?_⟩
    show QMap.find s.observers observerId = QMap.find s'.observers observerId
    rw [hfind, hobs]
  · subst hp'
    obtain ⟨w, hw, h1, h2, h3, h4, _⟩ := cleanupLoop_congr_pages _ _ _ _ _
      s.pages_vector s'.pages_vector w' hlen hw'
    refine ⟨{ doc := { s with
                pages_vector := w.pages_vector
                observers := QMap.insert s.observers observerId
                  { obs with pageMemory := w.pageMemory, totalMemory := w.totalMemory } }
              observerId := observerId
              asked := w.asked
              removed := w.removed }, ?_, ?_, ?_⟩
    · unfold mCleanupMemory
      simp only [hfind, not_le.2 hT, if_false, hw]
    · show ({ observerId := observerId, asked := w.asked, removed := w.removed } : Eviction) =
        { observerId := observerId, asked := w'.asked, removed := w'.removed }
      rw [h3, h4]
    · show QMap.find (QMap.insert s.observers observerId _) observerId =
        QMap.find (QMap.insert s'.observers observerId _) observerId
      rw [QMap.find_insert_self, QMap.find_insert_self, h1, h2]

theorem mCleanupMemory_observerId (h : Host) (observerId : Int) (s : KPDFDocument) (p : Pass)
    (hp : mCleanupMemory h observerId s = some p) : p.observerId = observerId := by
  obtain ⟨_, _, hcase⟩ := mCleanupMemory_cases h observerId s p hp
  rcases hcase with ⟨_, hp'⟩ | ⟨_, _, _, hp'⟩
  · rw [hp']
  · rw [hp']

theorem evictEach_cons (host : Nat → Host) (id : Int) (rest : List Int) (s : KPDFDocument)
    (w : Sweep) (h : evictEach host (id :: rest) s = some w) :
    ∃ p w0, mCleanupMemory (host 0) id s = some p ∧
      evictEach (fun i => host (i + 1)) rest p.doc = some w0 ∧
      w = { w0 with passes := p.toEviction :: w0.passes } := by
  unfold evictEach at h
  cases hp : mCleanupMemory (host 0) id s with
  | none => simp [hp] at h
  | some p =>
    simp only [hp] at h
    cases hl : evictEach (fun i => host (i + 1)) rest p.doc with
    | none => simp [hl] at h
    | some w0 =>
      simp only [hl, Option.some.injEq] at h
      exact ⟨p, w0, rfl, hl, h.symm⟩

/-- The loop of `slotCheckMemory` over distinct ids is the run of the passes
for the ids that are over the threshold in the document it starts from. -/
theorem checkLoop_eq_evictEach (ids : List Int) :
    ∀ (host : Nat → Host) (s : KPDFDocument), ids.Nodup →
      checkLoop host ids s = evictEach host (ids.filter (overThreshold s)) s := by
  induction ids with
  | nil =>
    intro host s _
    rfl
  | cons id rest ih =>
    intro host s hnodup
    have hnodup' : id ∉ rest ∧ rest.Nodup := by simpa using hnodup
    unfold checkLoop
    cases hobs : QMap.find s.observers id with
    | none =>
      have hover : overThreshold s id = false := by simp [overThreshold, hobs]
      rw [List.filter_cons_of_neg (by simp [hover])]
      exact ih host s hnodup'.2
    | some obs =>
      simp only []
      by_cases hbig : obs.totalMemory > 1024
      · have hover : overThreshold s id = true := by simp [overThreshold, hobs, hbig]
        rw [List.filter_cons_of_pos hover, if_pos hbig]
        unfold evictEach
        cases hp : mCleanupMemory (host 0) id s with
        | none => rfl
        | some p =>
          have hfilter : rest.filter (overThreshold p.doc) =
              rest.filter (overThreshold s) := by
            apply List.filter_congr
            intro id' hid'
            exact overThreshold_mCleanupMemory (host 0) id id' s p
              (fun hh => hnodup'.1 (hh ▸ hid')) hp
          simp only []
          rw [ih (fun i => host (i + 1)) p.doc hnodup'.2, hfilter]
      · have hover : overThreshold s id = false := by simp [overThreshold, hobs, hbig]
        rw [List.filter_cons_of_neg (by simp [hover]), if_neg hbig]
        exact ih host s hnodup'.2

/-- A run of passes leaves the ledger of every id that is not in the list as
it is, and keeps the number of pages. -/
theorem evictEach_find_not_mem (ids : List Int) :
    ∀ (host : Nat → Host) (s : KPDFDocument) (w : Sweep),
      evictEach host ids s = some w →
      w.doc.pages_vector.length = s.pages_vector.length ∧
      ∀ id, id ∉ ids → QMap.find w.doc.observers id = QMap.find s.observers id := by
  induction ids with
  | nil =>
    intro host s w h
    simp only [evictEach, Option.some.injEq] at h
    subst h
    exact ⟨rfl, fun _ _ => rfl⟩
  | cons id0 rest ih =>
    intro host s w h
    obtain ⟨p, w0, hp, hw0, hw⟩ := evictEach_cons host id0 rest s w h
    subst hw
    obtain ⟨h1, h2⟩ := ih _ p.doc w0 hw0
    refine ⟨?_, ?_⟩
    · show w0.doc.pages_vector.length = s.pages_vector.length
      rw [h1]
      exact mCleanupMemory_length (host 0) id0 s p hp
    · intro id hid
      have hne : id ≠ id0 := fun hh => hid (by rw [hh]; exact List.mem_cons_self _ _)
      show QMap.find w0.doc.observers id = QMap.find s.observers id
      rw [h2 id (fun hh => hid (List.mem_cons_of_mem _ hh))]
      exact mCleanupMemory_find_ne (host 0) id0 id s p hne hp

/-- In a run of passes over distinct ids, the k-th pass has the record, and
leaves its observer the ledger, of the pass run for that id on the document
the run started from. -/
theorem evictEach_pass (ids : List Int) :
    ∀ (host : Nat → Host) (s : KPDFDocument) (w : Sweep), ids.Nodup →
      evictEach host ids s = some w →
      w.passes.map (fun e => e.observerId) = ids ∧
      ∀ (k : Nat) (id : Int), ids[k]? = some id →
        ∃ p, mCleanupMemory (host k) id s = some p ∧
          w.passes[k]? = some p.toEviction ∧
          QMap.find w.doc.observers id = QMap.find p.doc.observers id := by
  induction ids with
  | nil =>
    intro host s w _ h
    simp only [evictEach, Option.some.injEq] at h
    subst h
    refine ⟨rfl, ?_⟩
    intro k id hk
    simp at hk
  | cons id0 rest ih =>
    intro host s w hnodup h
    have hnodup' : id0 ∉ rest ∧ rest.Nodup := by simpa using hnodup
    obtain ⟨p0, w0, hp0, hw0, hw⟩ := evictEach_cons host id0 rest s w h
    subst hw
    obtain ⟨h1, h2⟩ := ih _ p0.doc w0 hnodup'.2 hw0
    refine ⟨?_, ?_⟩
    · show p0.observerId :: w0.passes.map (fun e => e.observerId) = id0 :: rest
      rw [h1, mCleanupMemory_observerId (host 0) id0 s p0 hp0]
    · intro k id hk
      cases k with
      | zero =>
        simp only [List.getElem?_cons_zero, Option.some.injEq] at hk
        subst hk
        refine ⟨p0, hp0, List.getElem?_cons_zero, ?_⟩
        exact (evictEach_find_not_mem rest _ p0.doc w0 hw0).2 id0 hnodup'.1
      | succ k =>
        simp only [List.getElem?_cons_succ] at hk
        obtain ⟨p', hp', hpass, hfind⟩ := h2 k id hk
        have hmem : id ∈ rest := List.getElem?_mem hk
        have hne : id ≠ id0 := fun hh => hnodup'.1 (hh ▸ hmem)
        obtain ⟨p, hp, hev, hf⟩ := mCleanupMemory_congr_pages (host (k + 1)) id s p0.doc p'
          (mCleanupMemory_find_ne (host 0) id0 id s p0 hne hp0).symm
          (mCleanupMemory_length (host 0) id0 s p0 hp0).symm hp'
        refine ⟨p, hp, ?_, ?_⟩
        · show (p0.toEviction :: w0.passes)[k + 1]? = some p.toEviction
          rw [List.getElem?_cons_succ, hpass, hev]
        · show QMap.find w0.doc.observers id = QMap.find p.doc.observers id
          rw [hfind, hf]

/-- A run of passes over distinct ids returns when each id of the list is
registered and every key of its ledger is the number of a page. -/
theorem evictEach_returns (ids : List Int) :
    ∀ (host : Nat → Host) (s : KPDFDocument), ids.Nodup →
      (∀ id, id ∈ ids → ∃ obs, QMap.find s.observers id = some obs ∧
        ∀ k, k ∈ QMap.keys obs.pageMemory → (pageAt s.pages_vector k).isSome = true) →
      ∃ w, evictEach host ids s = some w := by
  induction ids with
  | nil =>
    intro host s _ _
    exact ⟨_, rfl⟩
  | cons id0 rest ih =>
    intro host s hnodup hall
    have hnodup' : id0 ∉ rest ∧ rest.Nodup := by simpa using hnodup
    obtain ⟨obs, hobs, hv⟩ := hall id0 (List.mem_cons_self _ _)
    obtain ⟨p, hp⟩ := mCleanupMemory_returns (host 0) id0 s obs hobs hv
    have hrest : ∀ id, id ∈ rest → ∃ obs, QMap.find p.doc.observers id = some obs ∧
        ∀ k, k ∈ QMap.keys obs.pageMemory → (pageAt p.doc.pages_vector k).isSome = true := by
      intro id hid
      obtain ⟨o, ho, hk⟩ := hall id (List.mem_cons_of_mem _ hid)
      have hne : id ≠ id0 := fun hh => hnodup'.1 (hh ▸ hid)
      refine ⟨o, ?_, ?_⟩
      · rw [mCleanupMemory_find_ne (host 0) id0 id s p hne hp]
        exact ho
      · intro k hkk
        rw [pageAt_isSome_of_length s.pages_vector p.doc.pages_vector k
          (mCleanupMemory_length (host 0) id0 s p hp)]
        exact hk k hkk
    obtain ⟨w0, hw0⟩ := ih (fun i => host (i + 1)) p.doc hnodup'.2 hrest
    unfold evictEach
    rw [hp]
    simp only [hw0]
    exact ⟨_, rfl⟩
/-- C21: `slotCheckMemory()` on a document whose observers map is a
well-formed `QMap`. Under the Low level it returns the document unchanged and
runs no pass, so no observer is called. Under the other levels:
(1) it is the run of the eviction pass `mCleanupMemory` for exactly the
registered ids whose total is above 1024, in the order of the map, each pass
on the document the pass before it left, and for no other id (a pass leaves
the totals of the other observers alone, so the totals found at the visits
are the totals at the start); in particular it returns exactly when each of
these passes returns;
(2) it returns when every ledger with a total above 1024 has only numbers of
pages as keys;
(3) whenever it returns, the ids of the passes are exactly those ids, the
ledger of every observer whose total is at most 1024 is unchanged, and the
k-th pass has the record (pages asked about, entries removed) of, and leaves
its observer the ledger of, `mCleanupMemory` run for that id on the document
at the start. -/
theorem slotCheckMemory_housekeeping (host : Nat → Host) (s : KPDFDocument)
    (hwf : QMap.WF s.observers) :
    ((host 0).memoryLevel = MemoryLevel.Low →
      slotCheckMemory host s = some { doc := s, passes := [] }) ∧
    ((host 0).memoryLevel ≠ MemoryLevel.Low →
      slotCheckMemory host s =
        evictEach host
          ((s.observers.filter (fun e => decide (e.2.totalMemory > 1024))).map Prod.fst) s ∧
      ((∀ id obs, QMap.find s.observers id = some obs → obs.totalMemory > 1024 →
          ∀ k, k ∈ QMap.keys obs.pageMemory → (pageAt s.pages_vector k).isSome = true) →
        ∃ w, slotCheckMemory host s = some w) ∧
      ∀ w, slotCheckMemory host s = some w →
        w.passes.map (fun e => e.observerId) =
          (s.observers.filter (fun e => decide (e.2.totalMemory > 1024))).map Prod.fst ∧
        (∀ id obs, QMap.find s.observers id = some obs → obs.totalMemory ≤ 1024 →
          QMap.find w.doc.observers id = some obs) ∧
        ∀ (k : Nat) (id : Int),
          ((s.observers.filter (fun e => decide (e.2.totalMemory > 1024))).map Prod.fst)[k]? =
              some id →
          ∃ p, mCleanupMemory (host k) id s = some p ∧
            w.passes[k]? = some p.toEviction ∧
            QMap.find w.doc.observers id = QMap.find p.doc.observers id) := by
  refine ⟨?_, ?_⟩
  · intro hlow
    unfold slotCheckMemory
    rw [if_pos hlow]
  · intro hlevel
    have hnodup : (QMap.keys s.observers).Nodup :=
      List.Pairwise.imp (fun hab => ne_of_lt hab) hwf
    have hbig : ((QMap.keys s.observers).filter (overThreshold s)).Nodup := hnodup.filter _
    have hslot : slotCheckMemory host s =
        evictEach host ((QMap.keys s.observers).filter (overThreshold s)) s := by
      unfold slotCheckMemory
      rw [if_neg hlevel]
      exact checkLoop_eq_evictEach (QMap.keys s.observers) host s hnodup
    have hmem : ∀ id, id ∈ (QMap.keys s.observers).filter (overThreshold s) →
        ∃ obs, QMap.find s.observers id = some obs ∧ obs.totalMemory > 1024 := by
      intro id hid
      have hover : overThreshold s id = true := (List.mem_filter.1 hid).2
      unfold overThreshold at hover
      cases hobs : QMap.find s.observers id with
      | none => simp [hobs] at hover
      | some obs =>
        simp only [hobs, decide_eq_true_eq] at hover
        exact ⟨obs, rfl, hover⟩
    rw [← keys_filter_overThreshold s hwf]
    refine ⟨hslot, ?_, ?_⟩
    · intro hcover
      rw [hslot]
      apply evictEach_returns _ host s hbig
      intro id hid
      obtain ⟨obs, hobs, hgt⟩ := hmem id hid
      exact ⟨obs, hobs, hcover id obs hobs hgt⟩
    · intro w hw
      rw [hslot] at hw
      obtain ⟨h1, h2⟩ := evictEach_pass _ host s w hbig hw
      refine ⟨h1, ?_, h2⟩
      intro id obs hobs hle
      rw [(evictEach_find_not_mem _ host s w hw).2 id ?_]
      · exact hobs
      · intro hid
        obtain ⟨o, ho, hgt⟩ := hmem id hid
        rw [hobs] at ho
        have hoo : obs = o := Option.some.inj ho
        rw [← hoo] at hgt
        omega

theorem slotCheckMemory_housekeeping_witness :
    QMap.WF heavyDocument.observers ∧
    slotCheckMemory (fun _ => demoHost MemoryLevel.Low 131072 0 []) heavyDocument =
      some { doc := heavyDocument, passes := [] } ∧
    slotCheckMemory (fun _ => demoHost MemoryLevel.Aggressive 131072 2000 [1]) heavyDocument =
      evictEach (fun _ => demoHost MemoryLevel.Aggressive 131072 2000 [1]) [7] heavyDocument ∧
    slotCheckMemory (fun _ => demoHost MemoryLevel.Aggressive 131072 2000 [1]) heavyDocument =
      some { doc := { heavyDocument with
               pages_vector := [{ number := 0, width := 600, height := 800, pixmaps := [] },
                                demoPage 1,
                                { number := 2, width := 600, height := 800, pixmaps := [] }]
               observers := [(3, { observer := otherObserver, pageMemory := [(0, 156)],
                                   totalMemory := 156 }),
                             (7, { observer := demoObserver, pageMemory := [(1, 1000)],
                                   totalMemory := 1000 })] }
             passes := [{ observerId := 7, asked := [0, 1, 2],
                          removed := [(0, 39), (2, 351)] }] } ∧
    QMap.WF staleDocument.observers ∧
    slotCheckMemory (fun _ => demoHost MemoryLevel.Aggressive 131072 2000 [1, 2])
        staleDocument =
      evictEach (fun _ => demoHost MemoryLevel.Aggressive 131072 2000 [1, 2]) [7]
        staleDocument ∧
    slotCheckMemory (fun _ => demoHost MemoryLevel.Aggressive 131072 2000 [1, 2])
        staleDocument =
      some { doc := { staleDocument with
               pages_vector := [{ number := 0, width := 600, height := 800, pixmaps := [] }]
               observers := [(7, { observer := demoObserver
                                   pageMemory := [(1, 1000), (2, 351)]
                                   totalMemory := 1351 })] }
             passes := [{ observerId := 7, asked := [0, 1, 2], removed := [(0, 39)] }] } :=
  ⟨by decide,
   (slotCheckMemory_housekeeping (fun _ => demoHost MemoryLevel.Low 131072 0 [])
      heavyDocument (by decide)).1 rfl,
   ((slotCheckMemory_housekeeping
      (fun _ => demoHost MemoryLevel.Aggressive 131072 2000 [1])
      heavyDocument (by decide)).2 (by decide)).1,
   by decide,
   by decide,
   ((slotCheckMemory_housekeeping
      (fun _ => demoHost MemoryLevel.Aggressive 131072 2000 [1, 2])
      staleDocument (by decide)).2 (by decide)).1,
   by decide⟩

end KPDF
